import Mathlib

/-! Metadata operations of the plain object storage.

A shallow embedding of
`src/Disks/ObjectStorages/MetadataStorageFromPlainObjectStorageOperations.cpp`:
the five reversible metadata operations (create / move / remove directory,
write file, unlink metadata file), the in-memory directory path map they
mutate and the remote marker objects they write.

Paths are kept as their native strings.  The members of
`std::filesystem::path` the operations call (`parent_path`, `filename`,
`operator/`, comparison) are written out for the POSIX generic format, where a
path has no root name, a leading run of separators is the root directory and
any other run of separators separates two elements.

The last part embeds `convertPostgreSQLDataType` of
`src/Databases/PostgreSQL/fetchPostgreSQLTableStructure.cpp`, the conversion of
a PostgreSQL type name to a data type.
-/

namespace DB

/-! ## `std::filesystem::path` on POSIX -/

/-- The directory separator. -/
def sep : Char := '/'

/-- One separator for every run of separators.  Two paths compare equal
(`std::filesystem::path::compare`, which goes element by element) exactly when
their strings agree after this step. -/
def collapse : List Char → List Char
  | [] => []
  | [c] => [c]
  | c :: d :: rest =>
    if c = sep ∧ d = sep then collapse (d :: rest) else c :: collapse (d :: rest)

/-- The lexical form of a path: what the comparison of two
`std::filesystem::path` values looks at.  It is the key under which a
`std::map` over paths stores an entry, and it is what `data != path_from`
compares once `data` has been converted to a path. -/
def lexical (p : String) : String := ⟨collapse p.data⟩

/-- Embeds `path::parent_path()`: the path itself when it has no relative part (empty
or separators only), otherwise the longest prefix with one element fewer.  A
path that ends with a separator ends with an empty element, so only the
trailing separators go.  (When the result is a root directory written with
several separators, implementations differ in how many of them they keep; the
operations use the result as a map key only, where the number does not
matter.) -/
def parent_path (p : String) : String :=
  if p.data.all (fun c => c == sep) then p
  else
    match p.data.reverse with
    | [] => p
    | c :: r =>
      if c = sep then ⟨((c :: r).dropWhile (fun x => x == sep)).reverse⟩
      else
        let r1 := (c :: r).dropWhile (fun x => x != sep)
        if r1.all (fun x => x == sep) then ⟨r1.reverse⟩
        else ⟨(r1.dropWhile (fun x => x == sep)).reverse⟩

/-- Embeds `path::filename()`: the last element, which is what follows the last
separator (empty for a path that ends with a separator). -/
def filename (p : String) : String :=
  ⟨(p.data.reverse.takeWhile (fun x => x != sep)).reverse⟩

/-- Embeds `operator/` of `std::filesystem::path`: an absolute right operand replaces
the left one; otherwise a separator is added when the left operand has a
filename, and the right operand is appended. -/
def pathAppend (p q : String) : String :=
  match q.data with
  | c :: _ =>
    if c = sep then q
    else if filename p = "" then p ++ q else p ++ "/" ++ q
  | [] => if filename p = "" then p else p ++ "/"

/-! ## The state the operations work on -/

/-- Error codes the operations throw.  `OBJECT_STORAGE_ERROR` stands for
whatever the object storage itself raises (here: reading a key that holds no
object); `LOGICAL_ERROR` stands for the use of an empty node handle
(`map.extract(...).mapped()` on a path that is not in the map). -/
inductive ErrorCode
  | FILE_DOESNT_EXIST
  | FILE_ALREADY_EXISTS
  | INCORRECT_DATA
  | FAULT_INJECTED
  | OBJECT_STORAGE_ERROR
  | LOGICAL_ERROR
deriving DecidableEq, Repr

/-- Modelled from the spec: `InMemoryDirectoryPathMap::RemotePathInfo`, declared
in `InMemoryDirectoryPathMap.h`: the directory record with its remote key
prefix (`path`), its modification time and the set of interned filenames.  The
set holds iterators into `unique_filenames` ordered by the filename they point
to, so it is a set of filenames. -/
structure RemotePathInfo where
  path : String
  last_modified : Int
  filename_iterators : Finset String
deriving DecidableEq

/-- Modelled from the spec: `InMemoryDirectoryPathMap`, declared in
`InMemoryDirectoryPathMap.h`: the directory path index (`map`, a `std::map` from
`std::filesystem::path` to the record, stored here under the lexical form of
the path) and the filename pool (`unique_filenames`). -/
structure InMemoryDirectoryPathMap where
  map : Finmap (fun _ : String => RemotePathInfo)
  unique_filenames : Finset String
deriving DecidableEq

/-- Embeds `map.find(path)`. -/
def mapFind (m : Finmap (fun _ : String => RemotePathInfo)) (path : String) :
    Option RemotePathInfo :=
  m.lookup (lexical path)

/-- Embeds `map.contains(path)`. -/
def mapContains (m : Finmap (fun _ : String => RemotePathInfo)) (path : String) : Bool :=
  (mapFind m path).isSome

/-- Embeds `map.emplace(path, info)`: inserts only when the path has no entry; the
second component tells whether it did. -/
def mapEmplace (m : Finmap (fun _ : String => RemotePathInfo)) (path : String)
    (info : RemotePathInfo) : Finmap (fun _ : String => RemotePathInfo) × Bool :=
  if mapContains m path then (m, false) else (m.insert (lexical path) info, true)

/-- Embeds `map.extract(path)`: takes the entry out of the map; `none` is the empty node
handle. -/
def mapExtract (m : Finmap (fun _ : String => RemotePathInfo)) (path : String) :
    Option RemotePathInfo × Finmap (fun _ : String => RemotePathInfo) :=
  (mapFind m path, m.erase (lexical path))

/-- Modelled from the spec: `InMemoryDirectoryPathMap::removePathIfExists(path)`, declared
in `InMemoryDirectoryPathMap.h`: erases the entry ("remove the path from the index if
present") and tells whether there was one. -/
def removePathIfExists (pm : InMemoryDirectoryPathMap) (path : String) :
    InMemoryDirectoryPathMap × Bool :=
  ({ pm with map := pm.map.erase (lexical path) }, mapContains pm.map path)

/-- A call made to the object storage. -/
inductive RemoteCall
  | readObject (remote_path : String)
  | writeObject (remote_path : String)
  | finalize (remote_path : String) (data : String)
  | removeObject (remote_path : String)
  | removeObjectIfExists (remote_path : String)
deriving DecidableEq, Repr

/-- Modelled from the spec: the object storage behind `ObjectStoragePtr`
(`IObjectStorage`, not part of this file): the finalized objects by remote path,
and the calls made so far.  Per the spec, a write becomes visible at `finalize`,
which is the single commit point, and a delete of an absent object is not an
error. -/
structure ObjectStorage where
  objects : Finmap (fun _ : String => String)
  calls : List RemoteCall
deriving DecidableEq

/-- Modelled from the spec: `IObjectStorage::writeObject(object, WriteMode::Rewrite, ...)`:
opens a write buffer; nothing is stored before `finalize`. -/
def ObjectStorage.writeObject (os : ObjectStorage) (remote_path : String) : ObjectStorage :=
  { os with calls := os.calls ++ [RemoteCall.writeObject remote_path] }

/-- Modelled from the spec: `finalize()` of the write buffer opened for `remote_path`, which
holds `data`: the commit point of the write. -/
def ObjectStorage.finalize (os : ObjectStorage) (remote_path data : String) : ObjectStorage :=
  { objects := os.objects.insert remote_path data
    calls := os.calls ++ [RemoteCall.finalize remote_path data] }

/-- Modelled from the spec: `IObjectStorage::readObject(object)` read until EOF; `none` when
there is no object to read. -/
def ObjectStorage.readObject (os : ObjectStorage) (remote_path : String) :
    Option String × ObjectStorage :=
  (os.objects.lookup remote_path,
    { os with calls := os.calls ++ [RemoteCall.readObject remote_path] })

/-- Modelled from the spec: `IObjectStorage::removeObject(object)`; the spec has the delete
as idempotent, an absent object is not an error. -/
def ObjectStorage.removeObject (os : ObjectStorage) (remote_path : String) : ObjectStorage :=
  { objects := os.objects.erase remote_path
    calls := os.calls ++ [RemoteCall.removeObject remote_path] }

/-- Modelled from the spec: `IObjectStorage::removeObjectIfExists(object)`. -/
def ObjectStorage.removeObjectIfExists (os : ObjectStorage) (remote_path : String) :
    ObjectStorage :=
  { objects := os.objects.erase remote_path
    calls := os.calls ++ [RemoteCall.removeObjectIfExists remote_path] }

/-- Modelled from the spec: the counters named by
`object_storage->getMetadataStorageMetrics()`: three `CurrentMetrics` values and two
`ProfileEvents` counters. -/
structure Metrics where
  directory_map_size : Int
  unique_filenames_count : Int
  file_count : Int
  directory_created : Nat
  directory_removed : Nat
deriving DecidableEq, Repr

/-- Everything the operations share: the path map, the object storage and the
metrics. -/
structure State where
  path_map : InMemoryDirectoryPathMap
  object_storage : ObjectStorage
  metrics : Metrics
deriving DecidableEq

/-- The two fail points of `namespace FailPoints`: whether each is switched on. -/
structure FailPoints where
  plain_object_storage_write_fail_on_directory_create : Bool
  plain_object_storage_write_fail_on_directory_move : Bool
deriving DecidableEq, Repr

/-- No fail point is switched on. -/
def noFault : FailPoints := ⟨false, false⟩

/-- What a call of `execute` or `undo` leaves behind: the operation object with
its flags, the shared state, and the exception thrown, if any. -/
structure Outcome (Op : Type) where
  op : Op
  state : State
  error : Option ErrorCode

/-! ## Marker object key -/

/-- The name of the marker object. -/
def PREFIX_PATH_FILE_NAME : String := "prefix.path"

/-- Modelled from the spec: `ObjectStorageKey::createAsRelative(key_prefix, suffix)`
followed by `serialize()`, declared in `ObjectStorageKey.h`; the spec has the
marker key as `join(metadata-namespace, key_prefix, fixed-marker-name)`, so the
serialized key is the path join of the two parts. -/
def createAsRelative ( key_prefix suffix : String) : String :=
  pathAppend key_prefix suffix

/-- Embeds `createMetadataObjectKey(object_key_prefix, metadata_key_prefix)`, serialized. -/
def createMetadataObjectKey ( object_key_prefix metadata_key_prefix : String) : String :=
  createAsRelative (pathAppend metadata_key_prefix object_key_prefix) PREFIX_PATH_FILE_NAME

/-! ## MetadataStorageFromPlainObjectStorageCreateDirectoryOperation -/

/-- Embeds `MetadataStorageFromPlainObjectStorageCreateDirectoryOperation`.  The
constructor asks the object storage for `object_key_prefix`
(`generateObjectKeyPrefixForDirectoryPath`), so it is a field here. -/
structure MetadataStorageFromPlainObjectStorageCreateDirectoryOperation where
  path : String
  metadata_key_prefix : String
  object_key_prefix : String
deriving DecidableEq, Repr

/-- Embeds `MetadataStorageFromPlainObjectStorageCreateDirectoryOperation::execute`; `now` is
`Poco::Timestamp{}.epochTime()`. -/
def MetadataStorageFromPlainObjectStorageCreateDirectoryOperation.execute
    (op : MetadataStorageFromPlainObjectStorageCreateDirectoryOperation) (fp : FailPoints)
    (now : Int) (s : State) : Outcome MetadataStorageFromPlainObjectStorageCreateDirectoryOperation :=
  let base_path := parent_path op.path
  if mapContains s.path_map.map base_path then ⟨op, s, none⟩
  else
    let metadata_object_key :=
      createMetadataObjectKey op.object_key_prefix op.metadata_key_prefix
    let s1 : State :=
      { s with object_storage := s.object_storage.writeObject metadata_object_key }
    if fp.plain_object_storage_write_fail_on_directory_create then
      ⟨op, s1, some ErrorCode.FAULT_INJECTED⟩
    else
      let s2 : State :=
        { s1 with object_storage := s1.object_storage.finalize metadata_object_key op.path }
      let s3 : State :=
        { s2 with metrics :=
            { s2.metrics with directory_created := s2.metrics.directory_created + 1 } }
      let s4 : State :=
        { s3 with path_map :=
            { s3.path_map with map :=
                (mapEmplace s3.path_map.map base_path ⟨op.object_key_prefix, now, ∅⟩).1 } }
      let s5 : State :=
        { s4 with metrics :=
            { s4.metrics with directory_map_size := s4.metrics.directory_map_size + 1 } }
      ⟨op, s5, none⟩

/-- Embeds `MetadataStorageFromPlainObjectStorageCreateDirectoryOperation::undo`. -/
def MetadataStorageFromPlainObjectStorageCreateDirectoryOperation.undo
    (op : MetadataStorageFromPlainObjectStorageCreateDirectoryOperation) (s : State) :
    Outcome MetadataStorageFromPlainObjectStorageCreateDirectoryOperation :=
  let base_path := parent_path op.path
  let removed := removePathIfExists s.path_map base_path
  let s1 : State :=
    if removed.2 then
      { s with
        path_map := removed.1
        metrics := { s.metrics with directory_map_size := s.metrics.directory_map_size - 1 } }
    else { s with path_map := removed.1 }
  let metadata_object_key :=
    createMetadataObjectKey op.object_key_prefix op.metadata_key_prefix
  ⟨op, { s1 with object_storage := s1.object_storage.removeObjectIfExists metadata_object_key },
    none⟩

/-! ## MetadataStorageFromPlainObjectStorageMoveDirectoryOperation -/

/-- Embeds `MetadataStorageFromPlainObjectStorageMoveDirectoryOperation`. -/
structure MetadataStorageFromPlainObjectStorageMoveDirectoryOperation where
  path_from : String
  path_to : String
  metadata_key_prefix : String
  write_finalized : Bool
deriving DecidableEq, Repr

/-- Embeds `MetadataStorageFromPlainObjectStorageMoveDirectoryOperation::createWriteBuf`: the state
it leaves, and either the exception or the remote path of the write buffer it opened. In
`data != path_from` the left operand is a `std::string` and the right one the member of
type `std::filesystem::path`; the comparison that applies is the one of `path`, so `data`
is converted to a path and the two are compared element by element (`lexical`). -/
def MetadataStorageFromPlainObjectStorageMoveDirectoryOperation.createWriteBuf
    (op : MetadataStorageFromPlainObjectStorageMoveDirectoryOperation)
    (expected_path new_path : String) (validate_content : Bool) (s : State) :
    State × Except ErrorCode String :=
  match mapFind s.path_map.map (parent_path expected_path) with
  | none => (s, Except.error ErrorCode.FILE_DOESNT_EXIST)
  | some expected =>
    if mapContains s.path_map.map (parent_path new_path) then
      (s, Except.error ErrorCode.FILE_ALREADY_EXISTS)
    else
      let remote_path := expected.path
      let metadata_object_key := createMetadataObjectKey remote_path op.metadata_key_prefix
      let validated : State × Option ErrorCode :=
        if validate_content then
          let read := s.object_storage.readObject metadata_object_key
          let s1 : State := { s with object_storage := read.2 }
          match read.1 with
          | none => (s1, some ErrorCode.OBJECT_STORAGE_ERROR)
          | some data =>
            if lexical data ≠ lexical op.path_from then (s1, some ErrorCode.INCORRECT_DATA)
            else (s1, none)
        else (s, none)
      match validated with
      | (s1, some e) => (s1, Except.error e)
      | (s1, none) =>
        ({ s1 with object_storage := s1.object_storage.writeObject metadata_object_key },
          Except.ok metadata_object_key)

/-- Embeds `MetadataStorageFromPlainObjectStorageMoveDirectoryOperation::execute`. -/
def MetadataStorageFromPlainObjectStorageMoveDirectoryOperation.execute
    (op : MetadataStorageFromPlainObjectStorageMoveDirectoryOperation) (fp : FailPoints)
    (now : Int) (s : State) : Outcome MetadataStorageFromPlainObjectStorageMoveDirectoryOperation :=
  match op.createWriteBuf op.path_from op.path_to true s with
  | (s1, Except.error e) => ⟨op, s1, some e⟩
  | (s1, Except.ok write_buf) =>
    if fp.plain_object_storage_write_fail_on_directory_move then
      ⟨op, s1, some ErrorCode.FAULT_INJECTED⟩
    else
      let s2 : State :=
        { s1 with object_storage := s1.object_storage.finalize write_buf op.path_to }
      let base_path_to := parent_path op.path_to
      let base_path_from := parent_path op.path_from
      match mapExtract s2.path_map.map base_path_from with
      | (none, _) => ⟨op, s2, some ErrorCode.LOGICAL_ERROR⟩
      | (some info, m) =>
        let result := mapEmplace m base_path_to info
        let m1 :=
          match result.1.lookup (lexical base_path_to) with
          | some r => result.1.insert (lexical base_path_to) { r with last_modified := now }
          | none => result.1
        ⟨{ op with write_finalized := true },
          { s2 with path_map := { s2.path_map with map := m1 } }, none⟩

/-- Embeds `MetadataStorageFromPlainObjectStorageMoveDirectoryOperation::undo`. -/
def MetadataStorageFromPlainObjectStorageMoveDirectoryOperation.undo
    (op : MetadataStorageFromPlainObjectStorageMoveDirectoryOperation) (s : State) :
    Outcome MetadataStorageFromPlainObjectStorageMoveDirectoryOperation :=
  if op.write_finalized then
    match mapExtract s.path_map.map (parent_path op.path_to) with
    | (none, _) => ⟨op, s, some ErrorCode.LOGICAL_ERROR⟩
    | (some info, m) =>
      let s1 : State :=
        { s with path_map :=
            { s.path_map with map := (mapEmplace m (parent_path op.path_from) info).1 } }
      match op.createWriteBuf op.path_to op.path_from false s1 with
      | (s2, Except.error e) => ⟨op, s2, some e⟩
      | (s2, Except.ok write_buf) =>
        ⟨op, { s2 with object_storage := s2.object_storage.finalize write_buf op.path_from },
          none⟩
  else ⟨op, s, none⟩

/-! ## MetadataStorageFromPlainObjectStorageRemoveDirectoryOperation -/

/-- Embeds `MetadataStorageFromPlainObjectStorageRemoveDirectoryOperation`. -/
structure MetadataStorageFromPlainObjectStorageRemoveDirectoryOperation where
  path : String
  metadata_key_prefix : String
  key_prefix : String
  remove_attempted : Bool
deriving DecidableEq, Repr

/-- Embeds `MetadataStorageFromPlainObjectStorageRemoveDirectoryOperation::execute`. -/
def MetadataStorageFromPlainObjectStorageRemoveDirectoryOperation.execute
    (op : MetadataStorageFromPlainObjectStorageRemoveDirectoryOperation) (s : State) :
    Outcome MetadataStorageFromPlainObjectStorageRemoveDirectoryOperation :=
  let base_path := parent_path op.path
  match mapFind s.path_map.map base_path with
  | none => ⟨op, s, none⟩
  | some info =>
    let op1 : MetadataStorageFromPlainObjectStorageRemoveDirectoryOperation := { op with key_prefix := info.path }
    let metadata_object_key := createMetadataObjectKey op1.key_prefix op1.metadata_key_prefix
    let s1 : State :=
      { s with object_storage := s.object_storage.removeObject metadata_object_key }
    let removed := removePathIfExists s1.path_map base_path
    let s2 : State :=
      if removed.2 then
        { s1 with
          path_map := removed.1
          metrics :=
            { s1.metrics with
              directory_map_size := s1.metrics.directory_map_size - 1
              directory_removed := s1.metrics.directory_removed + 1 } }
      else { s1 with path_map := removed.1 }
    ⟨{ op1 with remove_attempted := true }, s2, none⟩

/-- Embeds `MetadataStorageFromPlainObjectStorageRemoveDirectoryOperation::undo`.
`map.emplace(path.parent_path(), key_prefix)` builds the record from the key prefix alone:
modification time 0 and no filenames. -/
def MetadataStorageFromPlainObjectStorageRemoveDirectoryOperation.undo
    (op : MetadataStorageFromPlainObjectStorageRemoveDirectoryOperation) (s : State) :
    Outcome MetadataStorageFromPlainObjectStorageRemoveDirectoryOperation :=
  if !op.remove_attempted then ⟨op, s, none⟩
  else
    let s1 : State :=
      { s with path_map :=
          { s.path_map with map :=
              (mapEmplace s.path_map.map (parent_path op.path) ⟨op.key_prefix, 0, ∅⟩).1 } }
    let s2 : State :=
      { s1 with metrics :=
          { s1.metrics with directory_map_size := s1.metrics.directory_map_size + 1 } }
    let metadata_object_key := createMetadataObjectKey op.key_prefix op.metadata_key_prefix
    let s3 : State :=
      { s2 with object_storage := s2.object_storage.writeObject metadata_object_key }
    ⟨op, { s3 with object_storage := s3.object_storage.finalize metadata_object_key op.path },
      none⟩

/-! ## MetadataStorageFromPlainObjectStorageWriteFileOperation -/

/-- Embeds `MetadataStorageFromPlainObjectStorageWriteFileOperation`. -/
structure MetadataStorageFromPlainObjectStorageWriteFileOperation where
  path : String
  written : Bool
deriving DecidableEq, Repr

/-- Embeds `MetadataStorageFromPlainObjectStorageWriteFileOperation::execute`. -/
def MetadataStorageFromPlainObjectStorageWriteFileOperation.execute
    (op : MetadataStorageFromPlainObjectStorageWriteFileOperation) (s : State) :
    Outcome MetadataStorageFromPlainObjectStorageWriteFileOperation :=
  match mapFind s.path_map.map (parent_path op.path) with
  | none => ⟨op, s, none⟩
  | some info =>
    let inserted := decide (filename op.path ∉ s.path_map.unique_filenames)
    let unique_filenames := insert (filename op.path) s.path_map.unique_filenames
    let metrics1 : Metrics :=
      if inserted then
        { s.metrics with unique_filenames_count := s.metrics.unique_filenames_count + 1 }
      else s.metrics
    let written := decide (filename op.path ∉ info.filename_iterators)
    let info1 : RemotePathInfo :=
      { info with filename_iterators := insert (filename op.path) info.filename_iterators }
    let metrics2 : Metrics :=
      if written then { metrics1 with file_count := metrics1.file_count + 1 } else metrics1
    ⟨{ op with written := written },
      { s with
        path_map :=
          { map := s.path_map.map.insert (lexical (parent_path op.path)) info1
            unique_filenames := unique_filenames }
        metrics := metrics2 },
      none⟩

/-- Embeds `MetadataStorageFromPlainObjectStorageWriteFileOperation::undo`. -/
def MetadataStorageFromPlainObjectStorageWriteFileOperation.undo
    (op : MetadataStorageFromPlainObjectStorageWriteFileOperation) (s : State) :
    Outcome MetadataStorageFromPlainObjectStorageWriteFileOperation :=
  if op.written then
    match mapFind s.path_map.map (parent_path op.path) with
    | none => ⟨op, s, none⟩
    | some info =>
      if filename op.path ∈ s.path_map.unique_filenames then
        let erased := decide (filename op.path ∈ info.filename_iterators)
        let info1 : RemotePathInfo :=
          { info with filename_iterators := info.filename_iterators.erase (filename op.path) }
        let s1 : State :=
          { s with path_map :=
              { s.path_map with
                map := s.path_map.map.insert (lexical (parent_path op.path)) info1 } }
        if erased then
          ⟨op, { s1 with metrics := { s1.metrics with file_count := s1.metrics.file_count - 1 } },
            none⟩
        else ⟨op, s1, none⟩
      else ⟨op, s, none⟩
  else ⟨op, s, none⟩

/-! ## MetadataStorageFromPlainObjectStorageUnlinkMetadataFileOperation -/

/-- Embeds `MetadataStorageFromPlainObjectStorageUnlinkMetadataFileOperation`.  The
constructor asks the object storage for `remote_path` (`generateObjectKeyForPath`),
which is only logged. -/
structure MetadataStorageFromPlainObjectStorageUnlinkMetadataFileOperation where
  path : String
  remote_path : String
  unlinked : Bool
deriving DecidableEq, Repr

/-- Embeds `MetadataStorageFromPlainObjectStorageUnlinkMetadataFileOperation::execute`. -/
def MetadataStorageFromPlainObjectStorageUnlinkMetadataFileOperation.execute
    (op : MetadataStorageFromPlainObjectStorageUnlinkMetadataFileOperation) (s : State) :
    Outcome MetadataStorageFromPlainObjectStorageUnlinkMetadataFileOperation :=
  match mapFind s.path_map.map (parent_path op.path) with
  | none => ⟨op, s, none⟩
  | some info =>
    let found := decide (filename op.path ∈ s.path_map.unique_filenames)
    let unlinked :=
      if found then decide (filename op.path ∈ info.filename_iterators) else op.unlinked
    let info1 : RemotePathInfo :=
      if found then
        { info with filename_iterators := info.filename_iterators.erase (filename op.path) }
      else info
    let s1 : State :=
      { s with path_map :=
          { s.path_map with
            map := s.path_map.map.insert (lexical (parent_path op.path)) info1 } }
    if unlinked then
      ⟨{ op with unlinked := unlinked },
        { s1 with metrics := { s1.metrics with file_count := s1.metrics.file_count - 1 } }, none⟩
    else ⟨{ op with unlinked := unlinked }, s1, none⟩

/-- Embeds `MetadataStorageFromPlainObjectStorageUnlinkMetadataFileOperation::undo`. -/
def MetadataStorageFromPlainObjectStorageUnlinkMetadataFileOperation.undo
    (op : MetadataStorageFromPlainObjectStorageUnlinkMetadataFileOperation) (s : State) :
    Outcome MetadataStorageFromPlainObjectStorageUnlinkMetadataFileOperation :=
  if op.unlinked then
    match mapFind s.path_map.map (parent_path op.path) with
    | none => ⟨op, s, none⟩
    | some info =>
      if filename op.path ∈ s.path_map.unique_filenames then
        let inserted := decide (filename op.path ∉ info.filename_iterators)
        let info1 : RemotePathInfo :=
          { info with filename_iterators := insert (filename op.path) info.filename_iterators }
        let s1 : State :=
          { s with path_map :=
              { s.path_map with
                map := s.path_map.map.insert (lexical (parent_path op.path)) info1 } }
        if inserted then
          ⟨op, { s1 with metrics := { s1.metrics with file_count := s1.metrics.file_count + 1 } },
            none⟩
        else ⟨op, s1, none⟩
      else ⟨op, s, none⟩
  else ⟨op, s, none⟩

/-! ## Constructors -/

/-- Embeds `MetadataStorageFromPlainObjectStorageCreateDirectoryOperation(path, path_map,
object_storage, metadata_key_prefix)`, with the key prefix the object storage generated. -/
def MetadataStorageFromPlainObjectStorageCreateDirectoryOperation.construct
    (path metadata_key_prefix object_key_prefix : String) :
    MetadataStorageFromPlainObjectStorageCreateDirectoryOperation :=
  ⟨path, metadata_key_prefix, object_key_prefix ⟩

/-- Embeds `MetadataStorageFromPlainObjectStorageMoveDirectoryOperation(path_from, path_to, ...)`:
`write_finalized` starts false. -/
def MetadataStorageFromPlainObjectStorageMoveDirectoryOperation.construct
    (path_from path_to metadata_key_prefix : String) :
    MetadataStorageFromPlainObjectStorageMoveDirectoryOperation :=
  ⟨path_from, path_to, metadata_key_prefix, false⟩

/-- Embeds `MetadataStorageFromPlainObjectStorageRemoveDirectoryOperation(path, ...)`: `key_prefix`
starts empty and `remove_attempted` false. -/
def MetadataStorageFromPlainObjectStorageRemoveDirectoryOperation.construct
    (path metadata_key_prefix : String) :
    MetadataStorageFromPlainObjectStorageRemoveDirectoryOperation :=
  ⟨path, metadata_key_prefix, "", false⟩

/-- Embeds `MetadataStorageFromPlainObjectStorageWriteFileOperation(path, ...)`: `written` starts false. -/
def MetadataStorageFromPlainObjectStorageWriteFileOperation.construct
    (path : String) : MetadataStorageFromPlainObjectStorageWriteFileOperation := ⟨path, false⟩

/-- Embeds `MetadataStorageFromPlainObjectStorageUnlinkMetadataFileOperation(path, ...)`: `unlinked`
starts false. -/
def MetadataStorageFromPlainObjectStorageUnlinkMetadataFileOperation.construct
    (path remote_path : String) :
    MetadataStorageFromPlainObjectStorageUnlinkMetadataFileOperation :=
  ⟨path, remote_path, false⟩

/-- The state with an empty index, an empty filename pool and an empty remote
store. -/
def emptyState (calls : List RemoteCall) (metrics : Metrics) : State :=
  ⟨⟨∅, ∅⟩, ⟨∅, calls⟩, metrics⟩

/-- The remote path a call to the object storage is about. -/
def RemoteCall.remote_path_of : RemoteCall → String
  | .readObject p => p
  | .writeObject p => p
  | .finalize p _ => p
  | .removeObject p => p
  | .removeObjectIfExists p => p

/-! ## The operations as the orchestrator runs them -/

/-- Modelled from the spec: the five operation kinds behind the uniform
`execute` / `undo` capability the orchestrator uses (the base class of the
operations, declared in a header that is not part of this file). -/
inductive MetadataOperation
  | createDirectory (op : MetadataStorageFromPlainObjectStorageCreateDirectoryOperation)
  | moveDirectory (op : MetadataStorageFromPlainObjectStorageMoveDirectoryOperation)
  | removeDirectory (op : MetadataStorageFromPlainObjectStorageRemoveDirectoryOperation)
  | writeFile (op : MetadataStorageFromPlainObjectStorageWriteFileOperation)
  | unlinkMetadataFile (op : MetadataStorageFromPlainObjectStorageUnlinkMetadataFileOperation)
deriving DecidableEq, Repr

/-- The virtual call `operation->execute(lock)`. -/
def MetadataOperation.execute (op : MetadataOperation) (fp : FailPoints) (now : Int)
    (s : State) : Outcome MetadataOperation :=
  match op with
  | .createDirectory o =>
    ⟨.createDirectory (o.execute fp now s).op, (o.execute fp now s).state,
      (o.execute fp now s).error⟩
  | .moveDirectory o =>
    ⟨.moveDirectory (o.execute fp now s).op, (o.execute fp now s).state,
      (o.execute fp now s).error⟩
  | .removeDirectory o =>
    ⟨.removeDirectory (o.execute s).op, (o.execute s).state, (o.execute s).error⟩
  | .writeFile o => ⟨.writeFile (o.execute s).op, (o.execute s).state, (o.execute s).error⟩
  | .unlinkMetadataFile o =>
    ⟨.unlinkMetadataFile (o.execute s).op, (o.execute s).state, (o.execute s).error⟩

/-- The virtual call `operation->undo(lock)`. -/
def MetadataOperation.undo (op : MetadataOperation) (s : State) : Outcome MetadataOperation :=
  match op with
  | .createDirectory o => ⟨.createDirectory (o.undo s).op, (o.undo s).state, (o.undo s).error⟩
  | .moveDirectory o => ⟨.moveDirectory (o.undo s).op, (o.undo s).state, (o.undo s).error⟩
  | .removeDirectory o => ⟨.removeDirectory (o.undo s).op, (o.undo s).state, (o.undo s).error⟩
  | .writeFile o => ⟨.writeFile (o.undo s).op, (o.undo s).state, (o.undo s).error⟩
  | .unlinkMetadataFile o =>
    ⟨.unlinkMetadataFile (o.undo s).op, (o.undo s).state, (o.undo s).error⟩

/-- Modelled from the spec: the undo phase of the orchestrator, which is not part
of this file: `undo` on the executed operations, the most recent first.  An
`undo` that throws ends the phase (the spec has it as a fatal inconsistency that
is not retried). -/
def undoExecuted : List MetadataOperation → State → State × Option ErrorCode
  | [], s => (s, none)
  | op :: earlier, s =>
    match (op.undo s).error with
    | some e => ((op.undo s).state, some e)
    | none => undoExecuted earlier (op.undo s).state

/-- Modelled from the spec: the orchestrator protocol, which is not part of this
file: "runs `execute` on each in order; on first failure, runs `undo` on all
already-executed operations in reverse order, then ... propagates the error".
`executed` holds the operations already executed, the most recent first.  The
result is the final state and the error of the failed `execute`, if any. -/
def runOperations (fp : FailPoints) (now : Int) :
    List MetadataOperation → List MetadataOperation → State → State × Option ErrorCode
  | [], _, s => (s, none)
  | op :: later, executed, s =>
    match (op.execute fp now s).error with
    | some e => ((undoExecuted executed (op.execute fp now s).state).1, some e)
    | none =>
      runOperations fp now later ((op.execute fp now s).op :: executed)
        (op.execute fp now s).state

/-- The states reachable from an empty index and an empty filename pool by
`execute` and `undo` calls of the five operations, in any order and on any
operation objects. -/
inductive Reachable : State → Prop
  | empty (object_storage : ObjectStorage) (metrics : Metrics) :
    Reachable ⟨⟨∅, ∅⟩, object_storage, metrics⟩
  | execute (op : MetadataOperation) (fp : FailPoints) (now : Int) (s : State) :
    Reachable s → Reachable (op.execute fp now s).state
  | undo (op : MetadataOperation) (s : State) :
    Reachable s → Reachable (op.undo s).state

/-! ## Invariants of the path map -/

/-- Referential integrity of the filename references: every filename in the
filename set of a directory record is in the filename pool. -/
def ReferentialIntegrity (pm : InMemoryDirectoryPathMap) : Prop :=
  ∀ x ∈ pm.map.keys, ∀ r ∈ pm.map.lookup x, r.filename_iterators ⊆ pm.unique_filenames

instance ReferentialIntegrity.decidable (pm : InMemoryDirectoryPathMap) :
    Decidable (ReferentialIntegrity pm) := by
  unfold ReferentialIntegrity
  infer_instance

/-- Prefix uniqueness: no two entries of the index share a key prefix (the
`path` of the record). -/
def PrefixUnique (m : Finmap (fun _ : String => RemotePathInfo)) : Prop :=
  ∀ x ∈ m.keys, ∀ y ∈ m.keys, ∀ r1 ∈ m.lookup x, ∀ r2 ∈ m.lookup y,
    r1.path = r2.path → x = y

instance PrefixUnique.decidable (m : Finmap (fun _ : String => RemotePathInfo)) :
    Decidable (PrefixUnique m) := by
  unfold PrefixUnique
  infer_instance

/-- No entry of the index has the given key prefix. -/
def PrefixUnused (m : Finmap (fun _ : String => RemotePathInfo)) ( key_prefix : String) :
    Prop :=
  ∀ x ∈ m.keys, ∀ r ∈ m.lookup x, r.path ≠ key_prefix

instance PrefixUnused.decidable (m : Finmap (fun _ : String => RemotePathInfo))
    ( key_prefix : String) : Decidable (PrefixUnused m key_prefix) := by
  unfold PrefixUnused
  infer_instance

/-- The change of the `directory_map_size` metric from the first state to the
second equals the change of the number of index entries. -/
def LockStep (s s2 : State) : Prop :=
  s2.metrics.directory_map_size - s.metrics.directory_map_size
    = (s2.path_map.map.keys.card : Int) - (s.path_map.map.keys.card : Int)

instance LockStep.decidable (s s2 : State) : Decidable (LockStep s s2) := by
  unfold LockStep
  infer_instance

/-- Existence correspondence with the marker content read as a path: every index
entry `p -> r` has a remote object at the marker key of `r.path` whose content
equals, as a path, `p` followed by the separator, and no two index entries have
the same marker key.  The marker key depends on the metadata key prefix of the
storage, which is a parameter. -/
def ExistenceCorrespondence ( metadata_key_prefix : String) (s : State) : Prop :=
  (∀ p ∈ s.path_map.map.keys, ∀ r ∈ s.path_map.map.lookup p,
    (s.object_storage.objects.lookup
      (createMetadataObjectKey r.path metadata_key_prefix)).map lexical
      = some (lexical (p ++ "/")))
  ∧ ∀ p ∈ s.path_map.map.keys, ∀ q ∈ s.path_map.map.keys,
      ∀ r1 ∈ s.path_map.map.lookup p, ∀ r2 ∈ s.path_map.map.lookup q,
        createMetadataObjectKey r1.path metadata_key_prefix
          = createMetadataObjectKey r2.path metadata_key_prefix → p = q

instance ExistenceCorrespondence.decidable ( metadata_key_prefix : String) (s : State) :
    Decidable (ExistenceCorrespondence metadata_key_prefix s) := by
  unfold ExistenceCorrespondence
  infer_instance

/-- Existence correspondence with the marker content compared as a string: the
content of the marker of the index entry `p -> r` is the string `p` followed by
one separator. -/
def ExistenceCorrespondenceVerbatim ( metadata_key_prefix : String) (s : State) : Prop :=
  (∀ p ∈ s.path_map.map.keys, ∀ r ∈ s.path_map.map.lookup p,
    s.object_storage.objects.lookup (createMetadataObjectKey r.path metadata_key_prefix)
      = some (p ++ "/"))
  ∧ ∀ p ∈ s.path_map.map.keys, ∀ q ∈ s.path_map.map.keys,
      ∀ r1 ∈ s.path_map.map.lookup p, ∀ r2 ∈ s.path_map.map.lookup q,
        createMetadataObjectKey r1.path metadata_key_prefix
          = createMetadataObjectKey r2.path metadata_key_prefix → p = q

instance ExistenceCorrespondenceVerbatim.decidable ( metadata_key_prefix : String)
    (s : State) : Decidable (ExistenceCorrespondenceVerbatim metadata_key_prefix s) := by
  unfold ExistenceCorrespondenceVerbatim
  infer_instance

/-- The marker key of the key prefix is used by no index entry and by no remote
object. -/
def MarkerKeyFresh ( metadata_key_prefix object_key_prefix : String) (s : State) : Prop :=
  (∀ p ∈ s.path_map.map.keys, ∀ r ∈ s.path_map.map.lookup p,
    createMetadataObjectKey r.path metadata_key_prefix
      ≠ createMetadataObjectKey object_key_prefix metadata_key_prefix)
  ∧ s.object_storage.objects.lookup
      (createMetadataObjectKey object_key_prefix metadata_key_prefix) = none

instance MarkerKeyFresh.decidable ( metadata_key_prefix object_key_prefix : String)
    (s : State) : Decidable (MarkerKeyFresh metadata_key_prefix object_key_prefix s) := by
  unfold MarkerKeyFresh
  infer_instance

/-! ## Sample states -/

/-- All counters at zero. -/
def zeroMetrics : Metrics := ⟨0, 0, 0, 0, 0⟩

/-- One directory `/db/t` with key prefix `k`, whose marker holds `/db/t/`. -/
def oneDirState : State :=
  ⟨⟨Finmap.singleton "/db/t" ⟨"k", 0, ∅⟩, ∅⟩,
    ⟨Finmap.singleton (createMetadataObjectKey "k" "meta") "/db/t/", []⟩, zeroMetrics⟩

/-- Two directories `/db/t` (prefix `k`) and `/db/t2` (prefix `k2`) with their
markers. -/
def twoDirState : State :=
  ⟨⟨(Finmap.singleton "/db/t" ⟨"k", 0, ∅⟩).insert "/db/t2" ⟨"k2", 0, ∅⟩, ∅⟩,
    ⟨(Finmap.singleton (createMetadataObjectKey "k" "meta") "/db/t/").insert
      (createMetadataObjectKey "k2" "meta") "/db/t2/", []⟩, zeroMetrics⟩

/-- The directory `/db/t` with key prefix `k`, whose marker holds the same path
written with a doubled separator. -/
def doubledSepState : State :=
  ⟨⟨Finmap.singleton "/db/t" ⟨"k", 0, ∅⟩, ∅⟩,
    ⟨Finmap.singleton (createMetadataObjectKey "k" "meta") "/db//t/", []⟩, zeroMetrics⟩

/-- The directory `/db/t` with key prefix `k`, whose marker holds another path. -/
def staleMarkerState : State :=
  ⟨⟨Finmap.singleton "/db/t" ⟨"k", 0, ∅⟩, ∅⟩,
    ⟨Finmap.singleton (createMetadataObjectKey "k" "meta") "/db/other/", []⟩, zeroMetrics⟩

/-- The directory `/db/t` with key prefix `k`, modification time 5 and the file
`part1`, whose marker holds `/db/t/`. -/
def filledDirState : State :=
  ⟨⟨Finmap.singleton "/db/t" ⟨"k", 5, {"part1"}⟩, {"part1"}⟩,
    ⟨Finmap.singleton (createMetadataObjectKey "k" "meta") "/db/t/", []⟩, zeroMetrics⟩

/-- Only the create fail point is switched on. -/
def createFault : FailPoints := ⟨true, false⟩

/-- Only the move fail point is switched on. -/
def moveFault : FailPoints := ⟨false, true⟩

/-! ## PostgreSQL type names

A shallow embedding of `convertPostgreSQLDataType` of
`src/Databases/PostgreSQL/fetchPostgreSQLTableStructure.cpp`. -/

/-- Embeds `std::string::starts_with`. -/
def starts_with (s x : String) : Bool := x.data.isPrefixOf s.data

/-- Embeds `std::string::ends_with`. -/
def ends_with (s x : String) : Bool := x.data.isSuffixOf s.data

/-- The decimal representations `Decimal32`, `Decimal64`, `Decimal128` and
`Decimal256`. -/
inductive Decimal
  | Decimal32
  | Decimal64
  | Decimal128
  | Decimal256
deriving DecidableEq, Repr

/-- The constants `DecimalUtils::max_precision<T>`: the number of decimal digits
each representation holds. -/
def max_precision : Decimal → Nat
  | .Decimal32 => 9
  | .Decimal64 => 18
  | .Decimal128 => 38
  | .Decimal256 => 76

/-- The data types `convertPostgreSQLDataType` builds, named after their
classes. -/
inductive IDataType
  | DataTypeInt16
  | DataTypeInt32
  | DataTypeInt64
  | DataTypeUInt8
  | DataTypeFloat32
  | DataTypeFloat64
  | DataTypeUInt32
  | DataTypeUInt64
  | DataTypeDateTime64 (scale : Nat)
  | DataTypeDate
  | DataTypeUUID
  | DataTypeDecimal (T : Decimal) (precision scale : Nat)
  | DataTypeString
  | DataTypeNullable (nested : IDataType)
  | DataTypeArray (nested : IDataType)
deriving DecidableEq, Repr

/-- The exceptions that leave `convertPostgreSQLDataType`: the one it throws
itself, with the code `BAD_ARGUMENTS`, and whatever the data type factory
throws. -/
inductive ConversionException
  | BAD_ARGUMENTS (precision scale : Nat)
  | thrownByFactory (code : Int)
deriving DecidableEq, Repr

/-- The data type library behind `DataTypeFactory::instance()`, which is not part
of this file: `get type` is what `DataTypeFactory::instance().get(type)`
followed by `getDecimalPrecision` and `getDecimalScale` of the returned type
gives, the code of the exception thrown or the precision and the scale.  It is a
parameter of the conversion. -/
structure DataTypeFactory where
  get : String → Except Int (Nat × Nat)

/-- What a call of `convertPostgreSQLDataType` leaves behind when it returns: the
data type returned, the string left in the reference parameter `type`, and the
number of times the callback `recheck_array` was invoked. -/
structure ConvertedType where
  res : IDataType
  type : String
  recheck_array : Nat
deriving DecidableEq, Repr

/-- Embeds the loop `while (type.ends_with("[]")) type.resize(type.size() - 2)`, on the
characters of `type` from the last to the first. -/
def resizeWhileArray : List Char → List Char
  | c :: d :: rest => if c = ']' ∧ d = '[' then resizeWhileArray rest else c :: d :: rest
  | l => l

/-- Embeds the first block of `convertPostgreSQLDataType`, which gets rid of the
trailing "[]" of `type`. -/
def withoutArraySuffix (type : String) : String :=
  if ends_with type "[]" then ⟨(resizeWhileArray type.data.reverse).reverse⟩ else type

/-- Embeds the chain of comparisons of `convertPostgreSQLDataType` on the name left
in `type`: the value of `res` after it, `none` for the null pointer. -/
def lookupDataType (factory : DataTypeFactory) (type : String) :
    Except ConversionException (Option IDataType) :=
  if type = "smallint" then .ok (some .DataTypeInt16)
  else if type = "integer" then .ok (some .DataTypeInt32)
  else if type = "bigint" then .ok (some .DataTypeInt64)
  else if type = "boolean" then .ok (some .DataTypeUInt8)
  else if type = "real" then .ok (some .DataTypeFloat32)
  else if type = "double precision" then .ok (some .DataTypeFloat64)
  else if type = "serial" then .ok (some .DataTypeUInt32)
  else if type = "bigserial" then .ok (some .DataTypeUInt64)
  else if starts_with type "timestamp" then .ok (some (.DataTypeDateTime64 6))
  else if type = "date" then .ok (some .DataTypeDate)
  else if type = "uuid" then .ok (some .DataTypeUUID)
  else if starts_with type "numeric" then
    if ends_with type ")" then
      match factory.get type with
      | .error code => .error (.thrownByFactory code)
      | .ok (precision, scale) =>
        if precision ≤ max_precision .Decimal32 then
          .ok (some (.DataTypeDecimal .Decimal32 precision scale))
        else if precision ≤ max_precision .Decimal64 then
          .ok (some (.DataTypeDecimal .Decimal64 precision scale))
        else if precision ≤ max_precision .Decimal128 then
          .ok (some (.DataTypeDecimal .Decimal128 precision scale))
        else if precision ≤ max_precision .Decimal256 then
          .ok (some (.DataTypeDecimal .Decimal256 precision scale))
        else .error (.BAD_ARGUMENTS precision scale)
    else
      .ok (some (.DataTypeDecimal .Decimal128 (max_precision .Decimal128)
        (max_precision .Decimal128 / 2)))
  else .ok none

/-- Embeds the loop `while (dimensions--) res = std::make_shared<DataTypeArray>(res)`. -/
def wrapInArrays : Nat → IDataType → IDataType
  | 0, res => res
  | dimensions + 1, res => wrapInArrays dimensions (.DataTypeArray res)

/-- Embeds `convertPostgreSQLDataType(type, recheck_array, is_nullable, dimensions)`.
`dimensions` is a `uint16_t`; the loop over it only counts down, so its
value is taken as a natural number.  The constructors of the data types are
taken as total. -/
def convertPostgreSQLDataType (factory : DataTypeFactory) (type : String)
    (is_nullable : Bool) (dimensions : Nat) : Except ConversionException ConvertedType :=
  let is_array := ends_with type "[]"
  let type1 := withoutArraySuffix type
  match lookupDataType factory type1 with
  | .error e => .error e
  | .ok res =>
    let res1 := res.getD IDataType.DataTypeString
    let res2 := if is_nullable then IDataType.DataTypeNullable res1 else res1
    if is_array then
      if dimensions = 0 then .ok ⟨.DataTypeArray res2, type1, 1⟩
      else .ok ⟨wrapInArrays dimensions res2, type1, 0⟩
    else .ok ⟨res2, type1, 0⟩

/-- The number of Array layers around a data type. -/
def arrayLayers : IDataType → Nat
  | .DataTypeArray nested => arrayLayers nested + 1
  | _ => 0

/-- The data type inside the Array layers. -/
def arrayElement : IDataType → IDataType
  | .DataTypeArray nested => arrayElement nested
  | t => t

/-- Whether a data type has an Array layer anywhere. -/
def hasArrayLayer : IDataType → Bool
  | .DataTypeArray _ => true
  | .DataTypeNullable nested => hasArrayLayer nested
  | _ => false

/-- The characters of `n` suffixes "[]". -/
def arraySuffixes : Nat → List Char
  | 0 => []
  | n + 1 => arraySuffixes n ++ ['[', ']']

/-- Whether a type name matches one of the comparisons of
`convertPostgreSQLDataType`: it is one of the ten names compared for equality, or
it starts with "timestamp" or with "numeric". -/
def knownTypeName (type : String) : Bool :=
  type = "smallint" || type = "integer" || type = "bigint" || type = "boolean"
    || type = "real" || type = "double precision" || type = "serial" || type = "bigserial"
    || starts_with type "timestamp" || type = "date" || type = "uuid"
    || starts_with type "numeric"

/-- A factory that knows no type: every `get` throws the code 50. -/
def emptyFactory : DataTypeFactory := ⟨fun _ => .error 50⟩

/-- A factory that gives every type name the precision 20 and the scale 4. -/
def sampleFactory : DataTypeFactory := ⟨fun _ => .ok (20, 4)⟩

/-! ## Finite map facts -/

theorem insert_empty_eq_singleton {β : Type} (a : String) (b : β) :
    Finmap.insert a b (∅ : Finmap (fun _ : String => β)) = Finmap.singleton a b := by
  apply Finmap.ext_lookup
  intro x
  by_cases h : x = a
  · subst h; simp [Finmap.lookup_insert, Finmap.lookup_singleton_eq]
  · rw [Finmap.lookup_insert_of_ne _ h]
    simp only [Finmap.lookup_empty]
    symm
    rw [Finmap.lookup_eq_none, Finmap.mem_singleton]
    exact h

theorem insert_singleton_same {β : Type} (a : String) (b c : β) :
    Finmap.insert a b (Finmap.singleton a c : Finmap (fun _ : String => β))
      = Finmap.singleton a b := by
  rw [← insert_empty_eq_singleton a c, Finmap.insert_insert, insert_empty_eq_singleton]

theorem erase_singleton_same {β : Type} (a : String) (c : β) :
    Finmap.erase a (Finmap.singleton a c : Finmap (fun _ : String => β)) = ∅ := by
  apply Finmap.ext_lookup
  intro x
  by_cases h : x = a
  · subst h; simp [Finmap.lookup_erase]
  · rw [Finmap.lookup_erase_ne h]
    simp only [Finmap.lookup_empty]
    rw [Finmap.lookup_eq_none, Finmap.mem_singleton]
    exact h

theorem lookup_singleton_of_ne {β : Type} (a x : String) (c : β) (h : x ≠ a) :
    Finmap.lookup x (Finmap.singleton a c : Finmap (fun _ : String => β)) = none := by
  rw [Finmap.lookup_eq_none, Finmap.mem_singleton]
  exact h

theorem mapFind_empty (path : String) : mapFind ∅ path = none := by
  simp [mapFind, Finmap.lookup_empty]

theorem mapFind_singleton_of_eq (a path : String) (c : RemotePathInfo) (h : lexical path = a) :
    mapFind (Finmap.singleton a c) path = some c := by
  subst h
  exact Finmap.lookup_singleton_eq

theorem mapFind_singleton_of_ne (a path : String) (c : RemotePathInfo) (h : lexical path ≠ a) :
    mapFind (Finmap.singleton a c) path = none :=
  lookup_singleton_of_ne a (lexical path) c h

/-! ## What each `execute` computes -/

theorem create_execute_of_present
    (op : MetadataStorageFromPlainObjectStorageCreateDirectoryOperation) (fp : FailPoints)
    (now : Int)
    (s : State) (h : mapContains s.path_map.map (parent_path op.path) = true) :
    op.execute fp now s = ⟨op, s, none⟩ := by
  simp [MetadataStorageFromPlainObjectStorageCreateDirectoryOperation.execute, h]

theorem create_execute_of_absent
    (op : MetadataStorageFromPlainObjectStorageCreateDirectoryOperation) (fp : FailPoints)
    (now : Int)
    (s : State) (h : mapFind s.path_map.map (parent_path op.path) = none)
    (hf : fp.plain_object_storage_write_fail_on_directory_create = false) :
    op.execute fp now s =
      ⟨op,
        { path_map :=
            { map := s.path_map.map.insert (lexical (parent_path op.path))
                ⟨op.object_key_prefix, now, ∅⟩
              unique_filenames := s.path_map.unique_filenames }
          object_storage :=
            { objects := s.object_storage.objects.insert
                (createMetadataObjectKey op.object_key_prefix op.metadata_key_prefix) op.path
              calls := s.object_storage.calls ++
                [RemoteCall.writeObject
                    (createMetadataObjectKey op.object_key_prefix op.metadata_key_prefix),
                  RemoteCall.finalize
                    (createMetadataObjectKey op.object_key_prefix op.metadata_key_prefix)
                    op.path] }
          metrics :=
            { s.metrics with
              directory_created := s.metrics.directory_created + 1
              directory_map_size := s.metrics.directory_map_size + 1 } },
        none⟩ := by
  simp [MetadataStorageFromPlainObjectStorageCreateDirectoryOperation.execute, mapContains,
    mapEmplace, h, hf,
    ObjectStorage.writeObject, ObjectStorage.finalize]

theorem move_execute_of_source_missing
    (op : MetadataStorageFromPlainObjectStorageMoveDirectoryOperation) (fp : FailPoints)
    (now : Int) (s : State) (h : mapFind s.path_map.map (parent_path op.path_from) = none) :
    op.execute fp now s = ⟨op, s, some ErrorCode.FILE_DOESNT_EXIST⟩ := by
  simp [MetadataStorageFromPlainObjectStorageMoveDirectoryOperation.execute,
    MetadataStorageFromPlainObjectStorageMoveDirectoryOperation.createWriteBuf, h]

theorem move_execute_of_destination_exists
    (op : MetadataStorageFromPlainObjectStorageMoveDirectoryOperation) (fp : FailPoints)
    (now : Int) (s : State) (r : RemotePathInfo)
    (h : mapFind s.path_map.map (parent_path op.path_from) = some r)
    (hto : mapContains s.path_map.map (parent_path op.path_to) = true) :
    op.execute fp now s = ⟨op, s, some ErrorCode.FILE_ALREADY_EXISTS⟩ := by
  simp [MetadataStorageFromPlainObjectStorageMoveDirectoryOperation.execute,
    MetadataStorageFromPlainObjectStorageMoveDirectoryOperation.createWriteBuf, h, hto]

theorem move_execute_of_unreadable
    (op : MetadataStorageFromPlainObjectStorageMoveDirectoryOperation) (fp : FailPoints)
    (now : Int) (s : State) (r : RemotePathInfo)
    (h : mapFind s.path_map.map (parent_path op.path_from) = some r)
    (hto : mapFind s.path_map.map (parent_path op.path_to) = none)
    (hobj : s.object_storage.objects.lookup
      (createMetadataObjectKey r.path op.metadata_key_prefix) = none) :
    op.execute fp now s =
      ⟨op,
        { s with object_storage :=
            { s.object_storage with calls := s.object_storage.calls ++
                [RemoteCall.readObject
                  (createMetadataObjectKey r.path op.metadata_key_prefix)] } },
        some ErrorCode.OBJECT_STORAGE_ERROR⟩ := by
  simp [MetadataStorageFromPlainObjectStorageMoveDirectoryOperation.execute,
    MetadataStorageFromPlainObjectStorageMoveDirectoryOperation.createWriteBuf, h, hto,
    mapContains, ObjectStorage.readObject, hobj]

theorem move_execute_of_incorrect_data
    (op : MetadataStorageFromPlainObjectStorageMoveDirectoryOperation) (fp : FailPoints)
    (now : Int) (s : State) (r : RemotePathInfo) (data : String)
    (h : mapFind s.path_map.map (parent_path op.path_from) = some r)
    (hto : mapFind s.path_map.map (parent_path op.path_to) = none)
    (hobj : s.object_storage.objects.lookup
      (createMetadataObjectKey r.path op.metadata_key_prefix) = some data)
    (hdata : lexical data ≠ lexical op.path_from) :
    op.execute fp now s =
      ⟨op,
        { s with object_storage :=
            { s.object_storage with calls := s.object_storage.calls ++
                [RemoteCall.readObject
                  (createMetadataObjectKey r.path op.metadata_key_prefix)] } },
        some ErrorCode.INCORRECT_DATA⟩ := by
  simp [MetadataStorageFromPlainObjectStorageMoveDirectoryOperation.execute,
    MetadataStorageFromPlainObjectStorageMoveDirectoryOperation.createWriteBuf, h, hto,
    mapContains, ObjectStorage.readObject, hobj, hdata]

theorem move_execute_of_fault
    (op : MetadataStorageFromPlainObjectStorageMoveDirectoryOperation) (fp : FailPoints)
    (now : Int) (s : State) (r : RemotePathInfo) (data : String)
    (h : mapFind s.path_map.map (parent_path op.path_from) = some r)
    (hto : mapFind s.path_map.map (parent_path op.path_to) = none)
    (hobj : s.object_storage.objects.lookup
      (createMetadataObjectKey r.path op.metadata_key_prefix) = some data)
    (hdata : lexical data = lexical op.path_from)
    (hf : fp.plain_object_storage_write_fail_on_directory_move = true) :
    op.execute fp now s =
      ⟨op,
        { s with object_storage :=
            { s.object_storage with calls := s.object_storage.calls ++
                [RemoteCall.readObject (createMetadataObjectKey r.path op.metadata_key_prefix),
                  RemoteCall.writeObject
                    (createMetadataObjectKey r.path op.metadata_key_prefix)] } },
        some ErrorCode.FAULT_INJECTED⟩ := by
  simp [MetadataStorageFromPlainObjectStorageMoveDirectoryOperation.execute,
    MetadataStorageFromPlainObjectStorageMoveDirectoryOperation.createWriteBuf, h, hto,
    mapContains, ObjectStorage.readObject, ObjectStorage.writeObject, hobj, hdata, hf]

theorem move_execute_of_ok
    (op : MetadataStorageFromPlainObjectStorageMoveDirectoryOperation) (fp : FailPoints)
    (now : Int) (s : State) (r : RemotePathInfo) (data : String)
    (h : mapFind s.path_map.map (parent_path op.path_from) = some r)
    (hto : mapFind s.path_map.map (parent_path op.path_to) = none)
    (hobj : s.object_storage.objects.lookup
      (createMetadataObjectKey r.path op.metadata_key_prefix) = some data)
    (hdata : lexical data = lexical op.path_from)
    (hf : fp.plain_object_storage_write_fail_on_directory_move = false) :
    op.execute fp now s =
      ⟨{ op with write_finalized := true },
        { path_map :=
            { map := (s.path_map.map.erase (lexical (parent_path op.path_from))).insert
                (lexical (parent_path op.path_to)) { r with last_modified := now }
              unique_filenames := s.path_map.unique_filenames }
          object_storage :=
            { objects := s.object_storage.objects.insert
                (createMetadataObjectKey r.path op.metadata_key_prefix) op.path_to
              calls := s.object_storage.calls ++
                [RemoteCall.readObject (createMetadataObjectKey r.path op.metadata_key_prefix),
                  RemoteCall.writeObject
                    (createMetadataObjectKey r.path op.metadata_key_prefix),
                  RemoteCall.finalize
                    (createMetadataObjectKey r.path op.metadata_key_prefix) op.path_to] }
          metrics := s.metrics },
        none⟩ := by
  have hne : lexical (parent_path op.path_to) ≠ lexical (parent_path op.path_from) := by
    intro heq
    unfold mapFind at h hto
    rw [heq, h] at hto
    exact Option.noConfusion hto
  have hto1 : Finmap.lookup (lexical (parent_path op.path_to))
      (s.path_map.map.erase (lexical (parent_path op.path_from))) = none := by
    rw [Finmap.lookup_erase_ne hne]
    exact hto
  simp [MetadataStorageFromPlainObjectStorageMoveDirectoryOperation.execute,
    MetadataStorageFromPlainObjectStorageMoveDirectoryOperation.createWriteBuf, h, hto,
    mapContains, ObjectStorage.readObject, ObjectStorage.writeObject, ObjectStorage.finalize,
    hobj, hdata, hf, mapExtract, mapEmplace]
  simp [mapFind, hto1, Finmap.lookup_insert, Finmap.insert_insert]

theorem remove_execute_of_absent
    (op : MetadataStorageFromPlainObjectStorageRemoveDirectoryOperation) (s : State)
    (h : mapFind s.path_map.map (parent_path op.path) = none) :
    op.execute s = ⟨op, s, none⟩ := by
  simp [MetadataStorageFromPlainObjectStorageRemoveDirectoryOperation.execute, h]

theorem remove_execute_of_present
    (op : MetadataStorageFromPlainObjectStorageRemoveDirectoryOperation) (s : State)
    (r : RemotePathInfo) (h : mapFind s.path_map.map (parent_path op.path) = some r) :
    op.execute s =
      ⟨{ op with key_prefix := r.path, remove_attempted := true },
        { path_map :=
            { map := s.path_map.map.erase (lexical (parent_path op.path))
              unique_filenames := s.path_map.unique_filenames }
          object_storage :=
            { objects := s.object_storage.objects.erase
                (createMetadataObjectKey r.path op.metadata_key_prefix)
              calls := s.object_storage.calls ++
                [RemoteCall.removeObject
                  (createMetadataObjectKey r.path op.metadata_key_prefix)] }
          metrics :=
            { s.metrics with
              directory_map_size := s.metrics.directory_map_size - 1
              directory_removed := s.metrics.directory_removed + 1 } },
        none⟩ := by
  simp [MetadataStorageFromPlainObjectStorageRemoveDirectoryOperation.execute, h,
    removePathIfExists, mapContains,
    ObjectStorage.removeObject]

theorem remove_undo_of_not_attempted
    (op : MetadataStorageFromPlainObjectStorageRemoveDirectoryOperation) (s : State)
    (h : op.remove_attempted = false) : op.undo s = ⟨op, s, none⟩ := by
  simp [MetadataStorageFromPlainObjectStorageRemoveDirectoryOperation.undo, h]

theorem write_execute_of_absent
    (op : MetadataStorageFromPlainObjectStorageWriteFileOperation) (s : State)
    (h : mapFind s.path_map.map (parent_path op.path) = none) :
    op.execute s = ⟨op, s, none⟩ := by
  simp [MetadataStorageFromPlainObjectStorageWriteFileOperation.execute, h]

theorem write_execute_of_present
    (op : MetadataStorageFromPlainObjectStorageWriteFileOperation) (s : State)
    (info : RemotePathInfo)
    (h : mapFind s.path_map.map (parent_path op.path) = some info) :
    op.execute s =
      ⟨{ op with written := decide (filename op.path ∉ info.filename_iterators) },
        { path_map :=
            { map := s.path_map.map.insert (lexical (parent_path op.path))
                { info with
                  filename_iterators := insert (filename op.path) info.filename_iterators }
              unique_filenames := insert (filename op.path) s.path_map.unique_filenames }
          object_storage := s.object_storage
          metrics :=
            { s.metrics with
              unique_filenames_count :=
                s.metrics.unique_filenames_count +
                  (if filename op.path ∈ s.path_map.unique_filenames then 0 else 1)
              file_count :=
                s.metrics.file_count +
                  (if filename op.path ∈ info.filename_iterators then 0 else 1) } },
        none⟩ := by
  by_cases h1 : filename op.path ∈ s.path_map.unique_filenames <;>
    by_cases h2 : filename op.path ∈ info.filename_iterators <;>
    simp [MetadataStorageFromPlainObjectStorageWriteFileOperation.execute, h, h1, h2]

/-! ## The path functions on the paths of the scenario -/

theorem parent_path_dir_t : parent_path "/db/t/" = "/db/t" := by decide

theorem parent_path_dir_t2 : parent_path "/db/t2/" = "/db/t2" := by decide

theorem parent_path_file_part1 : parent_path "/db/t/part1" = "/db/t" := by decide

theorem filename_file_part1 : filename "/db/t/part1" = "part1" := by decide

theorem lexical_db_t : lexical "/db/t" = "/db/t" := by decide

theorem lexical_db_t2 : lexical "/db/t2" = "/db/t2" := by decide

theorem db_t2_ne_db_t : "/db/t2" ≠ "/db/t" := by decide

theorem db_t_ne_db_t2 : "/db/t" ≠ "/db/t2" := by decide

theorem move_execute_error_ne_doesnt_exist
    (op : MetadataStorageFromPlainObjectStorageMoveDirectoryOperation) (fp : FailPoints)
    (now : Int) (s : State) (r : RemotePathInfo)
    (h : mapFind s.path_map.map (parent_path op.path_from) = some r) :
    (op.execute fp now s).error ≠ some ErrorCode.FILE_DOESNT_EXIST := by
  cases hto : mapFind s.path_map.map (parent_path op.path_to) with
  | some r2 =>
    rw [move_execute_of_destination_exists op fp now s r h (by simp [mapContains, hto])]
    simp
  | none =>
    cases hobj : s.object_storage.objects.lookup
        (createMetadataObjectKey r.path op.metadata_key_prefix) with
    | none =>
      rw [move_execute_of_unreadable op fp now s r h hto hobj]
      simp
    | some data =>
      by_cases hdata : lexical data = lexical op.path_from
      · cases hf : fp.plain_object_storage_write_fail_on_directory_move with
        | true =>
          rw [move_execute_of_fault op fp now s r data h hto hobj hdata hf]
          simp
        | false =>
          rw [move_execute_of_ok op fp now s r data h hto hobj hdata hf]
          simp
      · rw [move_execute_of_incorrect_data op fp now s r data h hto hobj hdata]
        simp

/-- A path that ends with one separator after a character that is not a
separator: `parent_path` takes exactly that separator away. -/
theorem parent_path_strips_trailing_sep (cs : List Char) (c : Char) (hc : c ≠ sep) :
    parent_path ⟨cs ++ [c, sep]⟩ = ⟨cs ++ [c]⟩ := by
  have hrev : (cs ++ [c, sep]).reverse = sep :: c :: cs.reverse := by
    simp [List.reverse_append]
  have hall : (cs ++ [c, sep]).all (fun x => x == sep) = false := by
    have hr : (cs ++ [c, sep]).reverse.all (fun x => x == sep) = false := by
      rw [hrev]
      simp [hc]
    rwa [List.all_reverse] at hr
  have hcs : (c == sep) = false := by simp [hc]
  have hdrop : List.dropWhile (fun x => x == sep) (sep :: c :: cs.reverse)
      = c :: cs.reverse := by
    simp [List.dropWhile, hcs]
  unfold parent_path
  simp only [hall, hrev, Bool.false_eq_true, if_false, if_true, hdrop]
  simp [List.reverse_cons]

/-! ## The claims -/

/-- C1: the end-to-end scenario.  From an empty index, pool and remote store,
without fault injection, Create("/db/t/") with key prefix `k`, WriteFile
("/db/t/part1"), Move("/db/t/", "/db/t2/") and Remove("/db/t2/") all succeed;
after Create the index is exactly `/db/t` with prefix `k` and no filenames and
the marker holds "/db/t/"; after WriteFile the filename set of `/db/t` is
`part1`; after Move the index holds `/db/t2` with prefix `k` and `part1`, `/db/t`
is gone and the marker holds "/db/t2/"; after Remove both paths are gone and
the marker object no longer exists. -/
theorem end_to_end_scenario (k m : String) (t1 t3 : Int) (calls : List RemoteCall)
    (metrics : Metrics) :
    let create :=
      (MetadataStorageFromPlainObjectStorageCreateDirectoryOperation.construct "/db/t/" m k).execute noFault t1
        (emptyState calls metrics)
    let write :=
      (MetadataStorageFromPlainObjectStorageWriteFileOperation.construct "/db/t/part1").execute create.state
    let move :=
      (MetadataStorageFromPlainObjectStorageMoveDirectoryOperation.construct "/db/t/" "/db/t2/" m).execute noFault t3
        write.state
    let remove :=
      (MetadataStorageFromPlainObjectStorageRemoveDirectoryOperation.construct "/db/t2/" m).execute move.state
    (create.error = none
      ∧ create.state.path_map.map = Finmap.singleton "/db/t" ⟨k, t1, ∅⟩
      ∧ create.state.object_storage.objects.lookup (createMetadataObjectKey k m)
          = some "/db/t/")
    ∧ (write.error = none
      ∧ (mapFind write.state.path_map.map "/db/t").map RemotePathInfo.filename_iterators
          = some {"part1"})
    ∧ (move.error = none
      ∧ mapFind move.state.path_map.map "/db/t2" = some ⟨k, t3, {"part1"}⟩
      ∧ mapFind move.state.path_map.map "/db/t" = none
      ∧ move.state.object_storage.objects.lookup (createMetadataObjectKey k m)
          = some "/db/t2/")
    ∧ (remove.error = none
      ∧ mapFind remove.state.path_map.map "/db/t" = none
      ∧ mapFind remove.state.path_map.map "/db/t2" = none
      ∧ remove.state.object_storage.objects.lookup (createMetadataObjectKey k m) = none) := by
  intro create write move remove
  have hc : create = ⟨MetadataStorageFromPlainObjectStorageCreateDirectoryOperation.construct "/db/t/" m k,
      ⟨⟨Finmap.singleton "/db/t" ⟨k, t1, ∅⟩, ∅⟩,
        ⟨Finmap.singleton (createMetadataObjectKey k m) "/db/t/",
          calls ++ [RemoteCall.writeObject (createMetadataObjectKey k m),
            RemoteCall.finalize (createMetadataObjectKey k m) "/db/t/"]⟩,
        { metrics with
          directory_created := metrics.directory_created + 1
          directory_map_size := metrics.directory_map_size + 1 }⟩, none⟩ := by
    have h :=
      create_execute_of_absent (MetadataStorageFromPlainObjectStorageCreateDirectoryOperation.construct "/db/t/" m k)
      noFault t1 (emptyState calls metrics) (mapFind_empty _) rfl
    simp only [create, h]
    simp [MetadataStorageFromPlainObjectStorageCreateDirectoryOperation.construct, emptyState,
      parent_path_dir_t, lexical_db_t, insert_empty_eq_singleton]
  have hw : write = ⟨⟨"/db/t/part1", true⟩,
      ⟨⟨Finmap.singleton "/db/t" ⟨k, t1, {"part1"}⟩, {"part1"}⟩,
        create.state.object_storage,
        { create.state.metrics with
          unique_filenames_count := create.state.metrics.unique_filenames_count + 1
          file_count := create.state.metrics.file_count + 1 }⟩, none⟩ := by
    have h :=
      write_execute_of_present (MetadataStorageFromPlainObjectStorageWriteFileOperation.construct "/db/t/part1")
      create.state ⟨k, t1, ∅⟩
      (by
        rw [hc]
        exact mapFind_singleton_of_eq _ _ _ (by simp [MetadataStorageFromPlainObjectStorageWriteFileOperation.construct,
          parent_path_file_part1, lexical_db_t]))
    simp only [write, h]
    simp [hc, MetadataStorageFromPlainObjectStorageWriteFileOperation.construct,
      parent_path_file_part1, lexical_db_t, filename_file_part1, insert_singleton_same]
  have hm : move = ⟨⟨"/db/t/", "/db/t2/", m, true⟩,
      ⟨⟨Finmap.singleton "/db/t2" ⟨k, t3, {"part1"}⟩, {"part1"}⟩,
        ⟨Finmap.singleton (createMetadataObjectKey k m) "/db/t2/",
          write.state.object_storage.calls ++
            [RemoteCall.readObject (createMetadataObjectKey k m),
              RemoteCall.writeObject (createMetadataObjectKey k m),
              RemoteCall.finalize (createMetadataObjectKey k m) "/db/t2/"]⟩,
        write.state.metrics⟩, none⟩ := by
    have h :=
      move_execute_of_ok (MetadataStorageFromPlainObjectStorageMoveDirectoryOperation.construct "/db/t/" "/db/t2/" m)
      noFault t3 write.state ⟨k, t1, {"part1"}⟩ "/db/t/"
      (by
        rw [hw]
        exact mapFind_singleton_of_eq _ _ _ (by simp [MetadataStorageFromPlainObjectStorageMoveDirectoryOperation.construct,
          parent_path_dir_t, lexical_db_t]))
      (by
        rw [hw]
        exact mapFind_singleton_of_ne _ _ _
          (by simp [MetadataStorageFromPlainObjectStorageMoveDirectoryOperation.construct,
            parent_path_dir_t2, lexical_db_t2, db_t2_ne_db_t]))
      (by rw [hw, hc]; exact Finmap.lookup_singleton_eq)
      rfl rfl
    simp only [move, h]
    simp [hw, hc, MetadataStorageFromPlainObjectStorageMoveDirectoryOperation.construct,
      parent_path_dir_t, parent_path_dir_t2, lexical_db_t, lexical_db_t2, erase_singleton_same,
      insert_empty_eq_singleton, insert_singleton_same]
  have hr : remove = ⟨⟨"/db/t2/", m, k, true⟩,
      ⟨⟨∅, {"part1"}⟩,
        ⟨∅, move.state.object_storage.calls ++
          [RemoteCall.removeObject (createMetadataObjectKey k m)]⟩,
        { move.state.metrics with
          directory_map_size := move.state.metrics.directory_map_size - 1
          directory_removed := move.state.metrics.directory_removed + 1 }⟩, none⟩ := by
    have h :=
      remove_execute_of_present (MetadataStorageFromPlainObjectStorageRemoveDirectoryOperation.construct "/db/t2/" m)
      move.state ⟨k, t3, {"part1"}⟩
      (by
        rw [hm]
        exact mapFind_singleton_of_eq _ _ _
          (by simp [MetadataStorageFromPlainObjectStorageRemoveDirectoryOperation.construct,
            parent_path_dir_t2, lexical_db_t2]))
    simp only [remove, h]
    simp [hm, MetadataStorageFromPlainObjectStorageRemoveDirectoryOperation.construct,
      parent_path_dir_t2, lexical_db_t2, erase_singleton_same]
  refine ⟨⟨?_, ?_, ?_⟩, ⟨?_, ?_⟩, ⟨?_, ?_, ?_, ?_⟩, ⟨?_, ?_, ?_, ?_⟩⟩
  · rw [hc]
  · rw [hc]
  · rw [hc]; exact Finmap.lookup_singleton_eq
  · rw [hw]
  · rw [hw]; simp [mapFind_singleton_of_eq _ _ _ lexical_db_t]
  · rw [hm]
  · rw [hm]; exact mapFind_singleton_of_eq _ _ _ lexical_db_t2
  · rw [hm]; exact mapFind_singleton_of_ne _ _ _ (by simp [lexical_db_t, db_t_ne_db_t2])
  · rw [hm]; exact Finmap.lookup_singleton_eq
  · rw [hr]
  · rw [hr]; exact mapFind_empty _
  · rw [hr]; exact mapFind_empty _
  · rw [hr]; exact Finmap.lookup_empty _

/-- C2: move preserves the prefix.  When A has the record `r`, B has none and
the marker of `r` holds A's path string, Move(A, B) without fault injection
succeeds; afterwards B's key holds `r` (same key prefix, same filenames) with a
new modification time, A's key is absent, every other index entry is as before,
and the remote store differs only at the marker key of `r`, which now holds B's
path string. -/
theorem move_preserves_prefix (A B m : String) (fp : FailPoints) (now : Int) (s : State)
    (r : RemotePathInfo)
    (hf : fp.plain_object_storage_write_fail_on_directory_move = false)
    (hA : mapFind s.path_map.map (parent_path A) = some r)
    (hB : mapFind s.path_map.map (parent_path B) = none)
    (hmarker : s.object_storage.objects.lookup (createMetadataObjectKey r.path m) = some A) :
    let out :=
      (MetadataStorageFromPlainObjectStorageMoveDirectoryOperation.construct A B m).execute fp now s
    out.error = none
    ∧ mapFind out.state.path_map.map (parent_path B)
        = some ⟨r.path, now, r.filename_iterators⟩
    ∧ mapFind out.state.path_map.map (parent_path A) = none
    ∧ (∀ x, x ≠ lexical (parent_path A) → x ≠ lexical (parent_path B) →
        out.state.path_map.map.lookup x = s.path_map.map.lookup x)
    ∧ out.state.object_storage.objects.lookup (createMetadataObjectKey r.path m) = some B
    ∧ (∀ y, y ≠ createMetadataObjectKey r.path m →
        out.state.object_storage.objects.lookup y = s.object_storage.objects.lookup y) := by
  intro out
  have hne : lexical (parent_path A) ≠ lexical (parent_path B) := by
    intro heq
    unfold mapFind at hA hB
    rw [heq, hB] at hA
    exact Option.noConfusion hA
  have hout : out = _ :=
    move_execute_of_ok (MetadataStorageFromPlainObjectStorageMoveDirectoryOperation.construct A B m)
      fp now s
    r A hA hB hmarker rfl hf
  rw [hout]
  dsimp only [MetadataStorageFromPlainObjectStorageMoveDirectoryOperation.construct, mapFind]
  refine ⟨rfl, ?_, ?_, ?_, ?_, ?_⟩
  · rw [Finmap.lookup_insert]
  · rw [Finmap.lookup_insert_of_ne _ hne, Finmap.lookup_erase]
  · intro x hxA hxB
    rw [Finmap.lookup_insert_of_ne _ hxB, Finmap.lookup_erase_ne hxA]
  · rw [Finmap.lookup_insert]
  · intro y hy
    rw [Finmap.lookup_insert_of_ne _ hy]

/-- C2 at a concrete state: `/db/t` with prefix `k` is moved to `/db/t2`. -/
theorem move_preserves_prefix_witness :
    ((MetadataStorageFromPlainObjectStorageMoveDirectoryOperation.construct
        "/db/t/" "/db/t2/" "meta").execute noFault 7
        oneDirState).error = none
    ∧ mapFind ((MetadataStorageFromPlainObjectStorageMoveDirectoryOperation.construct
          "/db/t/" "/db/t2/" "meta").execute noFault 7
        oneDirState).state.path_map.map (parent_path "/db/t2/") = some ⟨"k", 7, ∅⟩ :=
  have h := move_preserves_prefix "/db/t/" "/db/t2/" "meta" noFault 7 oneDirState ⟨"k", 0, ∅⟩
    (by decide) (by decide) (by decide) (by decide)
  ⟨h.1, h.2.1⟩

/-- C3, as amended: when the source A has a record and the destination B already
has a record, Move(A, B) fails with FILE_ALREADY_EXISTS, and the index, the
remote store and the operation are exactly as before the call. -/
theorem move_rejects_collision (A B m : String) (fp : FailPoints) (now : Int) (s : State)
    (hA : mapContains s.path_map.map (parent_path A) = true)
    (hB : mapContains s.path_map.map (parent_path B) = true) :
    let out :=
      (MetadataStorageFromPlainObjectStorageMoveDirectoryOperation.construct A B m).execute fp now s
    out.error = some ErrorCode.FILE_ALREADY_EXISTS
    ∧ out.state.path_map = s.path_map
    ∧ out.state.object_storage = s.object_storage
    ∧ out.op = MetadataStorageFromPlainObjectStorageMoveDirectoryOperation.construct A B m := by
  intro out
  cases hr : mapFind s.path_map.map (parent_path A) with
  | none => simp [mapContains, hr] at hA
  | some r =>
    have hout : out = _ := move_execute_of_destination_exists
      (MetadataStorageFromPlainObjectStorageMoveDirectoryOperation.construct A B m) fp now s r hr hB
    rw [hout]
    exact ⟨rfl, rfl, rfl, rfl⟩

/-- C3 as amended, at a concrete state: both `/db/t` and `/db/t2` exist. -/
theorem move_rejects_collision_witness :
    ((MetadataStorageFromPlainObjectStorageMoveDirectoryOperation.construct
        "/db/t/" "/db/t2/" "meta").execute noFault 7
      twoDirState).error = some ErrorCode.FILE_ALREADY_EXISTS :=
  (move_rejects_collision "/db/t/" "/db/t2/" "meta" noFault 7 twoDirState
    (by decide) (by decide)).1

/-- C3 as stated fails: the destination `/db/t` has a record, the source `/db/x`
has none, and the move fails with FILE_DOESNT_EXIST, not FILE_ALREADY_EXISTS. -/
theorem move_collision_with_missing_source :
    mapContains oneDirState.path_map.map (parent_path "/db/t/") = true
    ∧ ((MetadataStorageFromPlainObjectStorageMoveDirectoryOperation.construct
          "/db/x/" "/db/t/" "meta").execute noFault 7
        oneDirState).error = some ErrorCode.FILE_DOESNT_EXIST := by
  decide

/-- C4: Move(A, B) fails with FILE_DOESNT_EXIST exactly when A's index key has no
record, whatever B and the remote store are; on that failure the index, the
remote store and the metrics are unchanged and `write_finalized` is still
false. -/
theorem move_source_missing_iff (A B m : String) (fp : FailPoints) (now : Int) (s : State) :
    let out :=
      (MetadataStorageFromPlainObjectStorageMoveDirectoryOperation.construct A B m).execute fp now s
    (out.error = some ErrorCode.FILE_DOESNT_EXIST
      ↔ mapFind s.path_map.map (parent_path A) = none)
    ∧ (out.error = some ErrorCode.FILE_DOESNT_EXIST →
        out.state = s ∧ out.op.write_finalized = false) := by
  intro out
  have key : mapFind s.path_map.map (parent_path A) = none →
      out = ⟨MetadataStorageFromPlainObjectStorageMoveDirectoryOperation.construct A B m, s, some ErrorCode.FILE_DOESNT_EXIST⟩ :=
    fun h =>
      move_execute_of_source_missing (MetadataStorageFromPlainObjectStorageMoveDirectoryOperation.construct A B m)
        fp now s h
  have back : out.error = some ErrorCode.FILE_DOESNT_EXIST →
      mapFind s.path_map.map (parent_path A) = none := by
    intro herr
    cases hr : mapFind s.path_map.map (parent_path A) with
    | none => rfl
    | some r =>
      exact absurd herr
        (move_execute_error_ne_doesnt_exist (MetadataStorageFromPlainObjectStorageMoveDirectoryOperation.construct A B m)
          fp now s r hr)
  refine ⟨⟨back, fun h => by rw [key h]⟩, fun herr => ?_⟩
  rw [key (back herr)]
  exact ⟨rfl, rfl⟩

/-- C4 at a concrete state: `/db/x` has no record, while the destination and the
remote store are not empty. -/
theorem move_source_missing_witness :
    ((MetadataStorageFromPlainObjectStorageMoveDirectoryOperation.construct
        "/db/x/" "/db/t/" "meta").execute noFault 7
      oneDirState).state = oneDirState :=
  ((move_source_missing_iff "/db/x/" "/db/t/" "meta" noFault 7 oneDirState).2
    ((move_source_missing_iff "/db/x/" "/db/t/" "meta" noFault 7 oneDirState).1.2
      (by decide))).1

/-- C5, as amended: when A has the record `r`, B has none, and the marker of `r`
exists with a content that does not compare equal to A as a path, Move(A, B)
fails with INCORRECT_DATA after the one read and before any write is opened:
the index, the remote objects and the metrics are unchanged and
`write_finalized` is still false. -/
theorem move_incorrect_data (A B m : String) (fp : FailPoints) (now : Int) (s : State)
    (r : RemotePathInfo) (data : String)
    (hA : mapFind s.path_map.map (parent_path A) = some r)
    (hB : mapFind s.path_map.map (parent_path B) = none)
    (hmarker : s.object_storage.objects.lookup (createMetadataObjectKey r.path m) = some data)
    (hdata : lexical data ≠ lexical A) :
    let out :=
      (MetadataStorageFromPlainObjectStorageMoveDirectoryOperation.construct A B m).execute fp now s
    out.error = some ErrorCode.INCORRECT_DATA
    ∧ out.state.path_map = s.path_map
    ∧ out.state.object_storage.objects = s.object_storage.objects
    ∧ out.state.object_storage.calls = s.object_storage.calls ++
        [RemoteCall.readObject (createMetadataObjectKey r.path m)]
    ∧ out.state.metrics = s.metrics
    ∧ out.op.write_finalized = false := by
  intro out
  have hout : out = _ := move_execute_of_incorrect_data
    (MetadataStorageFromPlainObjectStorageMoveDirectoryOperation.construct
        A B m) fp now s r data hA hB hmarker hdata
  rw [hout]
  exact ⟨rfl, rfl, rfl, rfl, rfl, rfl⟩

/-- C5 as amended, at a concrete state: the marker of `/db/t` holds `/db/other/`. -/
theorem move_incorrect_data_witness :
    ((MetadataStorageFromPlainObjectStorageMoveDirectoryOperation.construct
        "/db/t/" "/db/t2/" "meta").execute noFault 7
      staleMarkerState).error = some ErrorCode.INCORRECT_DATA :=
  (move_incorrect_data "/db/t/" "/db/t2/" "meta" noFault 7 staleMarkerState ⟨"k", 0, ∅⟩
    "/db/other/" (by decide) (by decide) (by decide) (by decide)).1

/-- C5 as stated fails: `/db/t` has a record, `/db/t2` has none, and the marker
holds "/db//t/", a string different from "/db/t/"; the two compare equal as
paths, so the move does not fail and rewrites the marker. -/
theorem move_accepts_doubled_separator :
    mapFind doubledSepState.path_map.map (parent_path "/db/t/") = some ⟨"k", 0, ∅⟩
    ∧ mapFind doubledSepState.path_map.map (parent_path "/db/t2/") = none
    ∧ doubledSepState.object_storage.objects.lookup (createMetadataObjectKey "k" "meta")
        = some "/db//t/"
    ∧ "/db//t/" ≠ "/db/t/"
    ∧ ((MetadataStorageFromPlainObjectStorageMoveDirectoryOperation.construct
          "/db/t/" "/db/t2/" "meta").execute noFault 7
        doubledSepState).error = none
    ∧ ((MetadataStorageFromPlainObjectStorageMoveDirectoryOperation.construct
          "/db/t/" "/db/t2/" "meta").execute noFault 7
        doubledSepState).state.object_storage.objects.lookup
          (createMetadataObjectKey "k" "meta") = some "/db/t2/" := by
  decide

/-- C6: idempotent create.  When P's index key already has a record,
Create(P), whatever key prefix it was constructed with, returns normally and
leaves the whole state as it was: no call to the object storage, the same
index with the same record, the same remote objects, the same metrics.  Hence a
second Create(P) right after a successful first one from a state without P
changes nothing more. -/
theorem idempotent_create (P m k k2 : String) (fp fp2 : FailPoints) (now now2 : Int)
    (s : State) :
    (mapContains s.path_map.map (parent_path P) = true →
      (MetadataStorageFromPlainObjectStorageCreateDirectoryOperation.construct
          P m k).execute fp now s
        = ⟨MetadataStorageFromPlainObjectStorageCreateDirectoryOperation.construct P m k, s, none⟩)
    ∧ (mapContains s.path_map.map (parent_path P) = false →
        fp.plain_object_storage_write_fail_on_directory_create = false →
        let once :=
          (MetadataStorageFromPlainObjectStorageCreateDirectoryOperation.construct P m k).execute fp now s
        let twice :=
          (MetadataStorageFromPlainObjectStorageCreateDirectoryOperation.construct P m k2).execute fp2 now2 once.state
        once.error = none ∧ twice.error = none ∧ twice.state = once.state) := by
  refine ⟨fun h => create_execute_of_present _ fp now s h, fun h hf => ?_⟩
  intro once twice
  have habsent : mapFind s.path_map.map (parent_path P) = none := by
    cases hr : mapFind s.path_map.map (parent_path P) with
    | none => rfl
    | some r => simp [mapContains, hr] at h
  have honce : once = _ :=
    create_execute_of_absent (MetadataStorageFromPlainObjectStorageCreateDirectoryOperation.construct P m k) fp now s habsent hf
  have hpresent : mapContains once.state.path_map.map (parent_path P) = true := by
    rw [honce]
    simp [mapContains, mapFind,
      MetadataStorageFromPlainObjectStorageCreateDirectoryOperation.construct,
      Finmap.lookup_insert]
  have htwice : twice = _ :=
    create_execute_of_present (MetadataStorageFromPlainObjectStorageCreateDirectoryOperation.construct P m k2) fp2 now2 once.state
      hpresent
  rw [htwice]
  refine ⟨?_, rfl, rfl⟩
  rw [honce]

/-- C6 at concrete states: `/db/t` exists in the first, and is created twice from
the empty state in the second. -/
theorem idempotent_create_witness :
    (MetadataStorageFromPlainObjectStorageCreateDirectoryOperation.construct
        "/db/t/" "meta" "k9").execute noFault 7 oneDirState
        = ⟨MetadataStorageFromPlainObjectStorageCreateDirectoryOperation.construct "/db/t/" "meta" "k9", oneDirState, none⟩
    ∧ ((MetadataStorageFromPlainObjectStorageCreateDirectoryOperation.construct
          "/db/t/" "meta" "k2").execute noFault 8
        ((MetadataStorageFromPlainObjectStorageCreateDirectoryOperation.construct
            "/db/t/" "meta" "k").execute noFault 7
          (emptyState [] zeroMetrics)).state).state
        = ((MetadataStorageFromPlainObjectStorageCreateDirectoryOperation.construct
              "/db/t/" "meta" "k").execute noFault 7
          (emptyState [] zeroMetrics)).state :=
  ⟨(idempotent_create "/db/t/" "meta" "k9" "k9" noFault noFault 7 7 oneDirState).1 (by decide),
    ((idempotent_create "/db/t/" "meta" "k" "k2" noFault noFault 7 8
      (emptyState [] zeroMetrics)).2 (by decide) (by decide)).2.2⟩

/-- C7: idempotent remove.  When P's index key has no record, Remove(P) returns
normally and leaves the whole state as it was (no call to the object storage, same
index, same remote objects, same metrics); `remove_attempted` is still false,
and the undo of the same operation again changes nothing. -/
theorem idempotent_remove (P m : String) (s : State)
    (h : mapFind s.path_map.map (parent_path P) = none) :
    let out :=
      (MetadataStorageFromPlainObjectStorageRemoveDirectoryOperation.construct P m).execute s
    out.error = none
    ∧ out.state = s
    ∧ out.op.remove_attempted = false
    ∧ (out.op.undo out.state).error = none
    ∧ (out.op.undo out.state).state = s := by
  intro out
  have hout : out = _ :=
    remove_execute_of_absent (MetadataStorageFromPlainObjectStorageRemoveDirectoryOperation.construct P m)
      s h
  rw [hout]
  dsimp only
  rw [remove_undo_of_not_attempted (MetadataStorageFromPlainObjectStorageRemoveDirectoryOperation.construct P m) s rfl]
  exact ⟨rfl, rfl, rfl, rfl, rfl⟩

/-- C7 at a concrete state: `/db/x` has no record. -/
theorem idempotent_remove_witness :
    ((MetadataStorageFromPlainObjectStorageRemoveDirectoryOperation.construct
        "/db/x/" "meta").execute oneDirState).state
      = oneDirState :=
  (idempotent_remove "/db/x/" "meta" oneDirState (by decide)).2.1

/-- C8: Create(P) on an absent path.  When P's index key (`parent_path P`, the
path without its trailing separator) has no record, Create(P) constructed with
key prefix `k` and run without fault injection succeeds; afterwards the index
has one entry more, at P's index key, with key prefix `k` and no filenames;
every other entry is as before; the marker object of `k` holds the path string
P; and the directory count has grown by 1.  The index key is P without its
separator whenever P ends with one separator after another character. -/
theorem create_directory_on_absent (P m k : String) (fp : FailPoints) (now : Int) (s : State)
    (hf : fp.plain_object_storage_write_fail_on_directory_create = false)
    (h : mapFind s.path_map.map (parent_path P) = none) :
    let out :=
      (MetadataStorageFromPlainObjectStorageCreateDirectoryOperation.construct P m k).execute fp now s
    out.error = none
    ∧ mapFind out.state.path_map.map (parent_path P) = some ⟨k, now, ∅⟩
    ∧ (∀ x, x ≠ lexical (parent_path P) →
        out.state.path_map.map.lookup x = s.path_map.map.lookup x)
    ∧ lexical (parent_path P) ∉ s.path_map.map.keys
    ∧ out.state.path_map.map.keys = insert (lexical (parent_path P)) s.path_map.map.keys
    ∧ out.state.path_map.map.keys.card = s.path_map.map.keys.card + 1
    ∧ out.state.object_storage.objects.lookup (createMetadataObjectKey k m) = some P
    ∧ out.state.metrics.directory_map_size = s.metrics.directory_map_size + 1
    ∧ (∀ cs c, c ≠ sep → P = ⟨cs ++ [c, sep]⟩ → parent_path P = ⟨cs ++ [c]⟩) := by
  intro out
  have hstrip : ∀ cs c, c ≠ sep → P = ⟨cs ++ [c, sep]⟩ → parent_path P = ⟨cs ++ [c]⟩ :=
    fun cs c hc hP => by rw [hP]; exact parent_path_strips_trailing_sep cs c hc
  have hout : out = _ :=
    create_execute_of_absent (MetadataStorageFromPlainObjectStorageCreateDirectoryOperation.construct P m k) fp now s h hf
  have hnot : lexical (parent_path P) ∉ s.path_map.map.keys := by
    rw [Finmap.mem_keys, ← Finmap.lookup_eq_none]
    exact h
  rw [hout]
  dsimp only [MetadataStorageFromPlainObjectStorageCreateDirectoryOperation.construct, mapFind]
  refine ⟨rfl, ?_, ?_, hnot, ?_, ?_, ?_, rfl, hstrip⟩
  · rw [Finmap.lookup_insert]
  · intro x hx
    rw [Finmap.lookup_insert_of_ne _ hx]
  · ext x
    simp [Finmap.mem_keys, Finmap.mem_insert]
  · have hkeys : (Finmap.insert (lexical (parent_path P)) (⟨k, now, ∅⟩ : RemotePathInfo)
        s.path_map.map).keys = insert (lexical (parent_path P)) s.path_map.map.keys := by
      ext x
      simp [Finmap.mem_keys, Finmap.mem_insert]
    rw [hkeys, Finset.card_insert_of_not_mem hnot]
  · rw [Finmap.lookup_insert]

/-- C8 at a concrete state: `/db/t2/` is created next to `/db/t`. -/
theorem create_directory_on_absent_witness :
    mapFind ((MetadataStorageFromPlainObjectStorageCreateDirectoryOperation.construct
          "/db/t2/" "meta" "k2").execute noFault 7
      oneDirState).state.path_map.map (parent_path "/db/t2/") = some ⟨"k2", 7, ∅⟩ :=
  (create_directory_on_absent "/db/t2/" "meta" "k2" noFault 7 oneDirState
    (by decide) (by decide)).2.1

/-- C9: Remove(P) on a present path.  When P's index key has the record `r`,
Remove(P) succeeds; afterwards the marker object of `r` does not exist, P's key
is absent, every other index entry and every other remote object is as before,
the directory count has dropped by 1, the operation holds `key_prefix = r.path`
and `remove_attempted` is true. -/
theorem remove_directory_on_present (P m : String) (s : State) (r : RemotePathInfo)
    (h : mapFind s.path_map.map (parent_path P) = some r) :
    let out :=
      (MetadataStorageFromPlainObjectStorageRemoveDirectoryOperation.construct P m).execute s
    out.error = none
    ∧ out.state.object_storage.objects.lookup (createMetadataObjectKey r.path m) = none
    ∧ mapFind out.state.path_map.map (parent_path P) = none
    ∧ (∀ x, x ≠ lexical (parent_path P) →
        out.state.path_map.map.lookup x = s.path_map.map.lookup x)
    ∧ (∀ y, y ≠ createMetadataObjectKey r.path m →
        out.state.object_storage.objects.lookup y = s.object_storage.objects.lookup y)
    ∧ out.state.metrics.directory_map_size = s.metrics.directory_map_size - 1
    ∧ MetadataStorageFromPlainObjectStorageRemoveDirectoryOperation.key_prefix out.op = r.path
    ∧ out.op.remove_attempted = true := by
  intro out
  have hout : out = _ :=
    remove_execute_of_present (MetadataStorageFromPlainObjectStorageRemoveDirectoryOperation.construct P m) s r h
  rw [hout]
  dsimp only [MetadataStorageFromPlainObjectStorageRemoveDirectoryOperation.construct, mapFind]
  refine ⟨rfl, ?_, ?_, ?_, ?_, rfl, rfl, rfl⟩
  · rw [Finmap.lookup_erase]
  · rw [Finmap.lookup_erase]
  · intro x hx
    rw [Finmap.lookup_erase_ne hx]
  · intro y hy
    rw [Finmap.lookup_erase_ne hy]

/-- C9 at a concrete state: `/db/t` is removed. -/
theorem remove_directory_on_present_witness :
    ((MetadataStorageFromPlainObjectStorageRemoveDirectoryOperation.construct
        "/db/t/" "meta").execute
      oneDirState).state.object_storage.objects.lookup (createMetadataObjectKey "k" "meta")
      = none :=
  (remove_directory_on_present "/db/t/" "meta" oneDirState ⟨"k", 0, ∅⟩ (by decide)).2.1

/-- C10: WriteFile(path) never fails.  With D the parent path and f the filename:
when D has no record the whole state is unchanged and `written` is false; when
D has the record `info`, afterwards f is in the pool and in D's filename set
(the old set with f added, the rest of the record as before), `written` is true
exactly when f was not in D's set before, the file count grows by 1 exactly when
`written` is true, the unique filename count grows by 1 exactly when f was not
in the pool before, and no other directory's record changes. -/
theorem write_file_execute (path : String) (s : State) :
    let out := (MetadataStorageFromPlainObjectStorageWriteFileOperation.construct path).execute s
    out.error = none
    ∧ (mapFind s.path_map.map (parent_path path) = none →
        out.state = s ∧ out.op.written = false)
    ∧ (∀ info, mapFind s.path_map.map (parent_path path) = some info →
        filename path ∈ out.state.path_map.unique_filenames
        ∧ mapFind out.state.path_map.map (parent_path path)
            = some { info with
                filename_iterators := insert (filename path) info.filename_iterators }
        ∧ filename path ∈ insert (filename path) info.filename_iterators
        ∧ (out.op.written = true ↔ filename path ∉ info.filename_iterators)
        ∧ out.state.metrics.file_count
            = s.metrics.file_count + (if out.op.written = true then 1 else 0)
        ∧ out.state.metrics.unique_filenames_count
            = s.metrics.unique_filenames_count
              + (if filename path ∈ s.path_map.unique_filenames then 0 else 1)
        ∧ (∀ x, x ≠ lexical (parent_path path) →
            out.state.path_map.map.lookup x = s.path_map.map.lookup x)) := by
  intro out
  cases hr : mapFind s.path_map.map (parent_path path) with
  | none =>
    have hout : out = _ :=
      write_execute_of_absent (MetadataStorageFromPlainObjectStorageWriteFileOperation.construct path)
        s hr
    rw [hout]
    exact ⟨rfl, fun _ => ⟨rfl, rfl⟩, fun info hinfo => Option.noConfusion hinfo⟩
  | some r =>
    have hout : out = _ :=
      write_execute_of_present (MetadataStorageFromPlainObjectStorageWriteFileOperation.construct path)
        s r hr
    rw [hout]
    dsimp only [MetadataStorageFromPlainObjectStorageWriteFileOperation.construct, mapFind]
    refine ⟨rfl, fun hnone => Option.noConfusion hnone, fun info hinfo => ?_⟩
    have hri : r = info := Option.some.inj hinfo
    subst hri
    refine ⟨Finset.mem_insert_self _ _, ?_, Finset.mem_insert_self _ _, ?_, ?_, rfl, ?_⟩
    · rw [Finmap.lookup_insert]
    · simp
    · by_cases hmem : filename path ∈ r.filename_iterators <;> simp [hmem]
    · intro x hx
      rw [Finmap.lookup_insert_of_ne _ hx]

/-- C10 at a concrete state: `part1` is registered under `/db/t`. -/
theorem write_file_execute_witness :
    ((MetadataStorageFromPlainObjectStorageWriteFileOperation.construct
        "/db/t/part1").execute oneDirState).op.written = true :=
  ((write_file_execute "/db/t/part1" oneDirState).2.2 ⟨"k", 0, ∅⟩ (by decide)).2.2.2.1.2
    (by decide)


/-! ## More finite map facts -/

theorem insert_of_lookup_eq_some {β : Type} (a : String) (b : β)
    (s : Finmap (fun _ : String => β)) (h : s.lookup a = some b) : s.insert a b = s := by
  apply Finmap.ext_lookup
  intro x
  by_cases hx : x = a
  · subst hx
    rw [Finmap.lookup_insert, h]
  · rw [Finmap.lookup_insert_of_ne _ hx]

theorem erase_of_lookup_eq_none {β : Type} (a : String)
    (s : Finmap (fun _ : String => β)) (h : s.lookup a = none) : s.erase a = s := by
  apply Finmap.ext_lookup
  intro x
  by_cases hx : x = a
  · subst hx
    rw [Finmap.lookup_erase, h]
  · rw [Finmap.lookup_erase_ne hx]

theorem erase_insert_of_lookup_eq_none {β : Type} (a : String) (b : β)
    (s : Finmap (fun _ : String => β)) (h : s.lookup a = none) :
    (s.insert a b).erase a = s := by
  apply Finmap.ext_lookup
  intro x
  by_cases hx : x = a
  · subst hx
    rw [Finmap.lookup_erase, h]
  · rw [Finmap.lookup_erase_ne hx, Finmap.lookup_insert_of_ne _ hx]

theorem insert_erase_same {β : Type} (a : String) (b : β)
    (s : Finmap (fun _ : String => β)) : (s.erase a).insert a b = s.insert a b := by
  apply Finmap.ext_lookup
  intro x
  by_cases hx : x = a
  · subst hx
    rw [Finmap.lookup_insert, Finmap.lookup_insert]
  · rw [Finmap.lookup_insert_of_ne _ hx, Finmap.lookup_insert_of_ne _ hx,
      Finmap.lookup_erase_ne hx]

theorem keys_insert_of_lookup_eq_some {β : Type} (a : String) (b c : β)
    (s : Finmap (fun _ : String => β)) (h : s.lookup a = some c) :
    (s.insert a b).keys = s.keys := by
  ext x
  simp only [Finmap.mem_keys, Finmap.mem_insert]
  constructor
  · rintro (hx | hx)
    · subst hx
      exact Finmap.mem_of_lookup_eq_some h
    · exact hx
  · exact fun hx => Or.inr hx

/-! ## What each `undo` computes, and the remaining `execute` cases -/

theorem create_execute_of_fault
    (op : MetadataStorageFromPlainObjectStorageCreateDirectoryOperation) (fp : FailPoints)
    (now : Int) (s : State) (h : mapFind s.path_map.map (parent_path op.path) = none)
    (hf : fp.plain_object_storage_write_fail_on_directory_create = true) :
    op.execute fp now s =
      ⟨op,
        { s with object_storage :=
            { s.object_storage with calls := s.object_storage.calls ++
                [RemoteCall.writeObject
                  (createMetadataObjectKey op.object_key_prefix op.metadata_key_prefix)] } },
        some ErrorCode.FAULT_INJECTED⟩ := by
  simp [MetadataStorageFromPlainObjectStorageCreateDirectoryOperation.execute, mapContains, h,
    hf, ObjectStorage.writeObject]

theorem create_undo_of_present
    (op : MetadataStorageFromPlainObjectStorageCreateDirectoryOperation) (s : State)
    (r : RemotePathInfo) (h : mapFind s.path_map.map (parent_path op.path) = some r) :
    op.undo s =
      ⟨op,
        { path_map :=
            { map := s.path_map.map.erase (lexical (parent_path op.path))
              unique_filenames := s.path_map.unique_filenames }
          object_storage :=
            { objects := s.object_storage.objects.erase
                (createMetadataObjectKey op.object_key_prefix op.metadata_key_prefix)
              calls := s.object_storage.calls ++
                [RemoteCall.removeObjectIfExists
                  (createMetadataObjectKey op.object_key_prefix op.metadata_key_prefix)] }
          metrics :=
            { s.metrics with directory_map_size := s.metrics.directory_map_size - 1 } },
        none⟩ := by
  simp [MetadataStorageFromPlainObjectStorageCreateDirectoryOperation.undo, removePathIfExists,
    mapContains, h, ObjectStorage.removeObjectIfExists]

theorem create_undo_of_absent
    (op : MetadataStorageFromPlainObjectStorageCreateDirectoryOperation) (s : State)
    (h : mapFind s.path_map.map (parent_path op.path) = none) :
    op.undo s =
      ⟨op,
        { s with object_storage :=
            { objects := s.object_storage.objects.erase
                (createMetadataObjectKey op.object_key_prefix op.metadata_key_prefix)
              calls := s.object_storage.calls ++
                [RemoteCall.removeObjectIfExists
                  (createMetadataObjectKey op.object_key_prefix op.metadata_key_prefix)] } },
        none⟩ := by
  have herase : s.path_map.map.erase (lexical (parent_path op.path)) = s.path_map.map :=
    erase_of_lookup_eq_none _ _ h
  simp [MetadataStorageFromPlainObjectStorageCreateDirectoryOperation.undo, removePathIfExists,
    mapContains, h, ObjectStorage.removeObjectIfExists, herase]

theorem create_undo_error
    (op : MetadataStorageFromPlainObjectStorageCreateDirectoryOperation) (s : State) :
    (op.undo s).error = none := rfl

theorem move_undo_of_not_finalized
    (op : MetadataStorageFromPlainObjectStorageMoveDirectoryOperation) (s : State)
    (h : op.write_finalized = false) : op.undo s = ⟨op, s, none⟩ := by
  simp [MetadataStorageFromPlainObjectStorageMoveDirectoryOperation.undo, h]

theorem move_undo_of_finalized
    (op : MetadataStorageFromPlainObjectStorageMoveDirectoryOperation) (s : State)
    (info : RemotePathInfo) (h : op.write_finalized = true)
    (hto : mapFind s.path_map.map (parent_path op.path_to) = some info)
    (hfrom : mapFind s.path_map.map (parent_path op.path_from) = none) :
    op.undo s =
      ⟨op,
        { s with path_map :=
            { s.path_map with
              map := (s.path_map.map.erase (lexical (parent_path op.path_to))).insert
                (lexical (parent_path op.path_from)) info } },
        some ErrorCode.FILE_DOESNT_EXIST⟩ := by
  have hne : lexical (parent_path op.path_from) ≠ lexical (parent_path op.path_to) := by
    intro heq
    unfold mapFind at hto hfrom
    rw [heq, hto] at hfrom
    exact Option.noConfusion hfrom
  have hfrom1 : Finmap.lookup (lexical (parent_path op.path_from))
      (s.path_map.map.erase (lexical (parent_path op.path_to))) = none := by
    rw [Finmap.lookup_erase_ne hne]
    exact hfrom
  have hto1 : Finmap.lookup (lexical (parent_path op.path_to))
      ((s.path_map.map.erase (lexical (parent_path op.path_to))).insert
        (lexical (parent_path op.path_from)) info) = none := by
    rw [Finmap.lookup_insert_of_ne _ hne.symm, Finmap.lookup_erase]
  simp [MetadataStorageFromPlainObjectStorageMoveDirectoryOperation.undo, h, mapExtract, hto,
    mapEmplace, mapContains]
  simp [mapFind, hfrom1, MetadataStorageFromPlainObjectStorageMoveDirectoryOperation.createWriteBuf,
    hto1]

theorem remove_undo_of_attempted
    (op : MetadataStorageFromPlainObjectStorageRemoveDirectoryOperation) (s : State)
    (h : op.remove_attempted = true) :
    op.undo s =
      ⟨op,
        { path_map :=
            { map := (mapEmplace s.path_map.map (parent_path op.path)
                ⟨op.key_prefix, 0, ∅⟩).1
              unique_filenames := s.path_map.unique_filenames }
          object_storage :=
            { objects := s.object_storage.objects.insert
                (createMetadataObjectKey (op.key_prefix) op.metadata_key_prefix)
                op.path
              calls := s.object_storage.calls ++
                [RemoteCall.writeObject
                    (createMetadataObjectKey (op.key_prefix)
                      op.metadata_key_prefix),
                  RemoteCall.finalize
                    (createMetadataObjectKey (op.key_prefix)
                      op.metadata_key_prefix) op.path] }
          metrics :=
            { s.metrics with directory_map_size := s.metrics.directory_map_size + 1 } },
        none⟩ := by
  simp [MetadataStorageFromPlainObjectStorageRemoveDirectoryOperation.undo, h,
    ObjectStorage.writeObject, ObjectStorage.finalize]


theorem unlink_execute_of_absent
    (op : MetadataStorageFromPlainObjectStorageUnlinkMetadataFileOperation) (s : State)
    (h : mapFind s.path_map.map (parent_path op.path) = none) :
    op.execute s = ⟨op, s, none⟩ := by
  simp [MetadataStorageFromPlainObjectStorageUnlinkMetadataFileOperation.execute, h]

theorem unlink_execute_of_unpooled
    (op : MetadataStorageFromPlainObjectStorageUnlinkMetadataFileOperation) (s : State)
    (info : RemotePathInfo) (h : mapFind s.path_map.map (parent_path op.path) = some info)
    (hpool : filename op.path ∉ s.path_map.unique_filenames) (hop : op.unlinked = false) :
    op.execute s = ⟨op, s, none⟩ := by
  have hmap : s.path_map.map.insert (lexical (parent_path op.path)) info = s.path_map.map :=
    insert_of_lookup_eq_some _ _ _ h
  cases op with
  | mk path remote_path unlinked =>
    simp only at hop h hpool hmap
    subst hop
    simp [MetadataStorageFromPlainObjectStorageUnlinkMetadataFileOperation.execute, h, hpool,
      hmap]

theorem unlink_execute_of_not_member
    (op : MetadataStorageFromPlainObjectStorageUnlinkMetadataFileOperation) (s : State)
    (info : RemotePathInfo) (h : mapFind s.path_map.map (parent_path op.path) = some info)
    (hpool : filename op.path ∈ s.path_map.unique_filenames)
    (hmem : filename op.path ∉ info.filename_iterators) :
    op.execute s = ⟨{ op with unlinked := false }, s, none⟩ := by
  have hset : info.filename_iterators.erase (filename op.path) = info.filename_iterators :=
    Finset.erase_eq_of_not_mem hmem
  have hmap : s.path_map.map.insert (lexical (parent_path op.path)) info = s.path_map.map :=
    insert_of_lookup_eq_some _ _ _ h
  simp [MetadataStorageFromPlainObjectStorageUnlinkMetadataFileOperation.execute, h, hpool,
    hmem, hset, hmap]

theorem unlink_execute_of_member
    (op : MetadataStorageFromPlainObjectStorageUnlinkMetadataFileOperation) (s : State)
    (info : RemotePathInfo) (h : mapFind s.path_map.map (parent_path op.path) = some info)
    (hpool : filename op.path ∈ s.path_map.unique_filenames)
    (hmem : filename op.path ∈ info.filename_iterators) :
    op.execute s =
      ⟨{ op with unlinked := true },
        { path_map :=
            { map := s.path_map.map.insert (lexical (parent_path op.path))
                { info with
                  filename_iterators := info.filename_iterators.erase (filename op.path) }
              unique_filenames := s.path_map.unique_filenames }
          object_storage := s.object_storage
          metrics := { s.metrics with file_count := s.metrics.file_count - 1 } },
        none⟩ := by
  simp [MetadataStorageFromPlainObjectStorageUnlinkMetadataFileOperation.execute, h, hpool,
    hmem]


/-! ## The claims on file registration -/

/-- C11: filename set semantics.  When D has a record that does not contain f,
two WriteFile operations for D/f in a row raise the file count by exactly 1 in
total: the second one changes neither D's record nor the count, and its
`written` flag is false.  One Unlink for D/f then returns the file count to its
first value and D's record, hence its filename set, to the one before the first
registration. -/
theorem filename_set_semantics (path remote_path : String) (s : State) (info : RemotePathInfo)
    (hD : mapFind s.path_map.map (parent_path path) = some info)
    (hf : filename path ∉ info.filename_iterators) :
    let first :=
      (MetadataStorageFromPlainObjectStorageWriteFileOperation.construct path).execute s
    let second :=
      (MetadataStorageFromPlainObjectStorageWriteFileOperation.construct path).execute first.state
    let unlink :=
      (MetadataStorageFromPlainObjectStorageUnlinkMetadataFileOperation.construct path
        remote_path).execute second.state
    first.state.metrics.file_count = s.metrics.file_count + 1
    ∧ second.state.metrics.file_count = s.metrics.file_count + 1
    ∧ second.op.written = false
    ∧ second.state.path_map.map = first.state.path_map.map
    ∧ mapFind second.state.path_map.map (parent_path path)
        = some { info with
            filename_iterators := insert (filename path) info.filename_iterators }
    ∧ unlink.error = none
    ∧ unlink.state.metrics.file_count = s.metrics.file_count
    ∧ mapFind unlink.state.path_map.map (parent_path path) = some info
    ∧ unlink.state.path_map.map = s.path_map.map := by
  intro first second unlink
  have hfirst : first = _ := write_execute_of_present
    (MetadataStorageFromPlainObjectStorageWriteFileOperation.construct path) s info hD
  have hD1 : mapFind first.state.path_map.map (parent_path path)
      = some { info with
          filename_iterators := insert (filename path) info.filename_iterators } := by
    rw [hfirst]
    dsimp only [MetadataStorageFromPlainObjectStorageWriteFileOperation.construct, mapFind]
    rw [Finmap.lookup_insert]
  have hsecond : second = _ := write_execute_of_present
    (MetadataStorageFromPlainObjectStorageWriteFileOperation.construct path) first.state _ hD1
  have hmap2 : second.state.path_map.map = first.state.path_map.map := by
    rw [hsecond]
    dsimp only [MetadataStorageFromPlainObjectStorageWriteFileOperation.construct]
    rw [Finset.insert_idem]
    exact insert_of_lookup_eq_some _ _ _ hD1
  have hD2 : mapFind second.state.path_map.map (parent_path path)
      = some { info with
          filename_iterators := insert (filename path) info.filename_iterators } := by
    rw [hmap2]
    exact hD1
  have hpool2 : filename path ∈ second.state.path_map.unique_filenames := by
    rw [hsecond]
    exact Finset.mem_insert_self _ _
  have hunlink : unlink = _ := unlink_execute_of_member
    (MetadataStorageFromPlainObjectStorageUnlinkMetadataFileOperation.construct path
      remote_path) second.state _ hD2 hpool2 (Finset.mem_insert_self _ _)
  have hcount1 : first.state.metrics.file_count = s.metrics.file_count + 1 := by
    rw [hfirst]
    simp [MetadataStorageFromPlainObjectStorageWriteFileOperation.construct, hf]
  have hcount2 : second.state.metrics.file_count = first.state.metrics.file_count := by
    rw [hsecond]
    simp [MetadataStorageFromPlainObjectStorageWriteFileOperation.construct]
  have hmap3 : unlink.state.path_map.map = s.path_map.map := by
    rw [hunlink]
    dsimp only [MetadataStorageFromPlainObjectStorageUnlinkMetadataFileOperation.construct]
    rw [Finset.erase_insert hf, hmap2, hfirst]
    dsimp only [MetadataStorageFromPlainObjectStorageWriteFileOperation.construct]
    rw [Finmap.insert_insert]
    exact insert_of_lookup_eq_some _ _ _ hD
  refine ⟨hcount1, by rw [hcount2, hcount1], ?_, hmap2, hD2, ?_, ?_, ?_, hmap3⟩
  · rw [hsecond]
    simp [MetadataStorageFromPlainObjectStorageWriteFileOperation.construct]
  · rw [hunlink]
  · rw [hunlink]
    dsimp only
    rw [hcount2, hcount1]
    ring
  · rw [hmap3]
    exact hD

/-- C11 at a concrete state: `part1` is registered twice under `/db/t` and
unlinked once. -/
theorem filename_set_semantics_witness :
    ((MetadataStorageFromPlainObjectStorageUnlinkMetadataFileOperation.construct "/db/t/part1"
        "remote").execute
      ((MetadataStorageFromPlainObjectStorageWriteFileOperation.construct "/db/t/part1").execute
        ((MetadataStorageFromPlainObjectStorageWriteFileOperation.construct
          "/db/t/part1").execute oneDirState).state).state).state.metrics.file_count
      = oneDirState.metrics.file_count :=
  (filename_set_semantics "/db/t/part1" "remote" oneDirState ⟨"k", 0, ∅⟩
    (by decide) (by decide)).2.2.2.2.2.2.1

/-- C12: Unlink(path) never fails.  Its `unlinked` flag is true exactly when the
parent directory D has a record, the filename f is in the pool and f was in D's
filename set before the call.  When it is true, D's record afterwards has the old
set without f, no other index entry has changed and the file count has dropped
by 1; when it is false the index and the file count are unchanged.  The
filename pool is unchanged in both cases. -/
theorem unlink_metadata_file_execute (path remote_path : String) (s : State) :
    let out :=
      (MetadataStorageFromPlainObjectStorageUnlinkMetadataFileOperation.construct path
        remote_path).execute s
    out.error = none
    ∧ (out.op.unlinked = true ↔
        ∃ info, mapFind s.path_map.map (parent_path path) = some info
          ∧ filename path ∈ s.path_map.unique_filenames
          ∧ filename path ∈ info.filename_iterators)
    ∧ (out.op.unlinked = true →
        ∀ info, mapFind s.path_map.map (parent_path path) = some info →
          mapFind out.state.path_map.map (parent_path path)
              = some { info with
                  filename_iterators := info.filename_iterators.erase (filename path) }
          ∧ (∀ x, x ≠ lexical (parent_path path) →
              out.state.path_map.map.lookup x = s.path_map.map.lookup x)
          ∧ out.state.metrics.file_count = s.metrics.file_count - 1)
    ∧ (out.op.unlinked = false →
        out.state.path_map.map = s.path_map.map
        ∧ out.state.metrics.file_count = s.metrics.file_count)
    ∧ out.state.path_map.unique_filenames = s.path_map.unique_filenames := by
  intro out
  cases hD : mapFind s.path_map.map (parent_path path) with
  | none =>
    have hout : out = _ := unlink_execute_of_absent
      (MetadataStorageFromPlainObjectStorageUnlinkMetadataFileOperation.construct path
        remote_path) s hD
    rw [hout]
    refine ⟨rfl, ⟨fun h => ?_, fun h => ?_⟩, fun h => ?_, fun _ => ⟨rfl, rfl⟩, rfl⟩
    · exact absurd h (by
        simp [MetadataStorageFromPlainObjectStorageUnlinkMetadataFileOperation.construct])
    · obtain ⟨info, hinfo, _⟩ := h
      exact Option.noConfusion hinfo
    · exact absurd h (by
        simp [MetadataStorageFromPlainObjectStorageUnlinkMetadataFileOperation.construct])
  | some r =>
    by_cases hpool : filename path ∈ s.path_map.unique_filenames
    · by_cases hmem : filename path ∈ r.filename_iterators
      · have hout : out = _ := unlink_execute_of_member
          (MetadataStorageFromPlainObjectStorageUnlinkMetadataFileOperation.construct path
            remote_path) s r hD hpool hmem
        rw [hout]
        dsimp only [MetadataStorageFromPlainObjectStorageUnlinkMetadataFileOperation.construct,
          mapFind]
        refine ⟨rfl, ⟨fun _ => ⟨r, rfl, hpool, hmem⟩, fun _ => rfl⟩, fun _ info hinfo => ?_,
          fun h => Bool.noConfusion h, rfl⟩
        have hri : r = info := Option.some.inj hinfo
        subst hri
        refine ⟨?_, fun x hx => ?_, rfl⟩
        · rw [Finmap.lookup_insert]
        · rw [Finmap.lookup_insert_of_ne _ hx]
      · have hout : out = _ := unlink_execute_of_not_member
          (MetadataStorageFromPlainObjectStorageUnlinkMetadataFileOperation.construct path
            remote_path) s r hD hpool hmem
        rw [hout]
        refine ⟨rfl, ⟨fun h => Bool.noConfusion h, fun h => ?_⟩, fun h => Bool.noConfusion h,
          fun _ => ⟨rfl, rfl⟩, rfl⟩
        obtain ⟨info, hinfo, _, hin⟩ := h
        have hri : r = info := Option.some.inj hinfo
        subst hri
        exact absurd hin hmem
    · have hout : out = _ := unlink_execute_of_unpooled
        (MetadataStorageFromPlainObjectStorageUnlinkMetadataFileOperation.construct path
          remote_path) s r hD hpool rfl
      rw [hout]
      refine ⟨rfl, ⟨fun h => ?_, fun h => ?_⟩, fun h => ?_, fun _ => ⟨rfl, rfl⟩, rfl⟩
      · exact absurd h (by
          simp [MetadataStorageFromPlainObjectStorageUnlinkMetadataFileOperation.construct])
      · obtain ⟨info, _, hin, _⟩ := h
        exact absurd hin hpool
      · exact absurd h (by
          simp [MetadataStorageFromPlainObjectStorageUnlinkMetadataFileOperation.construct])

/-- C12 at a concrete state: `part1` is unlinked from `/db/t`, which holds it. -/
theorem unlink_metadata_file_execute_witness :
    ((MetadataStorageFromPlainObjectStorageUnlinkMetadataFileOperation.construct "/db/t/part1"
      "remote").execute filledDirState).op.unlinked = true :=
  (unlink_metadata_file_execute "/db/t/part1" "remote" filledDirState).2.1.2
    ⟨⟨"k", 5, {"part1"}⟩, by decide, by decide, by decide⟩


/-! ## The claims on undoing a create -/

/-- C13, on the code: when P already has the record `r`, Create(P) returns
without changing anything, and the undo of that same operation then erases `r`
from the index and lowers the directory count by 1. -/
theorem create_undo_erases_existing (P m k : String) (fp : FailPoints) (now : Int) (s : State)
    (r : RemotePathInfo) (h : mapFind s.path_map.map (parent_path P) = some r) :
    let out :=
      (MetadataStorageFromPlainObjectStorageCreateDirectoryOperation.construct P m k).execute
        fp now s
    let back := out.op.undo out.state
    out.error = none
    ∧ out.state = s
    ∧ back.error = none
    ∧ mapFind back.state.path_map.map (parent_path P) = none
    ∧ back.state.metrics.directory_map_size = s.metrics.directory_map_size - 1 := by
  intro out back
  have hout : out = _ := create_execute_of_present
    (MetadataStorageFromPlainObjectStorageCreateDirectoryOperation.construct P m k) fp now s
    (by simp [mapContains, MetadataStorageFromPlainObjectStorageCreateDirectoryOperation.construct,
      h])
  have hback : back = _ := create_undo_of_present out.op out.state r (by rw [hout]; exact h)
  rw [hback, hout]
  dsimp only [MetadataStorageFromPlainObjectStorageCreateDirectoryOperation.construct, mapFind]
  refine ⟨rfl, rfl, rfl, ?_, rfl⟩
  rw [Finmap.lookup_erase]

/-- C13 at a concrete state: `/db/t` exists with prefix `k`; Create("/db/t/") with
a new prefix `k9` is a no-op, and its undo removes `/db/t` from the index. -/
theorem create_undo_erases_existing_witness :
    mapFind oneDirState.path_map.map (parent_path "/db/t/") = some ⟨"k", 0, ∅⟩
    ∧ mapFind
        (((MetadataStorageFromPlainObjectStorageCreateDirectoryOperation.construct "/db/t/"
            "meta" "k9").execute noFault 7 oneDirState).op.undo
          ((MetadataStorageFromPlainObjectStorageCreateDirectoryOperation.construct "/db/t/"
            "meta" "k9").execute noFault 7 oneDirState).state).state.path_map.map
        (parent_path "/db/t/") = none :=
  ⟨by decide,
    (create_undo_erases_existing "/db/t/" "meta" "k9" noFault 7 oneDirState ⟨"k", 0, ∅⟩
      (by decide)).2.2.2.1⟩

/-- C14: create round trip.  When P has no record and no remote object exists at
the marker key of the operation's key prefix, a successful Create(P) followed by
the undo of the same operation leaves the index, the filename pool, the remote
objects and the directory count as they were before execute.  The undo never
fails, in any state. -/
theorem create_round_trip (P m k : String) (fp : FailPoints) (now : Int) (s : State)
    (hf : fp.plain_object_storage_write_fail_on_directory_create = false)
    (hP : mapFind s.path_map.map (parent_path P) = none)
    (hobj : s.object_storage.objects.lookup (createMetadataObjectKey k m) = none) :
    let out :=
      (MetadataStorageFromPlainObjectStorageCreateDirectoryOperation.construct P m k).execute
        fp now s
    let back := out.op.undo out.state
    out.error = none
    ∧ back.error = none
    ∧ back.state.path_map = s.path_map
    ∧ back.state.object_storage.objects = s.object_storage.objects
    ∧ back.state.metrics.directory_map_size = s.metrics.directory_map_size
    ∧ (∀ (op : MetadataStorageFromPlainObjectStorageCreateDirectoryOperation) (t : State),
        (op.undo t).error = none) := by
  intro out back
  have hout : out = _ := create_execute_of_absent
    (MetadataStorageFromPlainObjectStorageCreateDirectoryOperation.construct P m k) fp now s
    hP hf
  have hpresent : mapFind out.state.path_map.map (parent_path out.op.path)
      = some ⟨k, now, ∅⟩ := by
    rw [hout]
    dsimp only [MetadataStorageFromPlainObjectStorageCreateDirectoryOperation.construct, mapFind]
    rw [Finmap.lookup_insert]
  have hback : back = _ := create_undo_of_present out.op out.state _ hpresent
  rw [hback, hout]
  dsimp only [MetadataStorageFromPlainObjectStorageCreateDirectoryOperation.construct]
  refine ⟨rfl, rfl, ?_, ?_, ?_, fun op t => create_undo_error op t⟩
  · rw [erase_insert_of_lookup_eq_none _ _ _ hP]
  · rw [erase_insert_of_lookup_eq_none _ _ _ hobj]
  · ring

/-- C14 at a concrete state: `/db/t2/` is created next to `/db/t` and undone. -/
theorem create_round_trip_witness :
    (((MetadataStorageFromPlainObjectStorageCreateDirectoryOperation.construct "/db/t2/"
          "meta" "k2").execute noFault 7 oneDirState).op.undo
        ((MetadataStorageFromPlainObjectStorageCreateDirectoryOperation.construct "/db/t2/"
          "meta" "k2").execute noFault 7 oneDirState).state).state.path_map
      = oneDirState.path_map :=
  (create_round_trip "/db/t2/" "meta" "k2" noFault 7 oneDirState (by decide) (by decide)
    (by decide)).2.2.1

/-- C15: create under fault injection.  When P has no record and the create fail
point is on, Create(P) fails with FAULT_INJECTED after the write buffer is opened
and before it is finalized: the index, the remote objects and the metrics are
unchanged.  When no object exists at the operation's marker key, the undo that
follows returns normally and leaves the index, the remote objects and the metrics
equal to those before execute. -/
theorem create_under_fault (P m k : String) (fp : FailPoints) (now : Int) (s : State)
    (hf : fp.plain_object_storage_write_fail_on_directory_create = true)
    (hP : mapFind s.path_map.map (parent_path P) = none) :
    let out :=
      (MetadataStorageFromPlainObjectStorageCreateDirectoryOperation.construct P m k).execute
        fp now s
    let back := out.op.undo out.state
    out.error = some ErrorCode.FAULT_INJECTED
    ∧ out.state.path_map = s.path_map
    ∧ out.state.object_storage.objects = s.object_storage.objects
    ∧ out.state.object_storage.calls = s.object_storage.calls ++
        [RemoteCall.writeObject (createMetadataObjectKey k m)]
    ∧ out.state.metrics = s.metrics
    ∧ (s.object_storage.objects.lookup (createMetadataObjectKey k m) = none →
        back.error = none
        ∧ back.state.path_map = s.path_map
        ∧ back.state.object_storage.objects = s.object_storage.objects
        ∧ back.state.metrics = s.metrics) := by
  intro out back
  have hout : out = _ := create_execute_of_fault
    (MetadataStorageFromPlainObjectStorageCreateDirectoryOperation.construct P m k) fp now s
    hP hf
  have habsent : mapFind out.state.path_map.map (parent_path out.op.path) = none := by
    rw [hout]
    exact hP
  have hback : back = _ := create_undo_of_absent out.op out.state habsent
  rw [hback, hout]
  dsimp only [MetadataStorageFromPlainObjectStorageCreateDirectoryOperation.construct]
  refine ⟨rfl, rfl, rfl, rfl, rfl, fun hobj => ⟨rfl, rfl, ?_, rfl⟩⟩
  rw [erase_of_lookup_eq_none _ _ hobj]

/-- C15 at a concrete state: Create("/db/t2/") next to `/db/t` with the create
fail point on. -/
theorem create_under_fault_witness :
    ((MetadataStorageFromPlainObjectStorageCreateDirectoryOperation.construct "/db/t2/" "meta"
      "k2").execute createFault 7 oneDirState).error = some ErrorCode.FAULT_INJECTED :=
  (create_under_fault "/db/t2/" "meta" "k2" createFault 7 oneDirState (by decide)
    (by decide)).1


/-! ## The claims on undoing a move -/

theorem move_execute_failure
    (op : MetadataStorageFromPlainObjectStorageMoveDirectoryOperation) (fp : FailPoints)
    (now : Int) (s : State) (h : (op.execute fp now s).error ≠ none) :
    (op.execute fp now s).op = op
    ∧ (op.execute fp now s).state.path_map = s.path_map
    ∧ (op.execute fp now s).state.object_storage.objects = s.object_storage.objects
    ∧ (op.execute fp now s).state.metrics = s.metrics := by
  cases hfrom : mapFind s.path_map.map (parent_path op.path_from) with
  | none =>
    rw [move_execute_of_source_missing op fp now s hfrom]
    exact ⟨rfl, rfl, rfl, rfl⟩
  | some r =>
    cases hto : mapFind s.path_map.map (parent_path op.path_to) with
    | some r2 =>
      rw [move_execute_of_destination_exists op fp now s r hfrom (by simp [mapContains, hto])]
      exact ⟨rfl, rfl, rfl, rfl⟩
    | none =>
      cases hobj : s.object_storage.objects.lookup
          (createMetadataObjectKey r.path op.metadata_key_prefix) with
      | none =>
        rw [move_execute_of_unreadable op fp now s r hfrom hto hobj]
        exact ⟨rfl, rfl, rfl, rfl⟩
      | some data =>
        by_cases hdata : lexical data = lexical op.path_from
        · cases hf : fp.plain_object_storage_write_fail_on_directory_move with
          | true =>
            rw [move_execute_of_fault op fp now s r data hfrom hto hobj hdata hf]
            exact ⟨rfl, rfl, rfl, rfl⟩
          | false =>
            rw [move_execute_of_ok op fp now s r data hfrom hto hobj hdata hf] at h
            exact absurd rfl h
        · rw [move_execute_of_incorrect_data op fp now s r data hfrom hto hobj hdata]
          exact ⟨rfl, rfl, rfl, rfl⟩

theorem move_execute_success
    (op : MetadataStorageFromPlainObjectStorageMoveDirectoryOperation) (fp : FailPoints)
    (now : Int) (s : State) (r : RemotePathInfo)
    (hfrom : mapFind s.path_map.map (parent_path op.path_from) = some r)
    (h : (op.execute fp now s).error = none) :
    mapFind s.path_map.map (parent_path op.path_to) = none
    ∧ op.execute fp now s =
      ⟨{ op with write_finalized := true },
        { path_map :=
            { map := (s.path_map.map.erase (lexical (parent_path op.path_from))).insert
                (lexical (parent_path op.path_to)) { r with last_modified := now }
              unique_filenames := s.path_map.unique_filenames }
          object_storage :=
            { objects := s.object_storage.objects.insert
                (createMetadataObjectKey r.path op.metadata_key_prefix) op.path_to
              calls := s.object_storage.calls ++
                [RemoteCall.readObject (createMetadataObjectKey r.path op.metadata_key_prefix),
                  RemoteCall.writeObject
                    (createMetadataObjectKey r.path op.metadata_key_prefix),
                  RemoteCall.finalize
                    (createMetadataObjectKey r.path op.metadata_key_prefix) op.path_to] }
          metrics := s.metrics },
        none⟩ := by
  cases hto : mapFind s.path_map.map (parent_path op.path_to) with
  | some r2 =>
    rw [move_execute_of_destination_exists op fp now s r hfrom (by simp [mapContains, hto])] at h
    exact Option.noConfusion h
  | none =>
    cases hobj : s.object_storage.objects.lookup
        (createMetadataObjectKey r.path op.metadata_key_prefix) with
    | none =>
      rw [move_execute_of_unreadable op fp now s r hfrom hto hobj] at h
      exact Option.noConfusion h
    | some data =>
      by_cases hdata : lexical data = lexical op.path_from
      · cases hf : fp.plain_object_storage_write_fail_on_directory_move with
        | true =>
          rw [move_execute_of_fault op fp now s r data hfrom hto hobj hdata hf] at h
          exact Option.noConfusion h
        | false =>
          exact ⟨rfl, move_execute_of_ok op fp now s r data hfrom hto hobj hdata hf⟩
      · rw [move_execute_of_incorrect_data op fp now s r data hfrom hto hobj hdata] at h
        exact Option.noConfusion h

/-- C16: a failed move.  Whenever Move(A, B) fails, whatever the error,
`write_finalized` is false, the index, the remote objects and the metrics are
those before execute, and the undo of the same operation returns normally
without touching the state: no index mutation and no call to the object
storage. -/
theorem move_failure_leaves_state (A B m : String) (fp : FailPoints) (now : Int) (s : State)
    (hfail : ((MetadataStorageFromPlainObjectStorageMoveDirectoryOperation.construct A B
      m).execute fp now s).error ≠ none) :
    let out :=
      (MetadataStorageFromPlainObjectStorageMoveDirectoryOperation.construct A B m).execute
        fp now s
    out.op.write_finalized = false
    ∧ out.state.path_map = s.path_map
    ∧ out.state.object_storage.objects = s.object_storage.objects
    ∧ out.state.metrics = s.metrics
    ∧ out.op.undo out.state = ⟨out.op, out.state, none⟩ := by
  intro out
  obtain ⟨hop, hmap, hobj, hmet⟩ := move_execute_failure
    (MetadataStorageFromPlainObjectStorageMoveDirectoryOperation.construct A B m) fp now s hfail
  have hflag : out.op.write_finalized = false := by
    show ((MetadataStorageFromPlainObjectStorageMoveDirectoryOperation.construct A B
      m).execute fp now s).op.write_finalized = false
    rw [hop]
    rfl
  exact ⟨hflag, hmap, hobj, hmet, move_undo_of_not_finalized out.op out.state hflag⟩

/-- C16 at a concrete state: the move of `/db/t` with the move fail point on. -/
theorem move_failure_leaves_state_witness :
    ((MetadataStorageFromPlainObjectStorageMoveDirectoryOperation.construct "/db/t/" "/db/t2/"
      "meta").execute moveFault 7 oneDirState).state.path_map = oneDirState.path_map :=
  (move_failure_leaves_state "/db/t/" "/db/t2/" "meta" moveFault 7 oneDirState
    (by decide)).2.1

/-- C17, on the code: after a successful Move(A, B) of the record `r`, the undo of
the same operation fails with FILE_DOESNT_EXIST.  It has moved the record back
to A's key and then looks B's key up to open the write buffer; it makes no call
to the object storage, and the marker of `r` still holds B's path string. -/
theorem move_undo_fails (A B m : String) (fp : FailPoints) (now : Int) (s : State)
    (r : RemotePathInfo) (hA : mapFind s.path_map.map (parent_path A) = some r)
    (hexec : ((MetadataStorageFromPlainObjectStorageMoveDirectoryOperation.construct A B
      m).execute fp now s).error = none) :
    let out :=
      (MetadataStorageFromPlainObjectStorageMoveDirectoryOperation.construct A B m).execute
        fp now s
    let back := out.op.undo out.state
    out.op.write_finalized = true
    ∧ back.error = some ErrorCode.FILE_DOESNT_EXIST
    ∧ back.state.object_storage = out.state.object_storage
    ∧ back.state.object_storage.objects.lookup (createMetadataObjectKey r.path m) = some B := by
  intro out back
  obtain ⟨hB, hout⟩ := move_execute_success
    (MetadataStorageFromPlainObjectStorageMoveDirectoryOperation.construct A B m) fp now s r
    hA hexec
  have hout1 : out = _ := hout
  have hne : lexical (parent_path A) ≠ lexical (parent_path B) := by
    intro heq
    unfold mapFind at hA hB
    rw [MetadataStorageFromPlainObjectStorageMoveDirectoryOperation.construct] at hB
    rw [heq, hB] at hA
    exact Option.noConfusion hA
  have hto : mapFind out.state.path_map.map (parent_path out.op.path_to)
      = some { r with last_modified := now } := by
    rw [hout1]
    dsimp only [MetadataStorageFromPlainObjectStorageMoveDirectoryOperation.construct, mapFind]
    rw [Finmap.lookup_insert]
  have hfrom : mapFind out.state.path_map.map (parent_path out.op.path_from) = none := by
    rw [hout1]
    dsimp only [MetadataStorageFromPlainObjectStorageMoveDirectoryOperation.construct, mapFind]
    rw [Finmap.lookup_insert_of_ne _ hne, Finmap.lookup_erase]
  have hfin : out.op.write_finalized = true := by rw [hout1]
  have hback : back = _ := move_undo_of_finalized out.op out.state _ hfin hto hfrom
  rw [hback]
  refine ⟨hfin, rfl, rfl, ?_⟩
  rw [hout1]
  dsimp only [MetadataStorageFromPlainObjectStorageMoveDirectoryOperation.construct]
  rw [Finmap.lookup_insert]

/-- C17 at a concrete state: `/db/t` is moved to `/db/t2`; the undo raises
FILE_DOESNT_EXIST and the marker still holds `/db/t2/`. -/
theorem move_undo_fails_witness :
    ((MetadataStorageFromPlainObjectStorageMoveDirectoryOperation.construct "/db/t/" "/db/t2/"
        "meta").execute noFault 7 oneDirState).error = none
    ∧ (((MetadataStorageFromPlainObjectStorageMoveDirectoryOperation.construct "/db/t/"
            "/db/t2/" "meta").execute noFault 7 oneDirState).op.undo
          ((MetadataStorageFromPlainObjectStorageMoveDirectoryOperation.construct "/db/t/"
            "/db/t2/" "meta").execute noFault 7 oneDirState).state).error
        = some ErrorCode.FILE_DOESNT_EXIST
    ∧ (((MetadataStorageFromPlainObjectStorageMoveDirectoryOperation.construct "/db/t/"
            "/db/t2/" "meta").execute noFault 7 oneDirState).op.undo
          ((MetadataStorageFromPlainObjectStorageMoveDirectoryOperation.construct "/db/t/"
            "/db/t2/" "meta").execute noFault 7
            oneDirState).state).state.object_storage.objects.lookup
        (createMetadataObjectKey "k" "meta") = some "/db/t2/" :=
  have h := move_undo_fails "/db/t/" "/db/t2/" "meta" noFault 7 oneDirState ⟨"k", 0, ∅⟩
    (by decide) (by decide)
  ⟨by decide, h.2.1, h.2.2.2⟩

/-- C18: the index after the undo of a move.  After a successful Move(A, B) of the
record `r`, the index mutation of the undo leaves A's key mapped to `r` with the
modification time of the move (same key prefix, same filename set), B's key
absent and every other entry as before execute; the index has the keys it had
before execute. -/
theorem move_undo_relocates_back (A B m : String) (fp : FailPoints) (now : Int) (s : State)
    (r : RemotePathInfo) (hA : mapFind s.path_map.map (parent_path A) = some r)
    (hexec : ((MetadataStorageFromPlainObjectStorageMoveDirectoryOperation.construct A B
      m).execute fp now s).error = none) :
    let out :=
      (MetadataStorageFromPlainObjectStorageMoveDirectoryOperation.construct A B m).execute
        fp now s
    let back := out.op.undo out.state
    mapFind back.state.path_map.map (parent_path A) = some ⟨r.path, now, r.filename_iterators⟩
    ∧ mapFind back.state.path_map.map (parent_path B) = none
    ∧ (∀ x, x ≠ lexical (parent_path A) →
        back.state.path_map.map.lookup x = s.path_map.map.lookup x)
    ∧ back.state.path_map.map.keys = s.path_map.map.keys
    ∧ back.state.path_map.unique_filenames = s.path_map.unique_filenames := by
  intro out back
  obtain ⟨hB, hout⟩ := move_execute_success
    (MetadataStorageFromPlainObjectStorageMoveDirectoryOperation.construct A B m) fp now s r
    hA hexec
  have hout1 : out = _ := hout
  have hB1 : Finmap.lookup (lexical (parent_path B)) s.path_map.map = none := hB
  have hA1 : Finmap.lookup (lexical (parent_path A)) s.path_map.map = some r := hA
  have hne : lexical (parent_path A) ≠ lexical (parent_path B) := by
    intro heq
    rw [heq, hB1] at hA1
    exact Option.noConfusion hA1
  have hto : mapFind out.state.path_map.map (parent_path out.op.path_to)
      = some { r with last_modified := now } := by
    rw [hout1]
    dsimp only [MetadataStorageFromPlainObjectStorageMoveDirectoryOperation.construct, mapFind]
    rw [Finmap.lookup_insert]
  have hfrom : mapFind out.state.path_map.map (parent_path out.op.path_from) = none := by
    rw [hout1]
    dsimp only [MetadataStorageFromPlainObjectStorageMoveDirectoryOperation.construct, mapFind]
    rw [Finmap.lookup_insert_of_ne _ hne, Finmap.lookup_erase]
  have hfin : out.op.write_finalized = true := by rw [hout1]
  have hback : back = _ := move_undo_of_finalized out.op out.state _ hfin hto hfrom
  have hBerased : Finmap.lookup (lexical (parent_path B))
      (s.path_map.map.erase (lexical (parent_path A))) = none := by
    rw [Finmap.lookup_erase_ne hne.symm]
    exact hB1
  have hmap : back.state.path_map.map
      = s.path_map.map.insert (lexical (parent_path A)) { r with last_modified := now } := by
    rw [hback, hout1]
    dsimp only [MetadataStorageFromPlainObjectStorageMoveDirectoryOperation.construct]
    rw [erase_insert_of_lookup_eq_none _ _ _ hBerased, insert_erase_same]
  have hpool : back.state.path_map.unique_filenames = s.path_map.unique_filenames := by
    rw [hback, hout1]
  rw [hmap]
  refine ⟨?_, ?_, fun x hx => ?_, ?_, hpool⟩
  · unfold mapFind
    rw [Finmap.lookup_insert]
  · unfold mapFind
    rw [Finmap.lookup_insert_of_ne _ hne.symm]
    exact hB1
  · rw [Finmap.lookup_insert_of_ne _ hx]
  · exact keys_insert_of_lookup_eq_some _ _ _ _ hA1

/-- C18 at a concrete state: `/db/t` is moved to `/db/t2` and the move is undone. -/
theorem move_undo_relocates_back_witness :
    mapFind
        (((MetadataStorageFromPlainObjectStorageMoveDirectoryOperation.construct "/db/t/"
            "/db/t2/" "meta").execute noFault 7 oneDirState).op.undo
          ((MetadataStorageFromPlainObjectStorageMoveDirectoryOperation.construct "/db/t/"
            "/db/t2/" "meta").execute noFault 7 oneDirState).state).state.path_map.map
        (parent_path "/db/t/") = some ⟨"k", 7, ∅⟩ :=
  (move_undo_relocates_back "/db/t/" "/db/t2/" "meta" noFault 7 oneDirState ⟨"k", 0, ∅⟩
    (by decide) (by decide)).1


/-! ## The claims on undoing a remove -/

theorem remove_execute_undo
    (op : MetadataStorageFromPlainObjectStorageRemoveDirectoryOperation) (s : State)
    (r : RemotePathInfo) (h : mapFind s.path_map.map (parent_path op.path) = some r) :
    (op.execute s).op.undo (op.execute s).state =
      ⟨{ op with key_prefix := r.path, remove_attempted := true },
        { path_map :=
            { map := s.path_map.map.insert (lexical (parent_path op.path)) ⟨r.path, 0, ∅⟩
              unique_filenames := s.path_map.unique_filenames }
          object_storage :=
            { objects := s.object_storage.objects.insert
                (createMetadataObjectKey r.path op.metadata_key_prefix) op.path
              calls := s.object_storage.calls ++
                [RemoteCall.removeObject
                    (createMetadataObjectKey r.path op.metadata_key_prefix),
                  RemoteCall.writeObject
                    (createMetadataObjectKey r.path op.metadata_key_prefix),
                  RemoteCall.finalize
                    (createMetadataObjectKey r.path op.metadata_key_prefix) op.path] }
          metrics :=
            { s.metrics with
              directory_map_size := s.metrics.directory_map_size - 1 + 1
              directory_removed := s.metrics.directory_removed + 1 } },
        none⟩ := by
  rw [remove_execute_of_present op s r h]
  rw [remove_undo_of_attempted _ _ rfl]
  simp [mapEmplace, mapContains, mapFind, Finmap.lookup_erase, insert_erase_same]

/-- C19, as amended: when P has the record `r`, Remove(P) followed by the undo of
the same operation leaves every index entry other than P's as it was and P's key
mapped to a record with the key prefix of `r`; the index, P's record included,
is the one before execute when `r` had modification time 0 and no filenames.
The remote store holds P's path string at the marker key of `r` and is otherwise
as it was, so it is the one before execute when the marker held P's path
string. -/
theorem remove_round_trip (P m : String) (s : State) (r : RemotePathInfo)
    (h : mapFind s.path_map.map (parent_path P) = some r) :
    let out :=
      (MetadataStorageFromPlainObjectStorageRemoveDirectoryOperation.construct P m).execute s
    let back := out.op.undo out.state
    (∃ r2, mapFind back.state.path_map.map (parent_path P) = some r2 ∧ r2.path = r.path)
    ∧ (∀ x, x ≠ lexical (parent_path P) →
        back.state.path_map.map.lookup x = s.path_map.map.lookup x)
    ∧ (r.last_modified = 0 → r.filename_iterators = ∅ → back.state.path_map = s.path_map)
    ∧ back.state.object_storage.objects.lookup (createMetadataObjectKey r.path m) = some P
    ∧ (∀ y, y ≠ createMetadataObjectKey r.path m →
        back.state.object_storage.objects.lookup y = s.object_storage.objects.lookup y)
    ∧ (s.object_storage.objects.lookup (createMetadataObjectKey r.path m) = some P →
        back.state.object_storage.objects = s.object_storage.objects) := by
  intro out back
  have hback : back = _ := remove_execute_undo
    (MetadataStorageFromPlainObjectStorageRemoveDirectoryOperation.construct P m) s r h
  rw [hback]
  dsimp only [MetadataStorageFromPlainObjectStorageRemoveDirectoryOperation.construct, mapFind]
  refine ⟨⟨⟨r.path, 0, ∅⟩, ?_, rfl⟩, fun x hx => ?_, fun h0 hfiles => ?_, ?_, fun y hy => ?_,
    fun hmarker => ?_⟩
  · rw [Finmap.lookup_insert]
  · rw [Finmap.lookup_insert_of_ne _ hx]
  · have hr : (⟨r.path, 0, ∅⟩ : RemotePathInfo) = r := by
      cases r with
      | mk p lm files =>
        simp only at h0 hfiles
        rw [h0, hfiles]
    rw [hr, insert_of_lookup_eq_some _ _ _ h]
  · rw [Finmap.lookup_insert]
  · rw [Finmap.lookup_insert_of_ne _ hy]
  · rw [insert_of_lookup_eq_some _ _ _ hmarker]

/-- C19 as amended, at a concrete state: the empty directory `/db/t` is removed
and the removal undone. -/
theorem remove_round_trip_witness :
    (((MetadataStorageFromPlainObjectStorageRemoveDirectoryOperation.construct "/db/t/"
          "meta").execute oneDirState).op.undo
        ((MetadataStorageFromPlainObjectStorageRemoveDirectoryOperation.construct "/db/t/"
          "meta").execute oneDirState).state).state.path_map = oneDirState.path_map :=
  (remove_round_trip "/db/t/" "meta" oneDirState ⟨"k", 0, ∅⟩ (by decide)).2.2.1 rfl rfl

/-- C19 as stated fails: `/db/t` has the record with modification time 5 and the
file `part1`; after Remove("/db/t/") and its undo the record at `/db/t` has
modification time 0 and no filenames, so the index is not the one before
execute. -/
theorem remove_undo_loses_filenames :
    mapFind filledDirState.path_map.map (parent_path "/db/t/") = some ⟨"k", 5, {"part1"}⟩
    ∧ mapFind
        (((MetadataStorageFromPlainObjectStorageRemoveDirectoryOperation.construct "/db/t/"
            "meta").execute filledDirState).op.undo
          ((MetadataStorageFromPlainObjectStorageRemoveDirectoryOperation.construct "/db/t/"
            "meta").execute filledDirState).state).state.path_map.map
        (parent_path "/db/t/") = some ⟨"k", 0, ∅⟩
    ∧ (((MetadataStorageFromPlainObjectStorageRemoveDirectoryOperation.construct "/db/t/"
            "meta").execute filledDirState).op.undo
          ((MetadataStorageFromPlainObjectStorageRemoveDirectoryOperation.construct "/db/t/"
            "meta").execute filledDirState).state).state.path_map.map
        ≠ filledDirState.path_map.map := by
  decide

/-- C20: the undo of a remove re-inserts the captured prefix and recreates the
marker.  When P has a record `r` with key prefix k and the marker of k holds P's
path string, Remove(P) followed by the undo of the same operation succeeds;
afterwards the index has at P's key a record with key prefix k, the marker of k
holds P's path string, the remote objects are those before execute, and the
directory count is the one before execute. -/
theorem remove_undo_reinserts (P m : String) (s : State) (r : RemotePathInfo)
    (h : mapFind s.path_map.map (parent_path P) = some r)
    (hmarker : s.object_storage.objects.lookup (createMetadataObjectKey r.path m) = some P) :
    let out :=
      (MetadataStorageFromPlainObjectStorageRemoveDirectoryOperation.construct P m).execute s
    let back := out.op.undo out.state
    out.error = none
    ∧ back.error = none
    ∧ (∃ r2, mapFind back.state.path_map.map (parent_path P) = some r2 ∧ r2.path = r.path)
    ∧ back.state.object_storage.objects.lookup (createMetadataObjectKey r.path m) = some P
    ∧ back.state.object_storage.objects = s.object_storage.objects
    ∧ back.state.metrics.directory_map_size = s.metrics.directory_map_size := by
  intro out back
  have hout : out = _ := remove_execute_of_present
    (MetadataStorageFromPlainObjectStorageRemoveDirectoryOperation.construct P m) s r h
  have hback : back = _ := remove_execute_undo
    (MetadataStorageFromPlainObjectStorageRemoveDirectoryOperation.construct P m) s r h
  rw [hback, hout]
  dsimp only [MetadataStorageFromPlainObjectStorageRemoveDirectoryOperation.construct, mapFind]
  refine ⟨rfl, rfl, ⟨⟨r.path, 0, ∅⟩, ?_, rfl⟩, ?_, ?_, ?_⟩
  · rw [Finmap.lookup_insert]
  · rw [Finmap.lookup_insert]
  · rw [insert_of_lookup_eq_some _ _ _ hmarker]
  · ring

/-- C20 at a concrete state: `/db/t` is removed and the removal undone. -/
theorem remove_undo_reinserts_witness :
    (((MetadataStorageFromPlainObjectStorageRemoveDirectoryOperation.construct "/db/t/"
          "meta").execute oneDirState).op.undo
        ((MetadataStorageFromPlainObjectStorageRemoveDirectoryOperation.construct "/db/t/"
          "meta").execute oneDirState).state).state.object_storage.objects.lookup
      (createMetadataObjectKey "k" "meta") = some "/db/t/" :=
  (remove_undo_reinserts "/db/t/" "meta" oneDirState ⟨"k", 0, ∅⟩ (by decide)
    (by decide)).2.2.2.1


/-! ## The claims on undoing a file registration -/

theorem write_undo_of_not_written
    (op : MetadataStorageFromPlainObjectStorageWriteFileOperation) (s : State)
    (h : op.written = false) : op.undo s = ⟨op, s, none⟩ := by
  simp [MetadataStorageFromPlainObjectStorageWriteFileOperation.undo, h]

theorem write_undo_of_member
    (op : MetadataStorageFromPlainObjectStorageWriteFileOperation) (s : State)
    (info : RemotePathInfo) (h : op.written = true)
    (hD : mapFind s.path_map.map (parent_path op.path) = some info)
    (hpool : filename op.path ∈ s.path_map.unique_filenames)
    (hmem : filename op.path ∈ info.filename_iterators) :
    op.undo s =
      ⟨op,
        { path_map :=
            { map := s.path_map.map.insert (lexical (parent_path op.path))
                { info with
                  filename_iterators := info.filename_iterators.erase (filename op.path) }
              unique_filenames := s.path_map.unique_filenames }
          object_storage := s.object_storage
          metrics := { s.metrics with file_count := s.metrics.file_count - 1 } },
        none⟩ := by
  simp [MetadataStorageFromPlainObjectStorageWriteFileOperation.undo, h, hD, hpool, hmem]

theorem unlink_undo_of_not_unlinked
    (op : MetadataStorageFromPlainObjectStorageUnlinkMetadataFileOperation) (s : State)
    (h : op.unlinked = false) : op.undo s = ⟨op, s, none⟩ := by
  simp [MetadataStorageFromPlainObjectStorageUnlinkMetadataFileOperation.undo, h]

theorem unlink_undo_of_not_member
    (op : MetadataStorageFromPlainObjectStorageUnlinkMetadataFileOperation) (s : State)
    (info : RemotePathInfo) (h : op.unlinked = true)
    (hD : mapFind s.path_map.map (parent_path op.path) = some info)
    (hpool : filename op.path ∈ s.path_map.unique_filenames)
    (hmem : filename op.path ∉ info.filename_iterators) :
    op.undo s =
      ⟨op,
        { path_map :=
            { map := s.path_map.map.insert (lexical (parent_path op.path))
                { info with
                  filename_iterators := insert (filename op.path) info.filename_iterators }
              unique_filenames := s.path_map.unique_filenames }
          object_storage := s.object_storage
          metrics := { s.metrics with file_count := s.metrics.file_count + 1 } },
        none⟩ := by
  simp [MetadataStorageFromPlainObjectStorageUnlinkMetadataFileOperation.undo, h, hD, hpool,
    hmem]

/-- C21: WriteFile round trip.  In every state and for every file path,
WriteFile(path) followed by the undo of the same operation leaves the index and
the file count as they were before execute, and neither call fails.  When the
filename was already registered (`written` false) the undo changes nothing, so
the filename stays registered; when the parent directory has no record both
calls change nothing. -/
theorem write_file_round_trip (path : String) (s : State) :
    let out := (MetadataStorageFromPlainObjectStorageWriteFileOperation.construct path).execute s
    let back := out.op.undo out.state
    (out.error = none ∧ back.error = none
      ∧ back.state.path_map.map = s.path_map.map
      ∧ back.state.metrics.file_count = s.metrics.file_count)
    ∧ (out.op.written = false → back.state = out.state)
    ∧ (∀ info, mapFind s.path_map.map (parent_path path) = some info →
        filename path ∈ info.filename_iterators →
        out.op.written = false
        ∧ mapFind back.state.path_map.map (parent_path path) = some info)
    ∧ (mapFind s.path_map.map (parent_path path) = none → out.state = s ∧ back.state = s) := by
  intro out back
  cases hD : mapFind s.path_map.map (parent_path path) with
  | none =>
    have hout : out = _ := write_execute_of_absent
      (MetadataStorageFromPlainObjectStorageWriteFileOperation.construct path) s hD
    have hback : back = _ := write_undo_of_not_written out.op out.state (by rw [hout]; rfl)
    rw [hback, hout]
    exact ⟨⟨rfl, rfl, rfl, rfl⟩, fun _ => rfl, fun info hinfo => Option.noConfusion hinfo,
      fun _ => ⟨rfl, rfl⟩⟩
  | some r =>
    have hout : out = _ := write_execute_of_present
      (MetadataStorageFromPlainObjectStorageWriteFileOperation.construct path) s r hD
    by_cases hmem : filename path ∈ r.filename_iterators
    · have hwritten : out.op.written = false := by
        rw [hout]
        simp [MetadataStorageFromPlainObjectStorageWriteFileOperation.construct, hmem]
      have hback : back = _ := write_undo_of_not_written out.op out.state hwritten
      have hmap : out.state.path_map.map = s.path_map.map := by
        rw [hout]
        dsimp only [MetadataStorageFromPlainObjectStorageWriteFileOperation.construct]
        rw [Finset.insert_eq_of_mem hmem]
        exact insert_of_lookup_eq_some _ _ _ hD
      have hcount : out.state.metrics.file_count = s.metrics.file_count := by
        rw [hout]
        simp [MetadataStorageFromPlainObjectStorageWriteFileOperation.construct, hmem]
      rw [hback]
      refine ⟨⟨by rw [hout], rfl, hmap, hcount⟩, fun _ => rfl, fun info hinfo _ => ?_,
        fun h => Option.noConfusion h⟩
      have hri : r = info := Option.some.inj hinfo
      subst hri
      refine ⟨hwritten, ?_⟩
      show mapFind out.state.path_map.map (parent_path path) = some r
      rw [hmap]
      exact hD
    · have hwritten : out.op.written = true := by
        rw [hout]
        simp [MetadataStorageFromPlainObjectStorageWriteFileOperation.construct, hmem]
      have hD1 : mapFind out.state.path_map.map (parent_path out.op.path)
          = some { r with
              filename_iterators := insert (filename path) r.filename_iterators } := by
        rw [hout]
        dsimp only [MetadataStorageFromPlainObjectStorageWriteFileOperation.construct, mapFind]
        rw [Finmap.lookup_insert]
      have hpool : filename out.op.path ∈ out.state.path_map.unique_filenames := by
        rw [hout]
        exact Finset.mem_insert_self _ _
      have hpath : out.op.path = path := by rw [hout]; rfl
      have hback : back = _ := write_undo_of_member out.op out.state _ hwritten hD1 hpool
        (by rw [hpath]; exact Finset.mem_insert_self _ _)
      have hmap : back.state.path_map.map = s.path_map.map := by
        rw [hback]
        dsimp only
        rw [hpath, Finset.erase_insert hmem, hout]
        dsimp only [MetadataStorageFromPlainObjectStorageWriteFileOperation.construct]
        rw [Finmap.insert_insert]
        exact insert_of_lookup_eq_some _ _ _ hD
      have hcount : back.state.metrics.file_count = s.metrics.file_count := by
        rw [hback, hout]
        simp [MetadataStorageFromPlainObjectStorageWriteFileOperation.construct, hmem]
      refine ⟨⟨by rw [hout], by rw [hback], hmap, hcount⟩, fun h => ?_, fun info hinfo hin => ?_,
        fun h => Option.noConfusion h⟩
      · rw [hwritten] at h
        exact Bool.noConfusion h
      · have hri : r = info := Option.some.inj hinfo
        subst hri
        exact absurd hin hmem

/-- C21 at a concrete state: `part1` is written under `/db/t`, which already
holds it, and the write is undone. -/
theorem write_file_round_trip_witness :
    mapFind
        (((MetadataStorageFromPlainObjectStorageWriteFileOperation.construct
            "/db/t/part1").execute filledDirState).op.undo
          ((MetadataStorageFromPlainObjectStorageWriteFileOperation.construct
            "/db/t/part1").execute filledDirState).state).state.path_map.map
        (parent_path "/db/t/part1") = some ⟨"k", 5, {"part1"}⟩ :=
  ((write_file_round_trip "/db/t/part1" filledDirState).2.2.1 ⟨"k", 5, {"part1"}⟩ (by decide)
    (by decide)).2

/-- C22: Unlink round trip.  In every state and for every file path, Unlink(path)
followed by the undo of the same operation leaves the index, the filename pool
and the file count as they were before execute, and neither call fails.  When
nothing was erased (`unlinked` false) the undo changes nothing. -/
theorem unlink_round_trip (path remote_path : String) (s : State) :
    let out :=
      (MetadataStorageFromPlainObjectStorageUnlinkMetadataFileOperation.construct path
        remote_path).execute s
    let back := out.op.undo out.state
    (out.error = none ∧ back.error = none
      ∧ back.state.path_map = s.path_map
      ∧ back.state.metrics.file_count = s.metrics.file_count)
    ∧ (out.op.unlinked = false → back.state = out.state ∧ out.state = s) := by
  intro out back
  cases hD : mapFind s.path_map.map (parent_path path) with
  | none =>
    have hout : out = _ := unlink_execute_of_absent
      (MetadataStorageFromPlainObjectStorageUnlinkMetadataFileOperation.construct path
        remote_path) s hD
    have hback : back = _ := unlink_undo_of_not_unlinked out.op out.state (by rw [hout]; rfl)
    rw [hback, hout]
    exact ⟨⟨rfl, rfl, rfl, rfl⟩, fun _ => ⟨rfl, rfl⟩⟩
  | some r =>
    by_cases hpool : filename path ∈ s.path_map.unique_filenames
    · by_cases hmem : filename path ∈ r.filename_iterators
      · have hout : out = _ := unlink_execute_of_member
          (MetadataStorageFromPlainObjectStorageUnlinkMetadataFileOperation.construct path
            remote_path) s r hD hpool hmem
        have hunlinked : out.op.unlinked = true := by rw [hout]
        have hpath : out.op.path = path := by rw [hout]; rfl
        have hD1 : mapFind out.state.path_map.map (parent_path out.op.path)
            = some { r with
                filename_iterators := r.filename_iterators.erase (filename path) } := by
          rw [hout]
          dsimp only [MetadataStorageFromPlainObjectStorageUnlinkMetadataFileOperation.construct,
            mapFind]
          rw [Finmap.lookup_insert]
        have hpool1 : filename out.op.path ∈ out.state.path_map.unique_filenames := by
          rw [hout]
          exact hpool
        have hback : back = _ := unlink_undo_of_not_member out.op out.state _ hunlinked hD1
          hpool1 (by rw [hpath]; exact Finset.not_mem_erase _ _)
        have hmap : back.state.path_map = s.path_map := by
          rw [hback]
          dsimp only
          rw [hpath, Finset.insert_erase hmem, hout]
          dsimp only [MetadataStorageFromPlainObjectStorageUnlinkMetadataFileOperation.construct]
          rw [Finmap.insert_insert, insert_of_lookup_eq_some _ _ _ hD]
        have hcount : back.state.metrics.file_count = s.metrics.file_count := by
          rw [hback, hout]
          simp
        refine ⟨⟨by rw [hout], by rw [hback], hmap, hcount⟩, fun h => ?_⟩
        rw [hunlinked] at h
        exact Bool.noConfusion h
      · have hout : out = _ := unlink_execute_of_not_member
          (MetadataStorageFromPlainObjectStorageUnlinkMetadataFileOperation.construct path
            remote_path) s r hD hpool hmem
        have hback : back = _ := unlink_undo_of_not_unlinked out.op out.state
          (by rw [hout])
        rw [hback, hout]
        exact ⟨⟨rfl, rfl, rfl, rfl⟩, fun _ => ⟨rfl, rfl⟩⟩
    · have hout : out = _ := unlink_execute_of_unpooled
        (MetadataStorageFromPlainObjectStorageUnlinkMetadataFileOperation.construct path
          remote_path) s r hD hpool rfl
      have hback : back = _ := unlink_undo_of_not_unlinked out.op out.state
        (by rw [hout]; rfl)
      rw [hback, hout]
      exact ⟨⟨rfl, rfl, rfl, rfl⟩, fun _ => ⟨rfl, rfl⟩⟩

/-- C22 at a concrete state: `part1` is unlinked from `/db/t` and the unlink is
undone. -/
theorem unlink_round_trip_witness :
    (((MetadataStorageFromPlainObjectStorageUnlinkMetadataFileOperation.construct "/db/t/part1"
          "remote").execute filledDirState).op.undo
        ((MetadataStorageFromPlainObjectStorageUnlinkMetadataFileOperation.construct
          "/db/t/part1" "remote").execute filledDirState).state).state.path_map
      = filledDirState.path_map :=
  (unlink_round_trip "/db/t/part1" "remote" filledDirState).1.2.2.1


/-! ## The claim on a sequence of operations -/

/-- C23, on the code: the sequence Move("/db/t/", "/db/t2/"), Move("/db/x/",
"/db/y/") is run on the state with the one directory `/db/t`, whose marker holds
"/db/t/".  The second execute fails with FILE_DOESNT_EXIST; the undo of the
first move puts the record back at `/db/t` and then fails, so after the undo
phase the marker holds "/db/t2/", not the "/db/t/" it held before the
sequence. -/
theorem failed_sequence_keeps_moved_marker :
    oneDirState.object_storage.objects.lookup (createMetadataObjectKey "k" "meta")
      = some "/db/t/"
    ∧ (runOperations noFault 7
        [MetadataOperation.moveDirectory
            (MetadataStorageFromPlainObjectStorageMoveDirectoryOperation.construct "/db/t/"
              "/db/t2/" "meta"),
          MetadataOperation.moveDirectory
            (MetadataStorageFromPlainObjectStorageMoveDirectoryOperation.construct "/db/x/"
              "/db/y/" "meta")]
        [] oneDirState).2 = some ErrorCode.FILE_DOESNT_EXIST
    ∧ (runOperations noFault 7
        [MetadataOperation.moveDirectory
            (MetadataStorageFromPlainObjectStorageMoveDirectoryOperation.construct "/db/t/"
              "/db/t2/" "meta"),
          MetadataOperation.moveDirectory
            (MetadataStorageFromPlainObjectStorageMoveDirectoryOperation.construct "/db/x/"
              "/db/y/" "meta")]
        [] oneDirState).1.object_storage.objects.lookup (createMetadataObjectKey "k" "meta")
      = some "/db/t2/" := by
  decide

/-- A second failed sequence: Create("/db/t/") on the state that already has
`/db/t` is a no-op, the following Move("/db/x/", "/db/y/") fails, and the undo
of the create erases the record of `/db/t`, which was there before the
sequence. -/
theorem failed_sequence_erases_existing_directory :
    mapFind oneDirState.path_map.map "/db/t" = some ⟨"k", 0, ∅⟩
    ∧ (runOperations noFault 7
        [MetadataOperation.createDirectory
            (MetadataStorageFromPlainObjectStorageCreateDirectoryOperation.construct "/db/t/"
              "meta" "k9"),
          MetadataOperation.moveDirectory
            (MetadataStorageFromPlainObjectStorageMoveDirectoryOperation.construct "/db/x/"
              "/db/y/" "meta")]
        [] oneDirState).2 = some ErrorCode.FILE_DOESNT_EXIST
    ∧ mapFind (runOperations noFault 7
        [MetadataOperation.createDirectory
            (MetadataStorageFromPlainObjectStorageCreateDirectoryOperation.construct "/db/t/"
              "meta" "k9"),
          MetadataOperation.moveDirectory
            (MetadataStorageFromPlainObjectStorageMoveDirectoryOperation.construct "/db/x/"
              "/db/y/" "meta")]
        [] oneDirState).1.path_map.map "/db/t" = none := by
  decide


/-! ## The marker key -/

theorem filename_eq_empty_of_data_nil (p : String) (h : p.data = []) : filename p = "" := by
  unfold filename
  rw [h]
  rfl

theorem filename_eq_empty_of_last_sep (p : String) (cs : List Char)
    (h : p.data.reverse = sep :: cs) : filename p = "" := by
  unfold filename
  rw [h]
  rfl

theorem filename_ne_empty_of_last_ne_sep (p : String) (c : Char) (cs : List Char)
    (h : p.data.reverse = c :: cs) (hc : c ≠ sep) : filename p ≠ "" := by
  unfold filename
  rw [h]
  have hb : (c != sep) = true := by simp [hc]
  intro hcontra
  have hdata := congrArg String.data hcontra
  simp [List.takeWhile, hb] at hdata

theorem pathAppend_of_absolute (p q : String) (cs : List Char) (h : q.data = sep :: cs) :
    pathAppend p q = q := by
  unfold pathAppend
  rw [h]
  simp

theorem pathAppend_data_of_relative (p q : String) (h : q.data.head? ≠ some sep) :
    (pathAppend p q).data
      = p.data ++ (if filename p = "" then [] else [sep]) ++ q.data := by
  unfold pathAppend
  cases hq : q.data with
  | nil =>
    by_cases hf : filename p = ""
    · simp [hf]
    · simp [hf, String.data_append, sep]
  | cons c cs =>
    have hc : c ≠ sep := by
      intro hcs
      rw [hq, hcs] at h
      exact h rfl
    have hc1 : ¬ c = '/' := hc
    by_cases hf : filename p = ""
    · simp [hc, hf, String.data_append, hq]
    · simp [hc1, hf, String.data_append, hq, sep]

theorem prefix_path_file_name_relative : PREFIX_PATH_FILE_NAME.data.head? ≠ some sep := by
  decide

theorem createMetadataObjectKey_data ( k m : String) :
    (createMetadataObjectKey k m).data
      = (pathAppend m k).data ++ (if filename (pathAppend m k) = "" then [] else [sep])
        ++ PREFIX_PATH_FILE_NAME.data := by
  unfold createMetadataObjectKey createAsRelative
  exact pathAppend_data_of_relative _ _ prefix_path_file_name_relative


theorem pathAppend_data_ne_nil_of_relative (m k : String) (h : k.data.head? ≠ some sep)
    (hne : m ≠ "" ∨ k ≠ "") : (pathAppend m k).data ≠ [] := by
  rw [pathAppend_data_of_relative m k h]
  intro hnil
  simp only [List.append_eq_nil] at hnil
  rcases hne with hm | hk
  · exact hm (String.ext hnil.1.1)
  · exact hk (String.ext hnil.2)

theorem data_ends_with_sep_of_filename_empty (p : String) (hne : p.data ≠ [])
    (hf : filename p = "") : ∃ cs, p.data = cs ++ [sep] := by
  cases hrev : p.data.reverse with
  | nil =>
    exact absurd (List.reverse_eq_nil_iff.mp hrev) hne
  | cons c cs =>
    by_cases hc : c = sep
    · refine ⟨cs.reverse, ?_⟩
      have h2 := congrArg List.reverse hrev
      rw [List.reverse_reverse] at h2
      rw [h2, hc]
      simp
    · exact absurd hf (filename_ne_empty_of_last_ne_sep p c cs hrev hc)

theorem marker_key_suffix_of_data_ne_nil (p : String) (hne : p.data ≠ []) :
    (sep :: PREFIX_PATH_FILE_NAME.data)
      <:+ (p.data ++ (if filename p = "" then [] else [sep]) ++ PREFIX_PATH_FILE_NAME.data) := by
  by_cases hf : filename p = ""
  · obtain ⟨cs, hcs⟩ := data_ends_with_sep_of_filename_empty p hne hf
    refine ⟨cs, ?_⟩
    simp [hf, hcs]
  · refine ⟨p.data, ?_⟩
    simp [hf]


theorem create_execute_calls
    (op : MetadataStorageFromPlainObjectStorageCreateDirectoryOperation) (fp : FailPoints)
    (now : Int) (s : State) :
    ∀ c ∈ (op.execute fp now s).state.object_storage.calls,
      c ∈ s.object_storage.calls
      ∨ c.remote_path_of
          = createMetadataObjectKey op.object_key_prefix op.metadata_key_prefix := by
  cases h : mapFind s.path_map.map (parent_path op.path) with
  | some r =>
    rw [create_execute_of_present op fp now s (by simp [mapContains, h])]
    exact fun c hc => Or.inl hc
  | none =>
    cases hf : fp.plain_object_storage_write_fail_on_directory_create with
    | true =>
      rw [create_execute_of_fault op fp now s h hf]
      intro c hc
      simp only [List.mem_append, List.mem_singleton] at hc
      rcases hc with hc | hc
      · exact Or.inl hc
      · exact Or.inr (by rw [hc]; rfl)
    | false =>
      rw [create_execute_of_absent op fp now s h hf]
      intro c hc
      simp only [List.mem_append, List.mem_cons, List.mem_singleton, List.not_mem_nil,
        or_false] at hc
      rcases hc with hc | hc | hc
      · exact Or.inl hc
      · exact Or.inr (by rw [hc]; rfl)
      · exact Or.inr (by rw [hc]; rfl)

theorem move_execute_calls
    (op : MetadataStorageFromPlainObjectStorageMoveDirectoryOperation) (fp : FailPoints)
    (now : Int) (s : State) (r : RemotePathInfo)
    (hfrom : mapFind s.path_map.map (parent_path op.path_from) = some r) :
    ∀ c ∈ (op.execute fp now s).state.object_storage.calls,
      c ∈ s.object_storage.calls
      ∨ c.remote_path_of = createMetadataObjectKey r.path op.metadata_key_prefix := by
  cases hto : mapFind s.path_map.map (parent_path op.path_to) with
  | some r2 =>
    rw [move_execute_of_destination_exists op fp now s r hfrom (by simp [mapContains, hto])]
    exact fun c hc => Or.inl hc
  | none =>
    cases hobj : s.object_storage.objects.lookup
        (createMetadataObjectKey r.path op.metadata_key_prefix) with
    | none =>
      rw [move_execute_of_unreadable op fp now s r hfrom hto hobj]
      intro c hc
      simp only [List.mem_append, List.mem_singleton] at hc
      rcases hc with hc | hc
      · exact Or.inl hc
      · exact Or.inr (by rw [hc]; rfl)
    | some data =>
      by_cases hdata : lexical data = lexical op.path_from
      · cases hf : fp.plain_object_storage_write_fail_on_directory_move with
        | true =>
          rw [move_execute_of_fault op fp now s r data hfrom hto hobj hdata hf]
          intro c hc
          simp only [List.mem_append, List.mem_cons, List.mem_singleton, List.not_mem_nil,
            or_false] at hc
          rcases hc with hc | hc | hc
          · exact Or.inl hc
          · exact Or.inr (by rw [hc]; rfl)
          · exact Or.inr (by rw [hc]; rfl)
        | false =>
          rw [move_execute_of_ok op fp now s r data hfrom hto hobj hdata hf]
          intro c hc
          simp only [List.mem_append, List.mem_cons, List.mem_singleton, List.not_mem_nil,
            or_false] at hc
          rcases hc with hc | hc | hc | hc
          · exact Or.inl hc
          · exact Or.inr (by rw [hc]; rfl)
          · exact Or.inr (by rw [hc]; rfl)
          · exact Or.inr (by rw [hc]; rfl)
      · rw [move_execute_of_incorrect_data op fp now s r data hfrom hto hobj hdata]
        intro c hc
        simp only [List.mem_append, List.mem_singleton] at hc
        rcases hc with hc | hc
        · exact Or.inl hc
        · exact Or.inr (by rw [hc]; rfl)

theorem remove_execute_calls
    (op : MetadataStorageFromPlainObjectStorageRemoveDirectoryOperation) (s : State)
    (r : RemotePathInfo) (h : mapFind s.path_map.map (parent_path op.path) = some r) :
    ∀ c ∈ (op.execute s).state.object_storage.calls,
      c ∈ s.object_storage.calls
      ∨ c.remote_path_of = createMetadataObjectKey r.path op.metadata_key_prefix := by
  rw [remove_execute_of_present op s r h]
  intro c hc
  simp only [List.mem_append, List.mem_singleton] at hc
  rcases hc with hc | hc
  · exact Or.inl hc
  · exact Or.inr (by rw [hc]; rfl)

/-- C24, as amended: the marker key is the path join of m, k and the marker name
"prefix.path", in that order.  It always contains k and ends with the marker
name, after a separator unless m and k are both empty; it starts with m when k
does not start with the separator, while for a k that starts with the separator
the join drops m.  Create, Move and Remove make their calls to the object
storage at this key, computed from the key prefix the record stores. -/
theorem marker_key_codec ( k m : String) :
    createMetadataObjectKey k m = pathAppend (pathAppend m k) PREFIX_PATH_FILE_NAME
    ∧ k.data <:+: (createMetadataObjectKey k m).data
    ∧ PREFIX_PATH_FILE_NAME.data <:+ (createMetadataObjectKey k m).data
    ∧ (m ≠ "" ∨ k ≠ "" →
        (sep :: PREFIX_PATH_FILE_NAME.data) <:+ (createMetadataObjectKey k m).data)
    ∧ (k.data.head? ≠ some sep → m.data <+: (createMetadataObjectKey k m).data)
    ∧ (k.data.head? = some sep →
        createMetadataObjectKey k m = pathAppend k PREFIX_PATH_FILE_NAME)
    ∧ (∀ (P : String) (fp : FailPoints) (now : Int) (s : State),
        ∀ c ∈ ((MetadataStorageFromPlainObjectStorageCreateDirectoryOperation.construct P m
            k).execute fp now s).state.object_storage.calls,
          c ∈ s.object_storage.calls ∨ c.remote_path_of = createMetadataObjectKey k m)
    ∧ (∀ (A B : String) (fp : FailPoints) (now : Int) (s : State) (r : RemotePathInfo),
        mapFind s.path_map.map (parent_path A) = some r → r.path = k →
        ∀ c ∈ ((MetadataStorageFromPlainObjectStorageMoveDirectoryOperation.construct A B
            m).execute fp now s).state.object_storage.calls,
          c ∈ s.object_storage.calls ∨ c.remote_path_of = createMetadataObjectKey k m)
    ∧ (∀ (P : String) (s : State) (r : RemotePathInfo),
        mapFind s.path_map.map (parent_path P) = some r → r.path = k →
        ∀ c ∈ ((MetadataStorageFromPlainObjectStorageRemoveDirectoryOperation.construct P
            m).execute s).state.object_storage.calls,
          c ∈ s.object_storage.calls ∨ c.remote_path_of = createMetadataObjectKey k m) := by
  have hkey := createMetadataObjectKey_data k m
  refine ⟨rfl, ?_, ?_, ?_, ?_, ?_, ?_, ?_, ?_⟩
  · by_cases hk : k.data.head? = some sep
    · obtain ⟨cs, hcs⟩ : ∃ cs, k.data = sep :: cs := by
        cases hd : k.data with
        | nil => rw [hd] at hk; exact Option.noConfusion hk
        | cons c cs =>
          rw [hd] at hk
          exact ⟨cs, by rw [Option.some.inj hk]⟩
      rw [hkey, pathAppend_of_absolute m k cs hcs]
      exact ⟨[], (if filename k = "" then [] else [sep]) ++ PREFIX_PATH_FILE_NAME.data,
        by simp⟩
    · rw [hkey, pathAppend_data_of_relative m k hk]
      exact ⟨m.data ++ (if filename m = "" then [] else [sep]),
        (if filename (pathAppend m k) = "" then [] else [sep]) ++ PREFIX_PATH_FILE_NAME.data,
        by simp⟩
  · rw [hkey]
    exact ⟨_, rfl⟩
  · intro hne
    rw [hkey]
    apply marker_key_suffix_of_data_ne_nil
    by_cases hk : k.data.head? = some sep
    · obtain ⟨cs, hcs⟩ : ∃ cs, k.data = sep :: cs := by
        cases hd : k.data with
        | nil => rw [hd] at hk; exact Option.noConfusion hk
        | cons c cs =>
          rw [hd] at hk
          exact ⟨cs, by rw [Option.some.inj hk]⟩
      rw [pathAppend_of_absolute m k cs hcs, hcs]
      exact List.cons_ne_nil _ _
    · exact pathAppend_data_ne_nil_of_relative m k hk hne
  · intro hk
    rw [hkey, pathAppend_data_of_relative m k hk]
    exact ⟨(if filename m = "" then [] else [sep]) ++ k.data
      ++ (if filename (pathAppend m k) = "" then [] else [sep]) ++ PREFIX_PATH_FILE_NAME.data,
      by simp⟩
  · intro hk
    obtain ⟨cs, hcs⟩ : ∃ cs, k.data = sep :: cs := by
      cases hd : k.data with
      | nil => rw [hd] at hk; exact Option.noConfusion hk
      | cons c cs =>
        rw [hd] at hk
        exact ⟨cs, by rw [Option.some.inj hk]⟩
    unfold createMetadataObjectKey createAsRelative
    rw [pathAppend_of_absolute m k cs hcs]
  · intro P fp now s
    exact create_execute_calls
      (MetadataStorageFromPlainObjectStorageCreateDirectoryOperation.construct P m k) fp now s
  · intro A B fp now s r hA hr
    rw [← hr]
    exact move_execute_calls
      (MetadataStorageFromPlainObjectStorageMoveDirectoryOperation.construct A B m) fp now s r
      hA
  · intro P s r hP hr
    rw [← hr]
    exact remove_execute_calls
      (MetadataStorageFromPlainObjectStorageRemoveDirectoryOperation.construct P m) s r hP

/-- C24 as amended, at concrete prefixes. -/
theorem marker_key_codec_witness :
    createMetadataObjectKey "abc" "meta" = "meta/abc/prefix.path"
    ∧ "meta".data <+: (createMetadataObjectKey "abc" "meta").data :=
  ⟨by decide, (marker_key_codec "abc" "meta").2.2.2.2.1 (by decide)⟩

/-- C24 as stated fails: for the key prefix "/abc", which starts with the
separator, and the metadata prefix "meta" the key is "/abc/prefix.path", which
does not start with "meta"; and for an empty key prefix and an empty metadata
prefix the key is "prefix.path", which does not end with "/prefix.path". -/
theorem marker_key_drops_metadata_prefix :
    createMetadataObjectKey "/abc" "meta" = "/abc/prefix.path"
    ∧ ¬ ("meta".data <+: (createMetadataObjectKey "/abc" "meta").data)
    ∧ createMetadataObjectKey "" "" = "prefix.path"
    ∧ ¬ ("/prefix.path".data <:+ (createMetadataObjectKey "" "").data) := by
  decide


/-! ## Marker keys of different key prefixes -/

theorem marker_key_data_of_plain ( k m : String) (hh : k.data.head? ≠ some sep)
    (hl : k.data.getLast? ≠ some sep) :
    (createMetadataObjectKey k m).data
      = m.data ++ (if filename m = "" then [] else [sep])
        ++ (k.data ++ (if k.data = [] then [] else [sep]) ++ PREFIX_PATH_FILE_NAME.data) := by
  rw [createMetadataObjectKey_data, pathAppend_data_of_relative m k hh]
  have hX := pathAppend_data_of_relative m k hh
  by_cases hk : k.data = []
  · have hfX : filename (pathAppend m k) = "" := by
      by_cases hf : filename m = ""
      · have hXm : pathAppend m k = m := by
          apply String.ext
          rw [hX, hk, if_pos hf]
          simp
        rw [hXm]
        exact hf
      · apply filename_eq_empty_of_last_sep (pathAppend m k) m.data.reverse
        rw [hX, hk, if_neg hf]
        simp
    rw [if_pos hfX, hk, if_pos rfl]
    simp
  · have hfX : filename (pathAppend m k) ≠ "" := by
      cases hrev : k.data.reverse with
      | nil => exact absurd (List.reverse_eq_nil_iff.mp hrev) hk
      | cons c cs =>
        have hc : c ≠ sep := by
          intro hc
          apply hl
          have hkd : k.data = cs.reverse ++ [c] := by
            have := congrArg List.reverse hrev
            simpa using this
          rw [hkd, hc]
          simp
        apply filename_ne_empty_of_last_ne_sep (pathAppend m k) c
          (cs ++ ((if filename m = "" then [] else [sep]) : List Char).reverse
            ++ m.data.reverse) _ hc
        rw [hX]
        simp [hrev]
    rw [if_neg hfX, if_neg hk]
    simp

/-- C30, as amended: under one metadata prefix, two different key prefixes that
neither start nor end with the separator have different marker keys. -/
theorem marker_key_injective ( k1 k2 m : String)
    (hh1 : k1.data.head? ≠ some sep) (hl1 : k1.data.getLast? ≠ some sep)
    (hh2 : k2.data.head? ≠ some sep) (hl2 : k2.data.getLast? ≠ some sep)
    (hne : k1 ≠ k2) : createMetadataObjectKey k1 m ≠ createMetadataObjectKey k2 m := by
  intro h
  apply hne
  have hd := congrArg String.data h
  rw [marker_key_data_of_plain k1 m hh1 hl1, marker_key_data_of_plain k2 m hh2 hl2] at hd
  have hd2 := List.append_cancel_right (List.append_cancel_left hd)
  apply String.ext
  by_cases e1 : k1.data = []
  · by_cases e2 : k2.data = []
    · rw [e1, e2]
    · rw [if_pos e1, if_neg e2, e1] at hd2
      have := congrArg List.length hd2
      simp at this
  · by_cases e2 : k2.data = []
    · rw [if_neg e1, if_pos e2, e2] at hd2
      have := congrArg List.length hd2
      simp at this
    · rw [if_neg e1, if_neg e2] at hd2
      exact List.append_cancel_right hd2

/-- C30 as amended, at the key prefixes "a" and "b" under the metadata prefix
"meta". -/
theorem marker_key_injective_witness :
    createMetadataObjectKey "a" "meta" ≠ createMetadataObjectKey "b" "meta" :=
  marker_key_injective "a" "b" "meta" (by decide) (by decide) (by decide) (by decide)
    (by decide)

/-- C30 as stated fails: the key prefixes "a" and "a/" are different and have
the same marker key "meta/a/prefix.path". -/
theorem marker_key_collision :
    createMetadataObjectKey "a" "meta" = createMetadataObjectKey "a/" "meta"
    ∧ createMetadataObjectKey "a" "meta" = "meta/a/prefix.path"
    ∧ "a" ≠ "a/" := by
  decide


/-! ## What a call leaves of the filename pool -/

theorem createWriteBuf_frame
    (op : MetadataStorageFromPlainObjectStorageMoveDirectoryOperation)
    (expected_path new_path : String) (validate_content : Bool) (s : State) :
    (op.createWriteBuf expected_path new_path validate_content s).1.path_map = s.path_map
    ∧ (op.createWriteBuf expected_path new_path validate_content s).1.metrics = s.metrics := by
  unfold MetadataStorageFromPlainObjectStorageMoveDirectoryOperation.createWriteBuf
  cases mapFind s.path_map.map (parent_path expected_path) with
  | none => exact ⟨rfl, rfl⟩
  | some expected =>
    dsimp only
    by_cases hc : mapContains s.path_map.map (parent_path new_path) = true
    · rw [if_pos hc]
      exact ⟨rfl, rfl⟩
    · rw [if_neg hc]
      cases validate_content with
      | false => exact ⟨rfl, rfl⟩
      | true =>
        simp only [ObjectStorage.readObject, if_true]
        cases s.object_storage.objects.lookup
            (createMetadataObjectKey expected.path op.metadata_key_prefix) with
        | none => exact ⟨rfl, rfl⟩
        | some data =>
          by_cases hd : lexical data = lexical op.path_from
          · simp [hd]
          · simp [hd]

theorem create_execute_pool
    (op : MetadataStorageFromPlainObjectStorageCreateDirectoryOperation) (fp : FailPoints)
    (now : Int) (s : State) :
    (op.execute fp now s).state.path_map.unique_filenames = s.path_map.unique_filenames
    ∧ (op.execute fp now s).state.metrics.unique_filenames_count
        = s.metrics.unique_filenames_count := by
  unfold MetadataStorageFromPlainObjectStorageCreateDirectoryOperation.execute
  dsimp only
  split_ifs <;> exact ⟨rfl, rfl⟩

theorem create_undo_pool
    (op : MetadataStorageFromPlainObjectStorageCreateDirectoryOperation) (s : State) :
    (op.undo s).state.path_map.unique_filenames = s.path_map.unique_filenames
    ∧ (op.undo s).state.metrics.unique_filenames_count
        = s.metrics.unique_filenames_count := by
  unfold MetadataStorageFromPlainObjectStorageCreateDirectoryOperation.undo
  dsimp only [removePathIfExists]
  split_ifs <;> exact ⟨rfl, rfl⟩

theorem move_execute_pool
    (op : MetadataStorageFromPlainObjectStorageMoveDirectoryOperation) (fp : FailPoints)
    (now : Int) (s : State) :
    (op.execute fp now s).state.path_map.unique_filenames = s.path_map.unique_filenames
    ∧ (op.execute fp now s).state.metrics.unique_filenames_count
        = s.metrics.unique_filenames_count := by
  have hframe := createWriteBuf_frame op op.path_from op.path_to true s
  unfold MetadataStorageFromPlainObjectStorageMoveDirectoryOperation.execute
  rcases hbuf : op.createWriteBuf op.path_from op.path_to true s with ⟨s1, res⟩
  rw [hbuf] at hframe
  cases res with
  | error e => exact ⟨by rw [← hframe.1], by rw [← hframe.2]⟩
  | ok write_buf =>
    dsimp only
    split_ifs
    · exact ⟨by rw [← hframe.1], by rw [← hframe.2]⟩
    · dsimp only [mapExtract]
      cases mapFind s1.path_map.map (parent_path op.path_from) with
      | none => exact ⟨by rw [← hframe.1], by rw [← hframe.2]⟩
      | some info => exact ⟨by rw [← hframe.1], by rw [← hframe.2]⟩

theorem move_undo_pool
    (op : MetadataStorageFromPlainObjectStorageMoveDirectoryOperation) (s : State) :
    (op.undo s).state.path_map.unique_filenames = s.path_map.unique_filenames
    ∧ (op.undo s).state.metrics.unique_filenames_count
        = s.metrics.unique_filenames_count := by
  unfold MetadataStorageFromPlainObjectStorageMoveDirectoryOperation.undo
  split_ifs
  · dsimp only [mapExtract]
    cases mapFind s.path_map.map (parent_path op.path_to) with
    | none => exact ⟨rfl, rfl⟩
    | some info =>
      dsimp only
      generalize hs1 : ({ s with path_map :=
            { s.path_map with
              map := (mapEmplace (s.path_map.map.erase (lexical (parent_path op.path_to)))
                (parent_path op.path_from) info).1 } } : State) = s1
      have hframe := createWriteBuf_frame op op.path_to op.path_from false s1
      rcases hbuf : op.createWriteBuf op.path_to op.path_from false s1 with ⟨s2, res⟩
      rw [hbuf] at hframe
      have hp : s1.path_map.unique_filenames = s.path_map.unique_filenames := by
        rw [← hs1]
      have hm : s1.metrics = s.metrics := by rw [← hs1]
      cases res with
      | error e => exact ⟨by rw [← hp, ← hframe.1], by rw [← hm, ← hframe.2]⟩
      | ok write_buf => exact ⟨by rw [← hp, ← hframe.1], by rw [← hm, ← hframe.2]⟩
  · exact ⟨rfl, rfl⟩

theorem remove_execute_pool
    (op : MetadataStorageFromPlainObjectStorageRemoveDirectoryOperation) (s : State) :
    (op.execute s).state.path_map.unique_filenames = s.path_map.unique_filenames
    ∧ (op.execute s).state.metrics.unique_filenames_count
        = s.metrics.unique_filenames_count := by
  unfold MetadataStorageFromPlainObjectStorageRemoveDirectoryOperation.execute
  dsimp only
  cases mapFind s.path_map.map (parent_path op.path) with
  | none => exact ⟨rfl, rfl⟩
  | some info =>
    dsimp only [removePathIfExists]
    split_ifs <;> exact ⟨rfl, rfl⟩

theorem remove_undo_pool
    (op : MetadataStorageFromPlainObjectStorageRemoveDirectoryOperation) (s : State) :
    (op.undo s).state.path_map.unique_filenames = s.path_map.unique_filenames
    ∧ (op.undo s).state.metrics.unique_filenames_count
        = s.metrics.unique_filenames_count := by
  unfold MetadataStorageFromPlainObjectStorageRemoveDirectoryOperation.undo
  split_ifs <;> exact ⟨rfl, rfl⟩

theorem write_undo_pool
    (op : MetadataStorageFromPlainObjectStorageWriteFileOperation) (s : State) :
    (op.undo s).state.path_map.unique_filenames = s.path_map.unique_filenames
    ∧ (op.undo s).state.metrics.unique_filenames_count
        = s.metrics.unique_filenames_count := by
  unfold MetadataStorageFromPlainObjectStorageWriteFileOperation.undo
  by_cases hflag : op.written = true
  · rw [if_pos hflag]
    cases mapFind s.path_map.map (parent_path op.path) with
    | none => exact ⟨rfl, rfl⟩
    | some info =>
      dsimp only
      split_ifs <;> exact ⟨rfl, rfl⟩
  · rw [if_neg hflag]
    exact ⟨rfl, rfl⟩

theorem unlink_execute_pool
    (op : MetadataStorageFromPlainObjectStorageUnlinkMetadataFileOperation) (s : State) :
    (op.execute s).state.path_map.unique_filenames = s.path_map.unique_filenames
    ∧ (op.execute s).state.metrics.unique_filenames_count
        = s.metrics.unique_filenames_count := by
  unfold MetadataStorageFromPlainObjectStorageUnlinkMetadataFileOperation.execute
  cases mapFind s.path_map.map (parent_path op.path) with
  | none => exact ⟨rfl, rfl⟩
  | some info =>
    dsimp only
    split_ifs <;> exact ⟨rfl, rfl⟩

theorem unlink_undo_pool
    (op : MetadataStorageFromPlainObjectStorageUnlinkMetadataFileOperation) (s : State) :
    (op.undo s).state.path_map.unique_filenames = s.path_map.unique_filenames
    ∧ (op.undo s).state.metrics.unique_filenames_count
        = s.metrics.unique_filenames_count := by
  unfold MetadataStorageFromPlainObjectStorageUnlinkMetadataFileOperation.undo
  by_cases hflag : op.unlinked = true
  · rw [if_pos hflag]
    cases mapFind s.path_map.map (parent_path op.path) with
    | none => exact ⟨rfl, rfl⟩
    | some info =>
      dsimp only
      split_ifs <;> exact ⟨rfl, rfl⟩
  · rw [if_neg hflag]
    exact ⟨rfl, rfl⟩

theorem write_execute_pool
    (op : MetadataStorageFromPlainObjectStorageWriteFileOperation) (s : State) :
    ((op.execute s).state.path_map.unique_filenames = s.path_map.unique_filenames
      ∨ (op.execute s).state.path_map.unique_filenames
          = insert (filename op.path) s.path_map.unique_filenames)
    ∧ (op.execute s).state.metrics.unique_filenames_count
        = s.metrics.unique_filenames_count
          + (((op.execute s).state.path_map.unique_filenames
              \ s.path_map.unique_filenames).card : Int) := by
  unfold MetadataStorageFromPlainObjectStorageWriteFileOperation.execute
  cases mapFind s.path_map.map (parent_path op.path) with
  | none => simp
  | some info =>
    dsimp only
    by_cases hin : filename op.path ∈ s.path_map.unique_filenames
    · refine ⟨Or.inr rfl, ?_⟩
      have hsd : insert (filename op.path) s.path_map.unique_filenames
          \ s.path_map.unique_filenames = ∅ := by
        rw [Finset.insert_eq_of_mem hin]
        exact Finset.sdiff_self _
      rw [hsd]
      split_ifs <;> simp_all
    · refine ⟨Or.inr rfl, ?_⟩
      have hsd : insert (filename op.path) s.path_map.unique_filenames
          \ s.path_map.unique_filenames = {filename op.path} := by
        ext x
        simp only [Finset.mem_sdiff, Finset.mem_insert, Finset.mem_singleton]
        constructor
        · rintro ⟨h1 | h1, h2⟩
          · exact h1
          · exact absurd h1 h2
        · intro h1
          exact ⟨Or.inl h1, by rw [h1]; exact hin⟩
      rw [hsd]
      split_ifs <;> simp_all


theorem operation_undo_pool (op : MetadataOperation) (s : State) :
    (op.undo s).state.path_map.unique_filenames = s.path_map.unique_filenames
    ∧ (op.undo s).state.metrics.unique_filenames_count
        = s.metrics.unique_filenames_count := by
  cases op with
  | createDirectory o => exact create_undo_pool o s
  | moveDirectory o => exact move_undo_pool o s
  | removeDirectory o => exact remove_undo_pool o s
  | writeFile o => exact write_undo_pool o s
  | unlinkMetadataFile o => exact unlink_undo_pool o s

theorem operation_execute_pool (op : MetadataOperation) (fp : FailPoints) (now : Int)
    (s : State) :
    ((op.execute fp now s).state.path_map.unique_filenames = s.path_map.unique_filenames
      ∧ (op.execute fp now s).state.metrics.unique_filenames_count
          = s.metrics.unique_filenames_count)
    ∨ ∃ o, op = MetadataOperation.writeFile o
        ∧ (op.execute fp now s).state.path_map.unique_filenames
            = insert (filename o.path) s.path_map.unique_filenames
        ∧ (op.execute fp now s).state.metrics.unique_filenames_count
            = s.metrics.unique_filenames_count
              + (((op.execute fp now s).state.path_map.unique_filenames
                  \ s.path_map.unique_filenames).card : Int) := by
  cases op with
  | createDirectory o => exact Or.inl (create_execute_pool o fp now s)
  | moveDirectory o => exact Or.inl (move_execute_pool o fp now s)
  | removeDirectory o => exact Or.inl (remove_execute_pool o s)
  | unlinkMetadataFile o => exact Or.inl (unlink_execute_pool o s)
  | writeFile o =>
    rcases write_execute_pool o s with ⟨hp | hp, hm⟩
    · left
      refine ⟨hp, ?_⟩
      show (o.execute s).state.metrics.unique_filenames_count = _
      rw [hm, hp, Finset.sdiff_self]
      simp
    · right
      exact ⟨o, rfl, hp, hm⟩

/-- C27: the filename pool is append-only.  Whatever the state and whichever of
the five operations is called, every filename of the pool is still in the pool
after `execute` and after `undo`; `undo` of any operation and `execute` of any
operation but WriteFile leave the pool and the unique-filename count as they
were; `execute` of WriteFile leaves a pool that is the old one or the old one
with the filename being registered, so at most one string is added; and every
call changes the unique-filename count by the number of strings it added. -/
theorem filename_pool_append_only (op : MetadataOperation) (fp : FailPoints) (now : Int)
    (s : State) :
    s.path_map.unique_filenames ⊆ (op.execute fp now s).state.path_map.unique_filenames
    ∧ s.path_map.unique_filenames ⊆ (op.undo s).state.path_map.unique_filenames
    ∧ (op.undo s).state.path_map.unique_filenames = s.path_map.unique_filenames
    ∧ (op.undo s).state.metrics.unique_filenames_count = s.metrics.unique_filenames_count
    ∧ ((∀ o, op ≠ MetadataOperation.writeFile o) →
        (op.execute fp now s).state.path_map.unique_filenames = s.path_map.unique_filenames
        ∧ (op.execute fp now s).state.metrics.unique_filenames_count
            = s.metrics.unique_filenames_count)
    ∧ (∀ o, op = MetadataOperation.writeFile o →
        (op.execute fp now s).state.path_map.unique_filenames = s.path_map.unique_filenames
        ∨ (op.execute fp now s).state.path_map.unique_filenames
            = insert (filename o.path) s.path_map.unique_filenames)
    ∧ ((op.execute fp now s).state.path_map.unique_filenames
        \ s.path_map.unique_filenames).card ≤ 1
    ∧ (op.execute fp now s).state.metrics.unique_filenames_count
        = s.metrics.unique_filenames_count
          + (((op.execute fp now s).state.path_map.unique_filenames
              \ s.path_map.unique_filenames).card : Int) := by
  have hu := operation_undo_pool op s
  have he := operation_execute_pool op fp now s
  refine ⟨?_, ?_, hu.1, hu.2, ?_, ?_, ?_, ?_⟩
  · rcases he with ⟨hp, _⟩ | ⟨o, _, hp, _⟩
    · rw [hp]
    · rw [hp]
      exact Finset.subset_insert _ _
  · rw [hu.1]
  · intro hnot
    rcases he with h | ⟨o, ho, _, _⟩
    · exact h
    · exact absurd ho (hnot o)
  · intro o ho
    rcases he with ⟨hp, _⟩ | ⟨o2, ho2, hp, _⟩
    · exact Or.inl hp
    · right
      rw [hp]
      have : o2 = o := by
        rw [ho] at ho2
        exact (MetadataOperation.writeFile.inj ho2).symm
      rw [this]
  · rcases he with ⟨hp, _⟩ | ⟨o, _, hp, _⟩
    · rw [hp, Finset.sdiff_self]
      simp
    · rw [hp]
      by_cases hin : filename o.path ∈ s.path_map.unique_filenames
      · rw [Finset.insert_eq_of_mem hin, Finset.sdiff_self]
        simp
      · have hsub : insert (filename o.path) s.path_map.unique_filenames
            \ s.path_map.unique_filenames ⊆ {filename o.path} := by
          intro x hx
          simp only [Finset.mem_sdiff, Finset.mem_insert] at hx
          rcases hx with ⟨h1 | h1, h2⟩
          · exact Finset.mem_singleton.mpr h1
          · exact absurd h1 h2
        exact le_trans (Finset.card_le_card hsub) (by simp)
  · rcases he with ⟨hp, hm⟩ | ⟨o, _, _, hm⟩
    · rw [hm, hp, Finset.sdiff_self]
      simp
    · exact hm


/-- C27 for a file registered in the directory "/db/t" of the one-directory
state, whose pool is empty: the call is not an `execute` of WriteFile only when
it leaves the pool as it was, and here the pool becomes the one filename. -/
theorem filename_pool_append_only_witness :
    (MetadataOperation.writeFile ⟨"/db/t/part1", false⟩
        = MetadataOperation.writeFile ⟨"/db/t/part1", false⟩)
    ∧ (((MetadataOperation.writeFile ⟨"/db/t/part1", false⟩).execute noFault 7
          oneDirState).state.path_map.unique_filenames
          = oneDirState.path_map.unique_filenames
        ∨ ((MetadataOperation.writeFile ⟨"/db/t/part1", false⟩).execute noFault 7
          oneDirState).state.path_map.unique_filenames
          = insert (filename "/db/t/part1") oneDirState.path_map.unique_filenames)
    ∧ ((MetadataOperation.writeFile ⟨"/db/t/part1", false⟩).execute noFault 7
        oneDirState).state.path_map.unique_filenames = {"part1"} :=
  ⟨rfl,
    (filename_pool_append_only (MetadataOperation.writeFile ⟨"/db/t/part1", false⟩) noFault 7
      oneDirState).2.2.2.2.2.1 ⟨"/db/t/part1", false⟩ rfl,
    by decide⟩


/-! ## What a call leaves of the index -/

theorem create_execute_path_map
    (op : MetadataStorageFromPlainObjectStorageCreateDirectoryOperation) (fp : FailPoints)
    (now : Int) (s : State) :
    ((op.execute fp now s).state.path_map = s.path_map
      ∧ (op.execute fp now s).state.metrics.directory_map_size
          = s.metrics.directory_map_size)
    ∨ (mapFind s.path_map.map (parent_path op.path) = none
      ∧ (op.execute fp now s).error = none
      ∧ (op.execute fp now s).state.path_map
          = ⟨s.path_map.map.insert (lexical (parent_path op.path))
              ⟨op.object_key_prefix, now, ∅⟩, s.path_map.unique_filenames⟩
      ∧ (op.execute fp now s).state.metrics.directory_map_size
          = s.metrics.directory_map_size + 1) := by
  cases h : mapFind s.path_map.map (parent_path op.path) with
  | some r =>
    rw [create_execute_of_present op fp now s (by simp [mapContains, h])]
    exact Or.inl ⟨rfl, rfl⟩
  | none =>
    cases hf : fp.plain_object_storage_write_fail_on_directory_create with
    | true =>
      rw [create_execute_of_fault op fp now s h hf]
      exact Or.inl ⟨rfl, rfl⟩
    | false =>
      rw [create_execute_of_absent op fp now s h hf]
      exact Or.inr ⟨rfl, rfl, rfl, rfl⟩

theorem create_undo_path_map
    (op : MetadataStorageFromPlainObjectStorageCreateDirectoryOperation) (s : State) :
    (op.undo s).state.path_map
      = ⟨s.path_map.map.erase (lexical (parent_path op.path)), s.path_map.unique_filenames⟩
    ∧ (op.undo s).state.metrics.directory_map_size
        = s.metrics.directory_map_size
          - (if mapContains s.path_map.map (parent_path op.path) then 1 else 0) := by
  cases h : mapFind s.path_map.map (parent_path op.path) with
  | some r =>
    rw [create_undo_of_present op s r h]
    refine ⟨rfl, ?_⟩
    simp [mapContains, h]
  | none =>
    rw [create_undo_of_absent op s h]
    refine ⟨?_, ?_⟩
    · show s.path_map = _
      have he : s.path_map.map.erase (lexical (parent_path op.path)) = s.path_map.map :=
        erase_of_lookup_eq_none _ _ h
      rw [he]
    · simp [mapContains, h]

theorem move_execute_path_map
    (op : MetadataStorageFromPlainObjectStorageMoveDirectoryOperation) (fp : FailPoints)
    (now : Int) (s : State) :
    (op.execute fp now s).state.metrics = s.metrics
    ∧ ((op.execute fp now s).state.path_map = s.path_map
      ∨ ∃ r, mapFind s.path_map.map (parent_path op.path_from) = some r
          ∧ mapFind s.path_map.map (parent_path op.path_to) = none
          ∧ (op.execute fp now s).error = none
          ∧ (op.execute fp now s).state.path_map
              = ⟨(s.path_map.map.erase (lexical (parent_path op.path_from))).insert
                  (lexical (parent_path op.path_to)) { r with last_modified := now },
                s.path_map.unique_filenames⟩) := by
  by_cases herr : (op.execute fp now s).error = none
  · cases hfrom : mapFind s.path_map.map (parent_path op.path_from) with
    | none =>
      rw [move_execute_of_source_missing op fp now s hfrom]
      exact ⟨rfl, Or.inl rfl⟩
    | some r =>
      obtain ⟨hto, heq⟩ := move_execute_success op fp now s r hfrom herr
      rw [heq]
      exact ⟨rfl, Or.inr ⟨r, rfl, hto, rfl, rfl⟩⟩
  · obtain ⟨_, hp, _, hm⟩ := move_execute_failure op fp now s herr
    exact ⟨hm, Or.inl hp⟩

theorem move_undo_path_map
    (op : MetadataStorageFromPlainObjectStorageMoveDirectoryOperation) (s : State) :
    (op.undo s).state.metrics = s.metrics
    ∧ ((op.undo s).state.path_map = s.path_map
      ∨ ∃ info, op.write_finalized = true
          ∧ mapFind s.path_map.map (parent_path op.path_to) = some info
          ∧ (op.undo s).state.path_map
              = ⟨(mapEmplace (s.path_map.map.erase (lexical (parent_path op.path_to)))
                  (parent_path op.path_from) info).1, s.path_map.unique_filenames⟩) := by
  unfold MetadataStorageFromPlainObjectStorageMoveDirectoryOperation.undo
  by_cases hflag : op.write_finalized = true
  · rw [if_pos hflag]
    dsimp only [mapExtract]
    cases hto : mapFind s.path_map.map (parent_path op.path_to) with
    | none => exact ⟨rfl, Or.inl rfl⟩
    | some info =>
      dsimp only
      generalize hs1 : ({ s with path_map :=
            { s.path_map with
              map := (mapEmplace (s.path_map.map.erase (lexical (parent_path op.path_to)))
                (parent_path op.path_from) info).1 } } : State) = s1
      have hframe := createWriteBuf_frame op op.path_to op.path_from false s1
      rcases hbuf : op.createWriteBuf op.path_to op.path_from false s1 with ⟨s2, res⟩
      rw [hbuf] at hframe
      have hp : s1.path_map
          = ⟨(mapEmplace (s.path_map.map.erase (lexical (parent_path op.path_to)))
              (parent_path op.path_from) info).1, s.path_map.unique_filenames⟩ := by
        rw [← hs1]
      have hm : s1.metrics = s.metrics := by rw [← hs1]
      cases res with
      | error e =>
        exact ⟨by rw [← hm, ← hframe.2], Or.inr ⟨info, hflag, rfl, by rw [← hp, ← hframe.1]⟩⟩
      | ok write_buf =>
        exact ⟨by rw [← hm, ← hframe.2], Or.inr ⟨info, hflag, rfl, by rw [← hp, ← hframe.1]⟩⟩
  · rw [if_neg hflag]
    exact ⟨rfl, Or.inl rfl⟩

theorem remove_execute_path_map
    (op : MetadataStorageFromPlainObjectStorageRemoveDirectoryOperation) (s : State) :
    (mapFind s.path_map.map (parent_path op.path) = none ∧ op.execute s = ⟨op, s, none⟩)
    ∨ ∃ r, mapFind s.path_map.map (parent_path op.path) = some r
        ∧ (op.execute s).op = { op with key_prefix := r.path, remove_attempted := true }
        ∧ (op.execute s).state.path_map
            = ⟨s.path_map.map.erase (lexical (parent_path op.path)),
              s.path_map.unique_filenames⟩
        ∧ (op.execute s).state.metrics.directory_map_size
            = s.metrics.directory_map_size - 1 := by
  cases h : mapFind s.path_map.map (parent_path op.path) with
  | none => exact Or.inl ⟨rfl, remove_execute_of_absent op s h⟩
  | some r =>
    rw [remove_execute_of_present op s r h]
    exact Or.inr ⟨r, rfl, rfl, rfl, rfl⟩

theorem remove_undo_path_map
    (op : MetadataStorageFromPlainObjectStorageRemoveDirectoryOperation) (s : State) :
    (op.remove_attempted = false ∧ op.undo s = ⟨op, s, none⟩)
    ∨ (op.remove_attempted = true
      ∧ (op.undo s).state.path_map
          = ⟨(mapEmplace s.path_map.map (parent_path op.path) ⟨op.key_prefix, 0, ∅⟩).1,
            s.path_map.unique_filenames⟩
      ∧ (op.undo s).state.metrics.directory_map_size = s.metrics.directory_map_size + 1) := by
  cases h : op.remove_attempted with
  | false => exact Or.inl ⟨rfl, remove_undo_of_not_attempted op s h⟩
  | true =>
    rw [remove_undo_of_attempted op s h]
    exact Or.inr ⟨rfl, rfl, rfl⟩


theorem write_execute_path_map
    (op : MetadataStorageFromPlainObjectStorageWriteFileOperation) (s : State) :
    (op.execute s).state.object_storage = s.object_storage
    ∧ (op.execute s).state.metrics.directory_map_size = s.metrics.directory_map_size
    ∧ ((op.execute s).state.path_map = s.path_map
      ∨ ∃ info info1, mapFind s.path_map.map (parent_path op.path) = some info
          ∧ info1.path = info.path
          ∧ (∀ g ∈ info1.filename_iterators,
              g ∈ info.filename_iterators ∨ g ∈ (op.execute s).state.path_map.unique_filenames)
          ∧ (op.execute s).state.path_map.map
              = s.path_map.map.insert (lexical (parent_path op.path)) info1) := by
  unfold MetadataStorageFromPlainObjectStorageWriteFileOperation.execute
  cases h : mapFind s.path_map.map (parent_path op.path) with
  | none => exact ⟨rfl, rfl, Or.inl rfl⟩
  | some info =>
    dsimp only
    refine ⟨rfl, ?_, Or.inr ⟨info,
      { info with filename_iterators := insert (filename op.path) info.filename_iterators },
      rfl, rfl, ?_, rfl⟩⟩
    · split_ifs <;> rfl
    · intro g hg
      rcases Finset.mem_insert.mp hg with hg | hg
      · exact Or.inr (Finset.mem_insert.mpr (Or.inl hg))
      · exact Or.inl hg

theorem write_undo_path_map
    (op : MetadataStorageFromPlainObjectStorageWriteFileOperation) (s : State) :
    (op.undo s).state.object_storage = s.object_storage
    ∧ (op.undo s).state.metrics.directory_map_size = s.metrics.directory_map_size
    ∧ ((op.undo s).state.path_map = s.path_map
      ∨ ∃ info info1, mapFind s.path_map.map (parent_path op.path) = some info
          ∧ info1.path = info.path
          ∧ (∀ g ∈ info1.filename_iterators,
              g ∈ info.filename_iterators ∨ g ∈ (op.undo s).state.path_map.unique_filenames)
          ∧ (op.undo s).state.path_map.map
              = s.path_map.map.insert (lexical (parent_path op.path)) info1) := by
  unfold MetadataStorageFromPlainObjectStorageWriteFileOperation.undo
  by_cases hflag : op.written = true
  · rw [if_pos hflag]
    cases h : mapFind s.path_map.map (parent_path op.path) with
    | none => exact ⟨rfl, rfl, Or.inl rfl⟩
    | some info =>
      dsimp only
      by_cases hin : filename op.path ∈ s.path_map.unique_filenames
      · rw [if_pos hin]
        have hsub : ∀ g ∈ (info.filename_iterators.erase (filename op.path)),
            g ∈ info.filename_iterators := fun g hg => Finset.mem_of_mem_erase hg
        split_ifs
        · exact ⟨rfl, rfl, Or.inr ⟨info,
            { info with
              filename_iterators := info.filename_iterators.erase (filename op.path) },
            rfl, rfl, fun g hg => Or.inl (hsub g hg), rfl⟩⟩
        · exact ⟨rfl, rfl, Or.inr ⟨info,
            { info with
              filename_iterators := info.filename_iterators.erase (filename op.path) },
            rfl, rfl, fun g hg => Or.inl (hsub g hg), rfl⟩⟩
      · rw [if_neg hin]
        exact ⟨rfl, rfl, Or.inl rfl⟩
  · rw [if_neg hflag]
    exact ⟨rfl, rfl, Or.inl rfl⟩

theorem unlink_execute_path_map
    (op : MetadataStorageFromPlainObjectStorageUnlinkMetadataFileOperation) (s : State) :
    (op.execute s).state.object_storage = s.object_storage
    ∧ (op.execute s).state.metrics.directory_map_size = s.metrics.directory_map_size
    ∧ ((op.execute s).state.path_map = s.path_map
      ∨ ∃ info info1, mapFind s.path_map.map (parent_path op.path) = some info
          ∧ info1.path = info.path
          ∧ (∀ g ∈ info1.filename_iterators,
              g ∈ info.filename_iterators ∨ g ∈ (op.execute s).state.path_map.unique_filenames)
          ∧ (op.execute s).state.path_map.map
              = s.path_map.map.insert (lexical (parent_path op.path)) info1) := by
  unfold MetadataStorageFromPlainObjectStorageUnlinkMetadataFileOperation.execute
  cases h : mapFind s.path_map.map (parent_path op.path) with
  | none => exact ⟨rfl, rfl, Or.inl rfl⟩
  | some info =>
    dsimp only
    have hsub : ∀ g ∈ (if decide (filename op.path ∈ s.path_map.unique_filenames) = true then
          ({ info with filename_iterators := info.filename_iterators.erase (filename op.path) }
            : RemotePathInfo)
        else info).filename_iterators, g ∈ info.filename_iterators := by
      intro g hg
      split_ifs at hg
      · exact Finset.mem_of_mem_erase hg
      · exact hg
    have hpath : (if decide (filename op.path ∈ s.path_map.unique_filenames) = true then
          ({ info with filename_iterators := info.filename_iterators.erase (filename op.path) }
            : RemotePathInfo)
        else info).path = info.path := by
      split_ifs <;> rfl
    by_cases hu : (if decide (filename op.path ∈ s.path_map.unique_filenames) = true then
        decide (filename op.path ∈ info.filename_iterators) else op.unlinked) = true
    · rw [if_pos hu]
      exact ⟨rfl, rfl, Or.inr ⟨info, _, rfl, hpath, fun g hg => Or.inl (hsub g hg), rfl⟩⟩
    · rw [if_neg hu]
      exact ⟨rfl, rfl, Or.inr ⟨info, _, rfl, hpath, fun g hg => Or.inl (hsub g hg), rfl⟩⟩

theorem unlink_undo_path_map
    (op : MetadataStorageFromPlainObjectStorageUnlinkMetadataFileOperation) (s : State) :
    (op.undo s).state.object_storage = s.object_storage
    ∧ (op.undo s).state.metrics.directory_map_size = s.metrics.directory_map_size
    ∧ ((op.undo s).state.path_map = s.path_map
      ∨ ∃ info info1, mapFind s.path_map.map (parent_path op.path) = some info
          ∧ info1.path = info.path
          ∧ (∀ g ∈ info1.filename_iterators,
              g ∈ info.filename_iterators ∨ g ∈ (op.undo s).state.path_map.unique_filenames)
          ∧ (op.undo s).state.path_map.map
              = s.path_map.map.insert (lexical (parent_path op.path)) info1) := by
  unfold MetadataStorageFromPlainObjectStorageUnlinkMetadataFileOperation.undo
  by_cases hflag : op.unlinked = true
  · rw [if_pos hflag]
    cases h : mapFind s.path_map.map (parent_path op.path) with
    | none => exact ⟨rfl, rfl, Or.inl rfl⟩
    | some info =>
      dsimp only
      by_cases hin : filename op.path ∈ s.path_map.unique_filenames
      · rw [if_pos hin]
        have hsub : ∀ g ∈ insert (filename op.path) info.filename_iterators,
            g ∈ info.filename_iterators ∨ g ∈ s.path_map.unique_filenames := by
          intro g hg
          rcases Finset.mem_insert.mp hg with hg | hg
          · exact Or.inr (by rw [hg]; exact hin)
          · exact Or.inl hg
        split_ifs
        · exact ⟨rfl, rfl, Or.inr ⟨info,
            { info with
              filename_iterators := insert (filename op.path) info.filename_iterators },
            rfl, rfl, hsub, rfl⟩⟩
        · exact ⟨rfl, rfl, Or.inr ⟨info,
            { info with
              filename_iterators := insert (filename op.path) info.filename_iterators },
            rfl, rfl, hsub, rfl⟩⟩
      · rw [if_neg hin]
        exact ⟨rfl, rfl, Or.inl rfl⟩
  · rw [if_neg hflag]
    exact ⟨rfl, rfl, Or.inl rfl⟩


/-! ## Referential integrity of the filename references -/

theorem lookup_erase_eq_some {β : Type} (m : Finmap (fun _ : String => β)) (k x : String)
    (r : β) (h : (m.erase k).lookup x = some r) : x ≠ k ∧ m.lookup x = some r := by
  by_cases hx : x = k
  · subst hx
    rw [Finmap.lookup_erase] at h
    exact Option.noConfusion h
  · rw [Finmap.lookup_erase_ne hx] at h
    exact ⟨hx, h⟩

theorem lookup_insert_eq_some {β : Type} (m : Finmap (fun _ : String => β)) (k x : String)
    (v r : β) (h : (m.insert k v).lookup x = some r) :
    (x = k ∧ r = v) ∨ (x ≠ k ∧ m.lookup x = some r) := by
  by_cases hx : x = k
  · subst hx
    rw [Finmap.lookup_insert] at h
    exact Or.inl ⟨rfl, (Option.some.inj h).symm⟩
  · rw [Finmap.lookup_insert_of_ne _ hx] at h
    exact Or.inr ⟨hx, h⟩

theorem lookup_mapEmplace_eq_some (m : Finmap (fun _ : String => RemotePathInfo))
    (path x : String) (v r : RemotePathInfo)
    (h : (mapEmplace m path v).1.lookup x = some r) :
    m.lookup x = some r ∨ (x = lexical path ∧ r = v ∧ m.lookup (lexical path) = none) := by
  unfold mapEmplace at h
  cases hc : mapFind m path with
  | some r0 =>
    have hcont : mapContains m path = true := by simp [mapContains, hc]
    rw [if_pos hcont] at h
    exact Or.inl h
  | none =>
    have hcont : ¬ mapContains m path = true := by simp [mapContains, hc]
    rw [if_neg hcont] at h
    rcases lookup_insert_eq_some m _ x v r h with ⟨h1, h2⟩ | ⟨_, h2⟩
    · exact Or.inr ⟨h1, h2, hc⟩
    · exact Or.inl h2

theorem referentialIntegrity_iff (pm : InMemoryDirectoryPathMap) :
    ReferentialIntegrity pm
      ↔ ∀ x r, pm.map.lookup x = some r → r.filename_iterators ⊆ pm.unique_filenames := by
  constructor
  · intro h x r hx
    exact h x (Finmap.mem_keys.mpr (Finmap.mem_of_lookup_eq_some hx)) r hx
  · intro h x _ r hr
    exact h x r hr

theorem referentialIntegrity_of_shape (pm pm2 : InMemoryDirectoryPathMap)
    (h : ReferentialIntegrity pm) (hpool : pm.unique_filenames ⊆ pm2.unique_filenames)
    (hmap : ∀ x r, pm2.map.lookup x = some r →
      r.filename_iterators = ∅
      ∨ ∃ y r0, pm.map.lookup y = some r0
          ∧ ∀ g ∈ r.filename_iterators,
              g ∈ r0.filename_iterators ∨ g ∈ pm2.unique_filenames) :
    ReferentialIntegrity pm2 := by
  rw [referentialIntegrity_iff] at h ⊢
  intro x r hx g hg
  rcases hmap x r hx with he | ⟨y, r0, hy, hsub⟩
  · rw [he] at hg
    exact absurd hg (Finset.not_mem_empty g)
  · rcases hsub g hg with h1 | h1
    · exact hpool (h y r0 hy h1)
    · exact h1

theorem create_execute_referentialIntegrity
    (op : MetadataStorageFromPlainObjectStorageCreateDirectoryOperation) (fp : FailPoints)
    (now : Int) (s : State) (h : ReferentialIntegrity s.path_map) :
    ReferentialIntegrity (op.execute fp now s).state.path_map := by
  rcases create_execute_path_map op fp now s with ⟨hp, _⟩ | ⟨_, _, hp, _⟩
  · rw [hp]
    exact h
  · rw [hp]
    refine referentialIntegrity_of_shape s.path_map _ h ?_ ?_
    · exact Finset.Subset.refl _
    intro x r hx
    rcases lookup_insert_eq_some _ _ _ _ _ hx with ⟨_, h2⟩ | ⟨_, h2⟩
    · exact Or.inl (by rw [h2])
    · exact Or.inr ⟨x, r, h2, fun g hg => Or.inl hg⟩

theorem create_undo_referentialIntegrity
    (op : MetadataStorageFromPlainObjectStorageCreateDirectoryOperation) (s : State)
    (h : ReferentialIntegrity s.path_map) :
    ReferentialIntegrity (op.undo s).state.path_map := by
  rw [(create_undo_path_map op s).1]
  refine referentialIntegrity_of_shape s.path_map _ h ?_ ?_
  · exact Finset.Subset.refl _
  intro x r hx
  exact Or.inr ⟨x, r, (lookup_erase_eq_some _ _ _ _ hx).2, fun g hg => Or.inl hg⟩

theorem move_execute_referentialIntegrity
    (op : MetadataStorageFromPlainObjectStorageMoveDirectoryOperation) (fp : FailPoints)
    (now : Int) (s : State) (h : ReferentialIntegrity s.path_map) :
    ReferentialIntegrity (op.execute fp now s).state.path_map := by
  rcases (move_execute_path_map op fp now s).2 with hp | ⟨r0, hfrom, _, _, hp⟩
  · rw [hp]
    exact h
  · rw [hp]
    refine referentialIntegrity_of_shape s.path_map _ h ?_ ?_
    · exact Finset.Subset.refl _
    intro x r hx
    rcases lookup_insert_eq_some _ _ _ _ _ hx with ⟨_, h2⟩ | ⟨_, h2⟩
    · exact Or.inr ⟨_, r0, hfrom, fun g hg => Or.inl (by rw [h2] at hg; exact hg)⟩
    · exact Or.inr ⟨x, r, (lookup_erase_eq_some _ _ _ _ h2).2, fun g hg => Or.inl hg⟩

theorem move_undo_referentialIntegrity
    (op : MetadataStorageFromPlainObjectStorageMoveDirectoryOperation) (s : State)
    (h : ReferentialIntegrity s.path_map) :
    ReferentialIntegrity (op.undo s).state.path_map := by
  rcases (move_undo_path_map op s).2 with hp | ⟨r0, _, hto, hp⟩
  · rw [hp]
    exact h
  · rw [hp]
    refine referentialIntegrity_of_shape s.path_map _ h ?_ ?_
    · exact Finset.Subset.refl _
    intro x r hx
    rcases lookup_mapEmplace_eq_some _ _ _ _ _ hx with h2 | ⟨_, h2, _⟩
    · exact Or.inr ⟨x, r, (lookup_erase_eq_some _ _ _ _ h2).2, fun g hg => Or.inl hg⟩
    · exact Or.inr ⟨_, r0, hto, fun g hg => Or.inl (by rw [h2] at hg; exact hg)⟩

theorem remove_execute_referentialIntegrity
    (op : MetadataStorageFromPlainObjectStorageRemoveDirectoryOperation) (s : State)
    (h : ReferentialIntegrity s.path_map) :
    ReferentialIntegrity (op.execute s).state.path_map := by
  rcases remove_execute_path_map op s with ⟨_, hp⟩ | ⟨r0, _, _, hp, _⟩
  · rw [hp]
    exact h
  · rw [hp]
    refine referentialIntegrity_of_shape s.path_map _ h ?_ ?_
    · exact Finset.Subset.refl _
    intro x r hx
    exact Or.inr ⟨x, r, (lookup_erase_eq_some _ _ _ _ hx).2, fun g hg => Or.inl hg⟩

theorem remove_undo_referentialIntegrity
    (op : MetadataStorageFromPlainObjectStorageRemoveDirectoryOperation) (s : State)
    (h : ReferentialIntegrity s.path_map) :
    ReferentialIntegrity (op.undo s).state.path_map := by
  rcases remove_undo_path_map op s with ⟨_, hp⟩ | ⟨_, hp, _⟩
  · rw [hp]
    exact h
  · rw [hp]
    refine referentialIntegrity_of_shape s.path_map _ h ?_ ?_
    · exact Finset.Subset.refl _
    intro x r hx
    rcases lookup_mapEmplace_eq_some _ _ _ _ _ hx with h2 | ⟨_, h2, _⟩
    · exact Or.inr ⟨x, r, h2, fun g hg => Or.inl hg⟩
    · exact Or.inl (by rw [h2])

theorem referentialIntegrity_of_file_shape (pm pm2 : InMemoryDirectoryPathMap) (key : String)
    (h : ReferentialIntegrity pm) (hpool : pm.unique_filenames ⊆ pm2.unique_filenames)
    (hshape : pm2 = pm
      ∨ ∃ info info1, pm.map.lookup key = some info
          ∧ info1.path = info.path
          ∧ (∀ g ∈ info1.filename_iterators,
              g ∈ info.filename_iterators ∨ g ∈ pm2.unique_filenames)
          ∧ pm2.map = pm.map.insert key info1) :
    ReferentialIntegrity pm2 := by
  rcases hshape with hp | ⟨info, info1, hfind, _, hsub, hp⟩
  · rw [hp]
    exact h
  · apply referentialIntegrity_of_shape pm pm2 h hpool
    intro x r hx
    rw [hp] at hx
    rcases lookup_insert_eq_some _ _ _ _ _ hx with ⟨_, h2⟩ | ⟨_, h2⟩
    · exact Or.inr ⟨key, info, hfind, by rw [h2]; exact hsub⟩
    · exact Or.inr ⟨x, r, h2, fun g hg => Or.inl hg⟩

theorem operation_execute_referentialIntegrity (op : MetadataOperation) (fp : FailPoints)
    (now : Int) (s : State) (h : ReferentialIntegrity s.path_map) :
    ReferentialIntegrity (op.execute fp now s).state.path_map := by
  cases op with
  | createDirectory o => exact create_execute_referentialIntegrity o fp now s h
  | moveDirectory o => exact move_execute_referentialIntegrity o fp now s h
  | removeDirectory o => exact remove_execute_referentialIntegrity o s h
  | writeFile o =>
    refine referentialIntegrity_of_file_shape s.path_map _ _ h ?_
      (write_execute_path_map o s).2.2
    rcases (write_execute_pool o s).1 with hp | hp
    · exact (Finset.subset_of_eq hp.symm)
    · exact hp ▸ Finset.subset_insert _ _
  | unlinkMetadataFile o =>
    exact referentialIntegrity_of_file_shape s.path_map _ _ h
      (Finset.subset_of_eq (unlink_execute_pool o s).1.symm) (unlink_execute_path_map o s).2.2

theorem operation_undo_referentialIntegrity (op : MetadataOperation) (s : State)
    (h : ReferentialIntegrity s.path_map) :
    ReferentialIntegrity (op.undo s).state.path_map := by
  cases op with
  | createDirectory o => exact create_undo_referentialIntegrity o s h
  | moveDirectory o => exact move_undo_referentialIntegrity o s h
  | removeDirectory o => exact remove_undo_referentialIntegrity o s h
  | writeFile o =>
    exact referentialIntegrity_of_file_shape s.path_map _ _ h
      (Finset.subset_of_eq (write_undo_pool o s).1.symm) (write_undo_path_map o s).2.2
  | unlinkMetadataFile o =>
    exact referentialIntegrity_of_file_shape s.path_map _ _ h
      (Finset.subset_of_eq (unlink_undo_pool o s).1.symm) (unlink_undo_path_map o s).2.2

/-- C29: referential integrity of the filename references.  In every state
reached from an empty index and an empty filename pool by `execute` and `undo`
calls of the five operations, in any order and on any operation objects, every
filename in the filename set of a directory record is in the filename pool. -/
theorem referential_integrity (s : State) (h : Reachable s) :
    ReferentialIntegrity s.path_map
    ∧ ∀ x r, s.path_map.map.lookup x = some r →
        ∀ f ∈ r.filename_iterators, f ∈ s.path_map.unique_filenames := by
  have hri : ReferentialIntegrity s.path_map := by
    induction h with
    | empty object_storage metrics =>
      intro x hx
      exact absurd hx (Finset.not_mem_empty x)
    | execute op fp now s _ ih => exact operation_execute_referentialIntegrity op fp now s ih
    | undo op s _ ih => exact operation_undo_referentialIntegrity op s ih
  exact ⟨hri, fun x r hx f hf => (referentialIntegrity_iff _).mp hri x r hx hf⟩

/-- C29 at a state reached by creating a directory, registering a file in it,
moving the directory and undoing the move: the record under "/db/t" holds
"part1", which is in the pool. -/
theorem referential_integrity_witness :
    Reachable
      ((MetadataOperation.moveDirectory ⟨"/db/t/", "/db/t2/", "meta", true⟩).undo
        ((MetadataOperation.moveDirectory ⟨"/db/t/", "/db/t2/", "meta", false⟩).execute
          noFault 9
          ((MetadataOperation.writeFile ⟨"/db/t/part1", false⟩).execute noFault 8
            ((MetadataOperation.createDirectory ⟨"/db/t/", "meta", "k"⟩).execute noFault 7
              (emptyState [] zeroMetrics)).state).state).state).state
    ∧ ReferentialIntegrity
      ((MetadataOperation.moveDirectory ⟨"/db/t/", "/db/t2/", "meta", true⟩).undo
        ((MetadataOperation.moveDirectory ⟨"/db/t/", "/db/t2/", "meta", false⟩).execute
          noFault 9
          ((MetadataOperation.writeFile ⟨"/db/t/part1", false⟩).execute noFault 8
            ((MetadataOperation.createDirectory ⟨"/db/t/", "meta", "k"⟩).execute noFault 7
              (emptyState [] zeroMetrics)).state).state).state).state.path_map :=
  ⟨Reachable.undo _ _ (Reachable.execute _ _ _ _ (Reachable.execute _ _ _ _
      (Reachable.execute _ _ _ _ (Reachable.empty _ _)))),
    (referential_integrity _ (Reachable.undo _ _ (Reachable.execute _ _ _ _
      (Reachable.execute _ _ _ _ (Reachable.execute _ _ _ _ (Reachable.empty _ _)))))).1⟩


/-! ## Prefix uniqueness -/

theorem prefixUnique_iff (m : Finmap (fun _ : String => RemotePathInfo)) :
    PrefixUnique m
      ↔ ∀ x y r1 r2, m.lookup x = some r1 → m.lookup y = some r2 → r1.path = r2.path →
          x = y := by
  constructor
  · intro h x y r1 r2 hx hy
    exact h x (Finmap.mem_keys.mpr (Finmap.mem_of_lookup_eq_some hx)) y
      (Finmap.mem_keys.mpr (Finmap.mem_of_lookup_eq_some hy)) r1 hx r2 hy
  · intro h x _ y _ r1 hx r2 hy
    exact h x y r1 r2 hx hy

theorem prefixUnused_iff (m : Finmap (fun _ : String => RemotePathInfo))
    ( key_prefix : String) :
    PrefixUnused m key_prefix ↔ ∀ x r, m.lookup x = some r → r.path ≠ key_prefix := by
  constructor
  · intro h x r hx
    exact h x (Finmap.mem_keys.mpr (Finmap.mem_of_lookup_eq_some hx)) r hx
  · intro h x _ r hr
    exact h x r hr

theorem prefixUnique_erase (m : Finmap (fun _ : String => RemotePathInfo)) (k : String)
    (h : PrefixUnique m) : PrefixUnique (m.erase k) := by
  rw [prefixUnique_iff] at h ⊢
  intro x y r1 r2 hx hy hp
  exact h x y r1 r2 (lookup_erase_eq_some _ _ _ _ hx).2 (lookup_erase_eq_some _ _ _ _ hy).2 hp

theorem prefixUnique_insert (m : Finmap (fun _ : String => RemotePathInfo)) (k : String)
    (v : RemotePathInfo) (h : PrefixUnique m)
    (hv : ∀ y r, y ≠ k → m.lookup y = some r → r.path ≠ v.path) :
    PrefixUnique (m.insert k v) := by
  rw [prefixUnique_iff] at h ⊢
  intro x y r1 r2 hx hy hp
  rcases lookup_insert_eq_some _ _ _ _ _ hx with ⟨hx1, hx2⟩ | ⟨hx1, hx2⟩
  · rcases lookup_insert_eq_some _ _ _ _ _ hy with ⟨hy1, _⟩ | ⟨hy1, hy2⟩
    · rw [hx1, hy1]
    · rw [hx2] at hp
      exact absurd hp.symm (hv y r2 hy1 hy2)
  · rcases lookup_insert_eq_some _ _ _ _ _ hy with ⟨_, hy2⟩ | ⟨_, hy2⟩
    · rw [hy2] at hp
      exact absurd hp (hv x r1 hx1 hx2)
    · exact h x y r1 r2 hx2 hy2 hp

theorem prefixUnique_mapEmplace (m : Finmap (fun _ : String => RemotePathInfo))
    (path : String) (v : RemotePathInfo) (h : PrefixUnique m)
    (hv : ∀ y r, y ≠ lexical path → m.lookup y = some r → r.path ≠ v.path) :
    PrefixUnique (mapEmplace m path v).1 := by
  unfold mapEmplace
  split_ifs
  · exact h
  · exact prefixUnique_insert m _ v h hv

theorem prefixUnique_relocate (m : Finmap (fun _ : String => RemotePathInfo))
    (k : String) (r v : RemotePathInfo) (h : PrefixUnique m) (hk : m.lookup k = some r)
    (hv : v.path = r.path) :
    ∀ y r2, (m.erase k).lookup y = some r2 → r2.path ≠ v.path := by
  rw [prefixUnique_iff] at h
  intro y r2 hy hp
  obtain ⟨hne, hy2⟩ := lookup_erase_eq_some _ _ _ _ hy
  exact hne (h y k r2 r hy2 hk (by rw [hp, hv]))

theorem prefixUnique_update (m : Finmap (fun _ : String => RemotePathInfo))
    (k : String) (r v : RemotePathInfo) (h : PrefixUnique m) (hk : m.lookup k = some r)
    (hv : v.path = r.path) : PrefixUnique (m.insert k v) := by
  apply prefixUnique_insert m k v h
  intro y r2 hne hy hp
  exact hne ((prefixUnique_iff m).mp h y k r2 r hy hk (by rw [hp, hv]))

theorem prefixUnique_of_file_shape (pm pm2 : InMemoryDirectoryPathMap) (key : String)
    (h : PrefixUnique pm.map)
    (hshape : pm2 = pm
      ∨ ∃ info info1, pm.map.lookup key = some info
          ∧ info1.path = info.path
          ∧ (∀ g ∈ info1.filename_iterators,
              g ∈ info.filename_iterators ∨ g ∈ pm2.unique_filenames)
          ∧ pm2.map = pm.map.insert key info1) :
    PrefixUnique pm2.map := by
  rcases hshape with hp | ⟨info, info1, hfind, hpath, _, hp⟩
  · rw [hp]
    exact h
  · rw [hp]
    exact prefixUnique_update pm.map key info info1 h hfind hpath

theorem create_execute_prefixUnique
    (op : MetadataStorageFromPlainObjectStorageCreateDirectoryOperation) (fp : FailPoints)
    (now : Int) (s : State) (h : PrefixUnique s.path_map.map)
    (hfresh : PrefixUnused s.path_map.map op.object_key_prefix) :
    PrefixUnique (op.execute fp now s).state.path_map.map := by
  rcases create_execute_path_map op fp now s with ⟨hp, _⟩ | ⟨_, _, hp, _⟩
  · rw [hp]
    exact h
  · rw [hp]
    apply prefixUnique_insert _ _ _ h
    intro y r _ hy
    exact (prefixUnused_iff _ _).mp hfresh y r hy

theorem create_undo_prefixUnique
    (op : MetadataStorageFromPlainObjectStorageCreateDirectoryOperation) (s : State)
    (h : PrefixUnique s.path_map.map) : PrefixUnique (op.undo s).state.path_map.map := by
  rw [(create_undo_path_map op s).1]
  exact prefixUnique_erase _ _ h

theorem move_execute_prefixUnique
    (op : MetadataStorageFromPlainObjectStorageMoveDirectoryOperation) (fp : FailPoints)
    (now : Int) (s : State) (h : PrefixUnique s.path_map.map) :
    PrefixUnique (op.execute fp now s).state.path_map.map := by
  rcases (move_execute_path_map op fp now s).2 with hp | ⟨r0, hfrom, _, _, hp⟩
  · rw [hp]
    exact h
  · rw [hp]
    apply prefixUnique_insert _ _ _ (prefixUnique_erase _ _ h)
    intro y r _ hy
    exact prefixUnique_relocate _ _ r0 _ h hfrom rfl y r hy

theorem move_undo_prefixUnique
    (op : MetadataStorageFromPlainObjectStorageMoveDirectoryOperation) (s : State)
    (h : PrefixUnique s.path_map.map) : PrefixUnique (op.undo s).state.path_map.map := by
  rcases (move_undo_path_map op s).2 with hp | ⟨r0, _, hto, hp⟩
  · rw [hp]
    exact h
  · rw [hp]
    apply prefixUnique_mapEmplace _ _ _ (prefixUnique_erase _ _ h)
    intro y r _ hy
    exact prefixUnique_relocate _ _ r0 _ h hto rfl y r hy

theorem remove_execute_prefixUnique
    (op : MetadataStorageFromPlainObjectStorageRemoveDirectoryOperation) (s : State)
    (h : PrefixUnique s.path_map.map) : PrefixUnique (op.execute s).state.path_map.map := by
  rcases remove_execute_path_map op s with ⟨_, hp⟩ | ⟨r0, _, _, hp, _⟩
  · rw [hp]
    exact h
  · rw [hp]
    exact prefixUnique_erase _ _ h

theorem remove_execute_undo_prefixUnique
    (op : MetadataStorageFromPlainObjectStorageRemoveDirectoryOperation) (s : State)
    (hflag : op.remove_attempted = false) (h : PrefixUnique s.path_map.map) :
    PrefixUnique ((op.execute s).op.undo (op.execute s).state).state.path_map.map := by
  rcases remove_execute_path_map op s with ⟨_, hp⟩ | ⟨r0, hfind, hop, hp, _⟩
  · rw [hp]
    dsimp only
    rw [remove_undo_of_not_attempted op s hflag]
    exact h
  · rcases remove_undo_path_map (op.execute s).op (op.execute s).state with
      ⟨hna, _⟩ | ⟨_, hu, _⟩
    · rw [hop] at hna
      exact Bool.noConfusion hna
    · rw [hu, hp, hop]
      apply prefixUnique_mapEmplace _ _ _ (prefixUnique_erase _ _ h)
      intro y r _ hy
      exact prefixUnique_relocate _ _ r0 _ h hfind rfl y r hy

/-- C26: prefix uniqueness is preserved.  From a state in which no two index
entries share a key prefix, `execute` of any of the five operations, and `undo`
of the operation run directly after its own `execute`, leave a state in which no
two index entries share a key prefix; for Create this needs the key prefix it was
constructed with not to be the key prefix of an index entry. -/
theorem prefix_uniqueness_preserved (s : State) (h : PrefixUnique s.path_map.map) :
    (∀ (P m k : String) (fp : FailPoints) (now : Int), PrefixUnused s.path_map.map k →
      PrefixUnique (((MetadataStorageFromPlainObjectStorageCreateDirectoryOperation.construct P m
          k).execute fp now s).state.path_map.map)
      ∧ PrefixUnique (((MetadataStorageFromPlainObjectStorageCreateDirectoryOperation.construct P m
          k).execute fp now s).op.undo
            ((MetadataStorageFromPlainObjectStorageCreateDirectoryOperation.construct P m
              k).execute fp now s).state).state.path_map.map)
    ∧ (∀ (A B m : String) (fp : FailPoints) (now : Int),
      PrefixUnique (((MetadataStorageFromPlainObjectStorageMoveDirectoryOperation.construct A B
          m).execute fp now s).state.path_map.map)
      ∧ PrefixUnique (((MetadataStorageFromPlainObjectStorageMoveDirectoryOperation.construct A B
          m).execute fp now s).op.undo
            ((MetadataStorageFromPlainObjectStorageMoveDirectoryOperation.construct A B
              m).execute fp now s).state).state.path_map.map)
    ∧ (∀ (P m : String),
      PrefixUnique (((MetadataStorageFromPlainObjectStorageRemoveDirectoryOperation.construct P
          m).execute s).state.path_map.map)
      ∧ PrefixUnique (((MetadataStorageFromPlainObjectStorageRemoveDirectoryOperation.construct P
          m).execute s).op.undo
            ((MetadataStorageFromPlainObjectStorageRemoveDirectoryOperation.construct P
              m).execute s).state).state.path_map.map)
    ∧ (∀ (P : String),
      PrefixUnique (((MetadataStorageFromPlainObjectStorageWriteFileOperation.construct
          P).execute s).state.path_map.map)
      ∧ PrefixUnique (((MetadataStorageFromPlainObjectStorageWriteFileOperation.construct
          P).execute s).op.undo
            ((MetadataStorageFromPlainObjectStorageWriteFileOperation.construct
              P).execute s).state).state.path_map.map)
    ∧ (∀ (P remote_path : String),
      PrefixUnique (((MetadataStorageFromPlainObjectStorageUnlinkMetadataFileOperation.construct P
          remote_path).execute s).state.path_map.map)
      ∧ PrefixUnique (((MetadataStorageFromPlainObjectStorageUnlinkMetadataFileOperation.construct P
          remote_path).execute s).op.undo
            ((MetadataStorageFromPlainObjectStorageUnlinkMetadataFileOperation.construct P
              remote_path).execute s).state).state.path_map.map) := by
  refine ⟨?_, ?_, ?_, ?_, ?_⟩
  · intro P m k fp now hfresh
    have he := create_execute_prefixUnique
      (MetadataStorageFromPlainObjectStorageCreateDirectoryOperation.construct P m k) fp now s h
      hfresh
    exact ⟨he, create_undo_prefixUnique _ _ he⟩
  · intro A B m fp now
    have he := move_execute_prefixUnique
      (MetadataStorageFromPlainObjectStorageMoveDirectoryOperation.construct A B m) fp now s h
    exact ⟨he, move_undo_prefixUnique _ _ he⟩
  · intro P m
    exact ⟨remove_execute_prefixUnique _ s h,
      remove_execute_undo_prefixUnique
        (MetadataStorageFromPlainObjectStorageRemoveDirectoryOperation.construct P m) s rfl h⟩
  · intro P
    have he : PrefixUnique
        ((MetadataStorageFromPlainObjectStorageWriteFileOperation.construct
          P).execute s).state.path_map.map :=
      prefixUnique_of_file_shape s.path_map _ _ h (write_execute_path_map _ s).2.2
    exact ⟨he, prefixUnique_of_file_shape _ _ _ he (write_undo_path_map _ _).2.2⟩
  · intro P remote_path
    have he : PrefixUnique
        ((MetadataStorageFromPlainObjectStorageUnlinkMetadataFileOperation.construct P
          remote_path).execute s).state.path_map.map :=
      prefixUnique_of_file_shape s.path_map _ _ h (unlink_execute_path_map _ s).2.2
    exact ⟨he, prefixUnique_of_file_shape _ _ _ he (unlink_undo_path_map _ _).2.2⟩

/-- C26 at the state with the directories "/db/t" and "/db/t2": creating
"/db/t3/" with the unused key prefix "k3" keeps the key prefixes distinct, and so
does undoing the creation. -/
theorem prefix_uniqueness_preserved_witness :
    PrefixUnique twoDirState.path_map.map
    ∧ PrefixUnused twoDirState.path_map.map "k3"
    ∧ PrefixUnique (((MetadataStorageFromPlainObjectStorageCreateDirectoryOperation.construct "/db/t3/"
        "meta" "k3").execute noFault 7 twoDirState).state.path_map.map)
    ∧ PrefixUnique (((MetadataStorageFromPlainObjectStorageCreateDirectoryOperation.construct "/db/t3/"
        "meta" "k3").execute noFault 7 twoDirState).op.undo
          ((MetadataStorageFromPlainObjectStorageCreateDirectoryOperation.construct "/db/t3/"
            "meta" "k3").execute noFault 7 twoDirState).state).state.path_map.map :=
  ⟨by decide, by decide,
    (prefix_uniqueness_preserved twoDirState (by decide)).1 "/db/t3/" "meta" "k3" noFault 7
      (by decide)⟩


/-! ## The directory count and the index -/

theorem card_keys_insert_of_none {β : Type} (m : Finmap (fun _ : String => β)) (k : String)
    (v : β) (h : m.lookup k = none) :
    ((m.insert k v).keys.card : Int) = (m.keys.card : Int) + 1 := by
  have hk : (m.insert k v).keys = insert k m.keys := by
    ext x
    simp only [Finmap.mem_keys, Finmap.mem_insert, Finset.mem_insert]
  have hnot : k ∉ m.keys := by
    rw [Finmap.mem_keys]
    exact Finmap.lookup_eq_none.mp h
  rw [hk, Finset.card_insert_of_not_mem hnot]
  push_cast
  rfl

theorem card_keys_erase_of_some {β : Type} (m : Finmap (fun _ : String => β)) (k : String)
    (r : β) (h : m.lookup k = some r) :
    ((m.erase k).keys.card : Int) = (m.keys.card : Int) - 1 := by
  have hmem : k ∈ m.keys := Finmap.mem_keys.mpr (Finmap.mem_of_lookup_eq_some h)
  rw [Finmap.keys_erase, ← Finset.card_erase_add_one hmem]
  push_cast
  ring

theorem card_keys_mapEmplace_of_none (m : Finmap (fun _ : String => RemotePathInfo))
    (path : String) (v : RemotePathInfo) (h : mapFind m path = none) :
    (((mapEmplace m path v).1).keys.card : Int) = (m.keys.card : Int) + 1 := by
  unfold mapEmplace
  have hcont : ¬ mapContains m path = true := by simp [mapContains, h]
  rw [if_neg hcont]
  exact card_keys_insert_of_none m _ v h

theorem create_execute_lockStep
    (op : MetadataStorageFromPlainObjectStorageCreateDirectoryOperation) (fp : FailPoints)
    (now : Int) (s : State) : LockStep s (op.execute fp now s).state := by
  unfold LockStep
  rcases create_execute_path_map op fp now s with ⟨hp, hm⟩ | ⟨hfind, _, hp, hm⟩
  · rw [hp, hm]
    simp
  · rw [hp, hm]
    dsimp only
    rw [card_keys_insert_of_none _ _ _ hfind]
    ring

theorem create_undo_lockStep
    (op : MetadataStorageFromPlainObjectStorageCreateDirectoryOperation) (s : State) :
    LockStep s (op.undo s).state := by
  unfold LockStep
  obtain ⟨hp, hm⟩ := create_undo_path_map op s
  rw [hp, hm]
  dsimp only
  cases hfind : mapFind s.path_map.map (parent_path op.path) with
  | none =>
    rw [erase_of_lookup_eq_none _ _ hfind]
    simp [mapContains, hfind]
  | some r =>
    rw [card_keys_erase_of_some _ _ r hfind]
    simp [mapContains, hfind]

theorem move_execute_lockStep
    (op : MetadataStorageFromPlainObjectStorageMoveDirectoryOperation) (fp : FailPoints)
    (now : Int) (s : State) : LockStep s (op.execute fp now s).state := by
  unfold LockStep
  obtain ⟨hm, hshape⟩ := move_execute_path_map op fp now s
  rw [hm]
  rcases hshape with hp | ⟨r, hfrom, hto, _, hp⟩
  · rw [hp]
    simp
  · rw [hp]
    dsimp only
    have hto2 : (s.path_map.map.erase (lexical (parent_path op.path_from))).lookup
        (lexical (parent_path op.path_to)) = none := by
      cases hl : (s.path_map.map.erase (lexical (parent_path op.path_from))).lookup
          (lexical (parent_path op.path_to)) with
      | none => rfl
      | some r2 =>
        have := (lookup_erase_eq_some _ _ _ _ hl).2
        unfold mapFind at hto
        rw [hto] at this
        exact Option.noConfusion this
    rw [card_keys_insert_of_none _ _ _ hto2, card_keys_erase_of_some _ _ r hfrom]
    ring

theorem move_undo_lockStep
    (op : MetadataStorageFromPlainObjectStorageMoveDirectoryOperation) (s : State)
    (h : op.write_finalized = false
      ∨ mapFind s.path_map.map (parent_path op.path_to) = none
      ∨ mapFind s.path_map.map (parent_path op.path_from) = none) :
    LockStep s (op.undo s).state := by
  unfold LockStep
  obtain ⟨hm, hshape⟩ := move_undo_path_map op s
  rw [hm]
  rcases hshape with hp | ⟨info, hflag, hto, hp⟩
  · rw [hp]
    simp
  · rcases h with h | h | h
    · rw [hflag] at h
      exact Bool.noConfusion h
    · rw [hto] at h
      exact Option.noConfusion h
    · rw [hp]
      dsimp only
      have hfrom2 : mapFind (s.path_map.map.erase (lexical (parent_path op.path_to)))
          (parent_path op.path_from) = none := by
        cases hl : mapFind (s.path_map.map.erase (lexical (parent_path op.path_to)))
            (parent_path op.path_from) with
        | none => rfl
        | some r2 =>
          have := (lookup_erase_eq_some _ _ _ _ hl).2
          unfold mapFind at h
          rw [h] at this
          exact Option.noConfusion this
      rw [card_keys_mapEmplace_of_none _ _ _ hfrom2, card_keys_erase_of_some _ _ info hto]
      ring

theorem remove_execute_lockStep
    (op : MetadataStorageFromPlainObjectStorageRemoveDirectoryOperation) (s : State) :
    LockStep s (op.execute s).state := by
  unfold LockStep
  rcases remove_execute_path_map op s with ⟨_, hp⟩ | ⟨r, hfind, _, hp, hm⟩
  · rw [hp]
    simp
  · rw [hp, hm]
    dsimp only
    rw [card_keys_erase_of_some _ _ r hfind]
    ring

theorem remove_undo_lockStep
    (op : MetadataStorageFromPlainObjectStorageRemoveDirectoryOperation) (s : State)
    (h : op.remove_attempted = false ∨ mapFind s.path_map.map (parent_path op.path) = none) :
    LockStep s (op.undo s).state := by
  unfold LockStep
  rcases remove_undo_path_map op s with ⟨_, hp⟩ | ⟨hflag, hp, hm⟩
  · rw [hp]
    simp
  · rcases h with h | h
    · rw [hflag] at h
      exact Bool.noConfusion h
    · rw [hp, hm]
      dsimp only
      rw [card_keys_mapEmplace_of_none _ _ _ h]
      ring

theorem move_execute_undo_lockStep (A B m : String) (fp : FailPoints) (now : Int)
    (s : State) :
    LockStep ((MetadataStorageFromPlainObjectStorageMoveDirectoryOperation.construct A B
        m).execute fp now s).state
      (((MetadataStorageFromPlainObjectStorageMoveDirectoryOperation.construct A B
        m).execute fp now s).op.undo
          ((MetadataStorageFromPlainObjectStorageMoveDirectoryOperation.construct A B
            m).execute fp now s).state).state := by
  apply move_undo_lockStep
  by_cases herr : ((MetadataStorageFromPlainObjectStorageMoveDirectoryOperation.construct A B
      m).execute fp now s).error = none
  · cases hfrom : mapFind s.path_map.map (parent_path A) with
    | none =>
      left
      rw [move_execute_of_source_missing _ fp now s hfrom]
      rfl
    | some r =>
      obtain ⟨hto, heq⟩ := move_execute_success
        (MetadataStorageFromPlainObjectStorageMoveDirectoryOperation.construct A B m) fp now s r
        hfrom herr
      right
      right
      rw [heq]
      show mapFind ((s.path_map.map.erase (lexical (parent_path A))).insert
        (lexical (parent_path B)) { r with last_modified := now }) (parent_path A) = none
      have hto2 : s.path_map.map.lookup (lexical (parent_path B)) = none := hto
      have hne : lexical (parent_path A) ≠ lexical (parent_path B) := by
        intro he
        unfold mapFind at hfrom
        rw [he, hto2] at hfrom
        exact Option.noConfusion hfrom
      unfold mapFind
      rw [Finmap.lookup_insert_of_ne _ hne, Finmap.lookup_erase]
  · left
    rw [(move_execute_failure _ fp now s herr).1]
    rfl

theorem remove_execute_undo_lockStep (P m : String) (s : State) :
    LockStep ((MetadataStorageFromPlainObjectStorageRemoveDirectoryOperation.construct P
        m).execute s).state
      (((MetadataStorageFromPlainObjectStorageRemoveDirectoryOperation.construct P
        m).execute s).op.undo
          ((MetadataStorageFromPlainObjectStorageRemoveDirectoryOperation.construct P
            m).execute s).state).state := by
  apply remove_undo_lockStep
  rcases remove_execute_path_map
      (MetadataStorageFromPlainObjectStorageRemoveDirectoryOperation.construct P m) s with
    ⟨_, hp⟩ | ⟨r, _, hop, hp, _⟩
  · left
    rw [hp]
    rfl
  · right
    rw [hp, hop]
    show mapFind (s.path_map.map.erase (lexical (parent_path P))) (parent_path P) = none
    unfold mapFind
    rw [Finmap.lookup_erase]


/-- C28, as amended: the directory count moves in lock-step with the index in
these calls.  Whatever the state and the operation object, the change that
`execute` of Create, Move or Remove and `undo` of Create make to
`directory_map_size` equals the change they make to the number of index
entries, whether the call succeeds or fails.  The same holds for `undo` of Move
unless the operation is flagged as finalized and both of its paths are in the
index, and for `undo` of Remove unless the operation is flagged as attempted and
its path is in the index; in particular it holds for `undo` of Move and of
Remove run directly after the operation's own `execute`. -/
theorem directory_count_lock_step (s : State) :
    (∀ (op : MetadataStorageFromPlainObjectStorageCreateDirectoryOperation)
        (fp : FailPoints) (now : Int), LockStep s (op.execute fp now s).state)
    ∧ (∀ (op : MetadataStorageFromPlainObjectStorageCreateDirectoryOperation),
        LockStep s (op.undo s).state)
    ∧ (∀ (op : MetadataStorageFromPlainObjectStorageMoveDirectoryOperation)
        (fp : FailPoints) (now : Int), LockStep s (op.execute fp now s).state)
    ∧ (∀ (op : MetadataStorageFromPlainObjectStorageRemoveDirectoryOperation),
        LockStep s (op.execute s).state)
    ∧ (∀ (op : MetadataStorageFromPlainObjectStorageMoveDirectoryOperation),
        (op.write_finalized = false
          ∨ mapFind s.path_map.map (parent_path op.path_to) = none
          ∨ mapFind s.path_map.map (parent_path op.path_from) = none) →
        LockStep s (op.undo s).state)
    ∧ (∀ (op : MetadataStorageFromPlainObjectStorageRemoveDirectoryOperation),
        (op.remove_attempted = false
          ∨ mapFind s.path_map.map (parent_path op.path) = none) →
        LockStep s (op.undo s).state)
    ∧ (∀ (A B m : String) (fp : FailPoints) (now : Int),
        LockStep ((MetadataStorageFromPlainObjectStorageMoveDirectoryOperation.construct A B
            m).execute fp now s).state
          (((MetadataStorageFromPlainObjectStorageMoveDirectoryOperation.construct A B
            m).execute fp now s).op.undo
              ((MetadataStorageFromPlainObjectStorageMoveDirectoryOperation.construct A B
                m).execute fp now s).state).state)
    ∧ (∀ (P m : String),
        LockStep ((MetadataStorageFromPlainObjectStorageRemoveDirectoryOperation.construct P
            m).execute s).state
          (((MetadataStorageFromPlainObjectStorageRemoveDirectoryOperation.construct P
            m).execute s).op.undo
              ((MetadataStorageFromPlainObjectStorageRemoveDirectoryOperation.construct P
                m).execute s).state).state) :=
  ⟨fun op fp now => create_execute_lockStep op fp now s,
    fun op => create_undo_lockStep op s,
    fun op fp now => move_execute_lockStep op fp now s,
    fun op => remove_execute_lockStep op s,
    fun op h => move_undo_lockStep op s h,
    fun op h => remove_undo_lockStep op s h,
    fun A B m fp now => move_execute_undo_lockStep A B m fp now s,
    fun P m => remove_execute_undo_lockStep P m s⟩

/-- C28 as amended, at the empty state: `undo` of a Remove flagged as attempted,
whose path "/db/t/" is not in the index, inserts one entry and adds one to the
directory count. -/
theorem directory_count_lock_step_witness :
    mapFind (emptyState [] zeroMetrics).path_map.map (parent_path "/db/t/") = none
    ∧ LockStep (emptyState [] zeroMetrics)
        ((⟨"/db/t/", "meta", "k", true⟩ :
          MetadataStorageFromPlainObjectStorageRemoveDirectoryOperation).undo
            (emptyState [] zeroMetrics)).state
    ∧ ((⟨"/db/t/", "meta", "k", true⟩ :
          MetadataStorageFromPlainObjectStorageRemoveDirectoryOperation).undo
            (emptyState [] zeroMetrics)).state.metrics.directory_map_size = 1 :=
  ⟨by decide,
    (directory_count_lock_step (emptyState [] zeroMetrics)).2.2.2.2.2.1
      ⟨"/db/t/", "meta", "k", true⟩ (Or.inr (by decide)),
    by decide⟩

/-- C28 as stated fails.  Remove "/db/t/" is executed on the state with the one
directory "/db/t", the directory is created again, and the Remove is undone: the
undo adds one to the directory count (from 0 to 1) while the index keeps its one
entry.  And `undo` of a Move from "/db/t/" to "/db/t2/" that is flagged as
finalized, in the state that holds both directories, leaves one index entry of
the two and does not change the directory count. -/
theorem undo_breaks_lock_step :
    (((MetadataStorageFromPlainObjectStorageRemoveDirectoryOperation.construct "/db/t/"
        "meta").execute oneDirState).op.undo
      ((MetadataStorageFromPlainObjectStorageCreateDirectoryOperation.construct "/db/t/" "meta"
        "k9").execute noFault 7
          ((MetadataStorageFromPlainObjectStorageRemoveDirectoryOperation.construct "/db/t/"
            "meta").execute oneDirState).state).state).state.metrics.directory_map_size = 1
    ∧ ((MetadataStorageFromPlainObjectStorageCreateDirectoryOperation.construct "/db/t/" "meta"
        "k9").execute noFault 7
          ((MetadataStorageFromPlainObjectStorageRemoveDirectoryOperation.construct "/db/t/"
            "meta").execute oneDirState).state).state.metrics.directory_map_size = 0
    ∧ (((MetadataStorageFromPlainObjectStorageRemoveDirectoryOperation.construct "/db/t/"
        "meta").execute oneDirState).op.undo
      ((MetadataStorageFromPlainObjectStorageCreateDirectoryOperation.construct "/db/t/" "meta"
        "k9").execute noFault 7
          ((MetadataStorageFromPlainObjectStorageRemoveDirectoryOperation.construct "/db/t/"
            "meta").execute oneDirState).state).state).state.path_map.map.keys.card = 1
    ∧ ((MetadataStorageFromPlainObjectStorageCreateDirectoryOperation.construct "/db/t/" "meta"
        "k9").execute noFault 7
          ((MetadataStorageFromPlainObjectStorageRemoveDirectoryOperation.construct "/db/t/"
            "meta").execute oneDirState).state).state.path_map.map.keys.card = 1
    ∧ ¬ LockStep
        ((MetadataStorageFromPlainObjectStorageCreateDirectoryOperation.construct "/db/t/" "meta"
          "k9").execute noFault 7
            ((MetadataStorageFromPlainObjectStorageRemoveDirectoryOperation.construct "/db/t/"
              "meta").execute oneDirState).state).state
        (((MetadataStorageFromPlainObjectStorageRemoveDirectoryOperation.construct "/db/t/"
            "meta").execute oneDirState).op.undo
          ((MetadataStorageFromPlainObjectStorageCreateDirectoryOperation.construct "/db/t/" "meta"
            "k9").execute noFault 7
              ((MetadataStorageFromPlainObjectStorageRemoveDirectoryOperation.construct "/db/t/"
                "meta").execute oneDirState).state).state).state
    ∧ twoDirState.path_map.map.keys.card = 2
    ∧ ((⟨"/db/t/", "/db/t2/", "meta", true⟩ :
        MetadataStorageFromPlainObjectStorageMoveDirectoryOperation).undo
          twoDirState).state.path_map.map.keys.card = 1
    ∧ ((⟨"/db/t/", "/db/t2/", "meta", true⟩ :
        MetadataStorageFromPlainObjectStorageMoveDirectoryOperation).undo
          twoDirState).state.metrics.directory_map_size
        = twoDirState.metrics.directory_map_size
    ∧ ¬ LockStep twoDirState
        ((⟨"/db/t/", "/db/t2/", "meta", true⟩ :
          MetadataStorageFromPlainObjectStorageMoveDirectoryOperation).undo twoDirState).state := by
  decide

/-! ## The lexical form of a directory path -/

theorem collapse_cons_cons (c d : Char) (rest : List Char) :
    collapse (c :: d :: rest)
      = if c = sep ∧ d = sep then collapse (d :: rest) else c :: collapse (d :: rest) := by
  rw [collapse]

theorem collapse_head (c : Char) (l : List Char) : ∃ t, collapse (c :: l) = c :: t := by
  induction l generalizing c with
  | nil => exact ⟨[], by rw [collapse]⟩
  | cons d rest ih =>
    rw [collapse_cons_cons]
    by_cases h : c = sep ∧ d = sep
    · rw [if_pos h]
      obtain ⟨t, ht⟩ := ih d
      exact ⟨t, by rw [ht, h.1, h.2]⟩
    · rw [if_neg h]
      exact ⟨_, rfl⟩

theorem collapse_collapse_append (a b : List Char) :
    collapse (collapse a ++ b) = collapse (a ++ b) := by
  induction a with
  | nil => simp [collapse]
  | cons c l ih =>
    cases l with
    | nil => simp [collapse]
    | cons d rest =>
      obtain ⟨t, ht⟩ := collapse_head d rest
      rw [collapse_cons_cons]
      by_cases h : c = sep ∧ d = sep
      · rw [if_pos h, ih]
        show collapse (d :: rest ++ b) = collapse (c :: d :: (rest ++ b))
        rw [collapse_cons_cons c d, if_pos h]
        rfl
      · rw [if_neg h]
        show collapse (c :: (collapse (d :: rest) ++ b)) = collapse (c :: d :: (rest ++ b))
        rw [collapse_cons_cons c d (rest ++ b), if_neg h]
        rw [ht] at ih ⊢
        show collapse (c :: d :: (t ++ b)) = _
        rw [collapse_cons_cons c d (t ++ b), if_neg h]
        exact congrArg (fun x => c :: x) ih

theorem collapse_append_sep_sep (q r : List Char) :
    collapse (q ++ sep :: sep :: r) = collapse (q ++ sep :: r) := by
  induction q with
  | nil =>
    show collapse (sep :: sep :: r) = collapse (sep :: r)
    rw [collapse_cons_cons, if_pos ⟨rfl, rfl⟩]
  | cons c l ih =>
    cases l with
    | nil =>
      show collapse (c :: sep :: sep :: r) = collapse (c :: sep :: r)
      rw [collapse_cons_cons c sep (sep :: r), collapse_cons_cons c sep r]
      have h2 : collapse (sep :: sep :: r) = collapse (sep :: r) := ih
      rw [h2]
    | cons d rest =>
      show collapse (c :: d :: (rest ++ sep :: sep :: r))
        = collapse (c :: d :: (rest ++ sep :: r))
      rw [collapse_cons_cons c d (rest ++ sep :: sep :: r),
        collapse_cons_cons c d (rest ++ sep :: r)]
      have h2 : collapse (d :: (rest ++ sep :: sep :: r))
          = collapse (d :: (rest ++ sep :: r)) := ih
      rw [h2]

theorem collapse_append_replicate (q : List Char) (k : Nat) :
    collapse (q ++ List.replicate (k + 1) sep) = collapse (q ++ [sep]) := by
  induction k with
  | zero => rfl
  | succ n ih =>
    rw [← ih]
    show collapse (q ++ sep :: sep :: List.replicate n sep)
      = collapse (q ++ sep :: List.replicate n sep)
    exact collapse_append_sep_sep q _

theorem takeWhile_sep_eq_replicate (l : List Char) :
    l.takeWhile (fun x => x == sep)
      = List.replicate (l.takeWhile (fun x => x == sep)).length sep := by
  apply List.eq_replicate_of_mem
  intro b hb
  have := List.mem_takeWhile_imp hb
  simpa using this

theorem data_eq_dropWhile_append_replicate (l : List Char) :
    l = ((l.reverse.dropWhile (fun x => x == sep)).reverse)
      ++ List.replicate (l.reverse.takeWhile (fun x => x == sep)).length sep := by
  have h := List.takeWhile_append_dropWhile (fun x => x == sep) l.reverse
  have h2 := congrArg List.reverse h
  rw [List.reverse_append, List.reverse_reverse] at h2
  rw [takeWhile_sep_eq_replicate l.reverse, List.reverse_replicate] at h2
  exact h2.symm

theorem lexical_of_trailing_sep (P : String) (h : P.data.getLast? = some sep) :
    lexical P = lexical (lexical (parent_path P) ++ "/") := by
  obtain ⟨r, hr⟩ : ∃ r, P.data.reverse = sep :: r := by
    cases hrev : P.data.reverse with
    | nil =>
      have := List.reverse_eq_nil_iff.mp hrev
      rw [this] at h
      exact Option.noConfusion h
    | cons c r =>
      have hP : P.data = r.reverse ++ [c] := by
        have := congrArg List.reverse hrev
        simpa using this
      rw [hP] at h
      simp at h
      exact ⟨r, by rw [h]⟩
  have hk : ∃ k, (P.data.reverse.takeWhile (fun x => x == sep)).length = k + 1 := by
    rw [hr]
    simp [List.takeWhile]
  obtain ⟨k, hk⟩ := hk
  have hdecomp := data_eq_dropWhile_append_replicate P.data
  rw [hk] at hdecomp
  have hgoal : collapse P.data
      = collapse (collapse (parent_path P).data ++ [sep]) := by
    rw [collapse_collapse_append]
    unfold parent_path
    by_cases hall : (P.data.all (fun c => c == sep)) = true
    · rw [if_pos hall]
      have hdrop : P.data.reverse.dropWhile (fun x => x == sep) = [] := by
        rw [List.dropWhile_eq_nil_iff]
        intro x hx
        exact List.all_eq_true.mp hall x (List.mem_reverse.mp hx)
      rw [hdrop] at hdecomp
      have h1 : collapse P.data = collapse ([] ++ [sep]) := by
        rw [hdecomp]
        exact collapse_append_replicate [] k
      have h2 : collapse (P.data ++ [sep]) = collapse ([] ++ [sep]) := by
        rw [hdecomp]
        show collapse (List.replicate (k + 1) sep ++ [sep]) = _
        have : List.replicate (k + 1) sep ++ [sep]
            = [] ++ List.replicate (k + 1 + 1) sep := by
          rw [List.nil_append, List.replicate_succ' (k + 1)]
        rw [this]
        exact collapse_append_replicate [] (k + 1)
      rw [h1, h2]
    · rw [if_neg hall, hr]
      simp only [if_true]
      rw [← hr]
      show collapse P.data
        = collapse ((P.data.reverse.dropWhile (fun x => x == sep)).reverse ++ [sep])
      rw [← collapse_append_replicate _ k]
      exact congrArg collapse hdecomp
  unfold lexical
  apply String.ext
  show collapse P.data = collapse ((⟨collapse (parent_path P).data⟩ : String) ++ "/").data
  rw [hgoal]
  rfl

/-! ## Existence correspondence -/

theorem existenceCorrespondence_iff (m : String) (s : State) :
    ExistenceCorrespondence m s
      ↔ (∀ p r, s.path_map.map.lookup p = some r →
          ∃ c, s.object_storage.objects.lookup (createMetadataObjectKey r.path m) = some c
            ∧ lexical c = lexical (p ++ "/"))
        ∧ ∀ p q r1 r2, s.path_map.map.lookup p = some r1 →
            s.path_map.map.lookup q = some r2 →
            createMetadataObjectKey r1.path m = createMetadataObjectKey r2.path m →
            p = q := by
  unfold ExistenceCorrespondence
  constructor
  · rintro ⟨h1, h2⟩
    refine ⟨?_, ?_⟩
    · intro p r hp
      exact Option.map_eq_some'.mp
        (h1 p (Finmap.mem_keys.mpr (Finmap.mem_of_lookup_eq_some hp)) r hp)
    · intro p q r1 r2 hp hq
      exact h2 p (Finmap.mem_keys.mpr (Finmap.mem_of_lookup_eq_some hp)) q
        (Finmap.mem_keys.mpr (Finmap.mem_of_lookup_eq_some hq)) r1 hp r2 hq
  · rintro ⟨h1, h2⟩
    refine ⟨?_, ?_⟩
    · intro p _ r hr
      exact Option.map_eq_some'.mpr (h1 p r hr)
    · intro p _ q _ r1 hp r2 hq
      exact h2 p q r1 r2 hp hq

theorem existenceCorrespondence_of_subview (m : String) (s s2 : State)
    (h : ExistenceCorrespondence m s)
    (hmap : ∀ p r, s2.path_map.map.lookup p = some r →
      ∃ r0, s.path_map.map.lookup p = some r0 ∧ r0.path = r.path)
    (hobj : ∀ p r, s2.path_map.map.lookup p = some r →
      s2.object_storage.objects.lookup (createMetadataObjectKey r.path m)
        = s.object_storage.objects.lookup (createMetadataObjectKey r.path m)) :
    ExistenceCorrespondence m s2 := by
  rw [existenceCorrespondence_iff] at h ⊢
  obtain ⟨h1, h2⟩ := h
  refine ⟨?_, ?_⟩
  · intro p r hp
    obtain ⟨r0, hr0, hpath⟩ := hmap p r hp
    obtain ⟨c, hc, hlex⟩ := h1 p r0 hr0
    rw [hobj p r hp, ← hpath]
    exact ⟨c, hc, hlex⟩
  · intro p q r1 r2 hp hq hkey
    obtain ⟨r01, hr01, hpath1⟩ := hmap p r1 hp
    obtain ⟨r02, hr02, hpath2⟩ := hmap q r2 hq
    exact h2 p q r01 r02 hr01 hr02 (by rw [hpath1, hpath2]; exact hkey)

theorem existenceCorrespondence_insert (m : String) (s s2 : State)
    (h : ExistenceCorrespondence m s) (k : String) (v : RemotePathInfo) (content : String)
    (hmap : s2.path_map.map = s.path_map.map.insert k v)
    (hobj : s2.object_storage.objects
      = s.object_storage.objects.insert (createMetadataObjectKey v.path m) content)
    (hcontent : lexical content = lexical (k ++ "/"))
    (hfresh : ∀ q r, s.path_map.map.lookup q = some r →
      createMetadataObjectKey r.path m ≠ createMetadataObjectKey v.path m) :
    ExistenceCorrespondence m s2 := by
  rw [existenceCorrespondence_iff] at h ⊢
  obtain ⟨h1, h2⟩ := h
  rw [hmap, hobj]
  refine ⟨?_, ?_⟩
  · intro p r hp
    rcases lookup_insert_eq_some _ _ _ _ _ hp with ⟨hp1, hp2⟩ | ⟨_, hp2⟩
    · rw [hp1, hp2, Finmap.lookup_insert]
      exact ⟨content, rfl, hcontent⟩
    · rw [Finmap.lookup_insert_of_ne _ (hfresh p r hp2)]
      exact h1 p r hp2
  · intro p q r1 r2 hp hq hkey
    rcases lookup_insert_eq_some _ _ _ _ _ hp with ⟨hp1, hp2⟩ | ⟨_, hp2⟩
    · rcases lookup_insert_eq_some _ _ _ _ _ hq with ⟨hq1, _⟩ | ⟨_, hq2⟩
      · rw [hp1, hq1]
      · rw [hp2] at hkey
        exact absurd hkey.symm (hfresh q r2 hq2)
    · rcases lookup_insert_eq_some _ _ _ _ _ hq with ⟨_, hq2⟩ | ⟨_, hq2⟩
      · rw [hq2] at hkey
        exact absurd hkey (hfresh p r1 hp2)
      · exact h2 p q r1 r2 hp2 hq2 hkey

theorem existenceCorrespondence_congr (m : String) (s s2 : State)
    (h : ExistenceCorrespondence m s) (hmap : s2.path_map = s.path_map)
    (hobj : s2.object_storage.objects = s.object_storage.objects) :
    ExistenceCorrespondence m s2 := by
  apply existenceCorrespondence_of_subview m s s2 h
  · intro p r hp
    rw [hmap] at hp
    exact ⟨r, hp, rfl⟩
  · intro p r _
    rw [hobj]


theorem existenceCorrespondence_of_file_shape (m : String) (s s2 : State) (key : String)
    (h : ExistenceCorrespondence m s) (hobj : s2.object_storage = s.object_storage)
    (hshape : s2.path_map = s.path_map
      ∨ ∃ info info1, s.path_map.map.lookup key = some info
          ∧ info1.path = info.path
          ∧ (∀ g ∈ info1.filename_iterators,
              g ∈ info.filename_iterators ∨ g ∈ s2.path_map.unique_filenames)
          ∧ s2.path_map.map = s.path_map.map.insert key info1) :
    ExistenceCorrespondence m s2 := by
  rcases hshape with hp | ⟨info, info1, hfind, hpath, _, hp⟩
  · exact existenceCorrespondence_congr m s s2 h hp (by rw [hobj])
  · apply existenceCorrespondence_of_subview m s s2 h
    · intro p r hpr
      rw [hp] at hpr
      rcases lookup_insert_eq_some _ _ _ _ _ hpr with ⟨h1, h2⟩ | ⟨_, h2⟩
      · exact ⟨info, by rw [h1]; exact hfind, by rw [h2, hpath]⟩
      · exact ⟨r, h2, rfl⟩
    · intro p r _
      rw [hobj]

theorem create_execute_existenceCorrespondence
    (op : MetadataStorageFromPlainObjectStorageCreateDirectoryOperation) (fp : FailPoints)
    (now : Int) (s : State) (hsep : op.path.data.getLast? = some sep)
    (hfresh : MarkerKeyFresh op.metadata_key_prefix op.object_key_prefix s)
    (h : ExistenceCorrespondence op.metadata_key_prefix s) :
    ExistenceCorrespondence op.metadata_key_prefix (op.execute fp now s).state := by
  cases hfind : mapFind s.path_map.map (parent_path op.path) with
  | some r =>
    rw [create_execute_of_present op fp now s (by simp [mapContains, hfind])]
    exact h
  | none =>
    cases hf : fp.plain_object_storage_write_fail_on_directory_create with
    | true =>
      rw [create_execute_of_fault op fp now s hfind hf]
      exact existenceCorrespondence_congr _ s _ h rfl rfl
    | false =>
      rw [create_execute_of_absent op fp now s hfind hf]
      refine existenceCorrespondence_insert _ s _ h (lexical (parent_path op.path))
        ⟨op.object_key_prefix, now, ∅⟩ op.path rfl rfl
        (lexical_of_trailing_sep op.path hsep) ?_
      intro q r hq
      exact hfresh.1 q (Finmap.mem_keys.mpr (Finmap.mem_of_lookup_eq_some hq)) r hq

theorem move_execute_existenceCorrespondence
    (op : MetadataStorageFromPlainObjectStorageMoveDirectoryOperation) (fp : FailPoints)
    (now : Int) (s : State) (hsep : op.path_to.data.getLast? = some sep)
    (h : ExistenceCorrespondence op.metadata_key_prefix s) :
    ExistenceCorrespondence op.metadata_key_prefix (op.execute fp now s).state := by
  by_cases herr : (op.execute fp now s).error = none
  · cases hfrom : mapFind s.path_map.map (parent_path op.path_from) with
    | none =>
      rw [move_execute_of_source_missing op fp now s hfrom]
      exact h
    | some r0 =>
      obtain ⟨_, heq⟩ := move_execute_success op fp now s r0 hfrom herr
      rw [heq]
      have h1 : ExistenceCorrespondence op.metadata_key_prefix
          ⟨⟨s.path_map.map.erase (lexical (parent_path op.path_from)),
            s.path_map.unique_filenames⟩, s.object_storage, s.metrics⟩ := by
        apply existenceCorrespondence_of_subview _ s _ h
        · intro p r hp
          exact ⟨r, (lookup_erase_eq_some _ _ _ _ hp).2, rfl⟩
        · intro p r _
          rfl
      refine existenceCorrespondence_insert _ _ _ h1 (lexical (parent_path op.path_to))
        { r0 with last_modified := now } op.path_to rfl rfl
        (lexical_of_trailing_sep op.path_to hsep) ?_
      intro q r hq hkey
      obtain ⟨hne, hq2⟩ := lookup_erase_eq_some _ _ _ _ hq
      exact hne (((existenceCorrespondence_iff _ s).mp h).2 q _ r r0 hq2 hfrom hkey)
  · obtain ⟨_, hp, ho, _⟩ := move_execute_failure op fp now s herr
    exact existenceCorrespondence_congr _ s _ h hp ho

theorem remove_execute_existenceCorrespondence
    (op : MetadataStorageFromPlainObjectStorageRemoveDirectoryOperation) (s : State)
    (h : ExistenceCorrespondence op.metadata_key_prefix s) :
    ExistenceCorrespondence op.metadata_key_prefix (op.execute s).state := by
  cases hfind : mapFind s.path_map.map (parent_path op.path) with
  | none =>
    rw [remove_execute_of_absent op s hfind]
    exact h
  | some r0 =>
    rw [remove_execute_of_present op s r0 hfind]
    apply existenceCorrespondence_of_subview _ s _ h
    · intro p r hp
      exact ⟨r, (lookup_erase_eq_some _ _ _ _ hp).2, rfl⟩
    · intro p r hp
      obtain ⟨hne, hp2⟩ := lookup_erase_eq_some _ _ _ _ hp
      have hkey : createMetadataObjectKey r.path op.metadata_key_prefix
          ≠ createMetadataObjectKey r0.path op.metadata_key_prefix := by
        intro hkey
        exact hne (((existenceCorrespondence_iff _ s).mp h).2 p _ r r0 hp2 hfind hkey)
      exact Finmap.lookup_erase_ne hkey

/-- C25, as amended: existence correspondence, with the marker content read as a
path, is preserved by `execute`.  Let a state satisfy it for the metadata key
prefix `m`: every index entry `p -> r` has a remote object at the marker key of
`r.path` whose content equals, as a path, `p` followed by the separator, and no
two index entries have the same marker key.  Then the state after `execute`
satisfies it as well, whether `execute` succeeds or fails, for a Create whose
path ends with the separator and whose key prefix has a marker key that no index
entry and no remote object uses, for a Move whose destination path ends with the
separator, and for every Remove, WriteFile and Unlink; Create, Move and Remove
being operations of the storage with metadata key prefix `m`. -/
theorem existence_correspondence_preserved (m : String) (s : State)
    (h : ExistenceCorrespondence m s) :
    (∀ (op : MetadataStorageFromPlainObjectStorageCreateDirectoryOperation)
        (fp : FailPoints) (now : Int), op.metadata_key_prefix = m →
        op.path.data.getLast? = some sep → MarkerKeyFresh m op.object_key_prefix s →
        ExistenceCorrespondence m (op.execute fp now s).state)
    ∧ (∀ (op : MetadataStorageFromPlainObjectStorageMoveDirectoryOperation)
        (fp : FailPoints) (now : Int), op.metadata_key_prefix = m →
        op.path_to.data.getLast? = some sep →
        ExistenceCorrespondence m (op.execute fp now s).state)
    ∧ (∀ (op : MetadataStorageFromPlainObjectStorageRemoveDirectoryOperation),
        op.metadata_key_prefix = m → ExistenceCorrespondence m (op.execute s).state)
    ∧ (∀ (op : MetadataStorageFromPlainObjectStorageWriteFileOperation),
        ExistenceCorrespondence m (op.execute s).state)
    ∧ (∀ (op : MetadataStorageFromPlainObjectStorageUnlinkMetadataFileOperation),
        ExistenceCorrespondence m (op.execute s).state) := by
  refine ⟨?_, ?_, ?_, ?_, ?_⟩
  · intro op fp now hm hsep hfresh
    subst hm
    exact create_execute_existenceCorrespondence op fp now s hsep hfresh h
  · intro op fp now hm hsep
    subst hm
    exact move_execute_existenceCorrespondence op fp now s hsep h
  · intro op hm
    subst hm
    exact remove_execute_existenceCorrespondence op s h
  · intro op
    exact existenceCorrespondence_of_file_shape m s _ _ h (write_execute_path_map op s).1
      (write_execute_path_map op s).2.2
  · intro op
    exact existenceCorrespondence_of_file_shape m s _ _ h (unlink_execute_path_map op s).1
      (unlink_execute_path_map op s).2.2

/-- C25 as amended, for the creation of "/db/t3//" with the key prefix "k3" in the
state with the directories "/db/t" and "/db/t2". -/
theorem existence_correspondence_preserved_witness :
    ExistenceCorrespondence "meta" twoDirState
    ∧ MarkerKeyFresh "meta" "k3" twoDirState
    ∧ ((MetadataStorageFromPlainObjectStorageCreateDirectoryOperation.construct "/db/t3//" "meta"
        "k3").execute noFault 7 twoDirState).error = none
    ∧ ExistenceCorrespondence "meta"
        ((MetadataStorageFromPlainObjectStorageCreateDirectoryOperation.construct "/db/t3//" "meta"
          "k3").execute noFault 7 twoDirState).state :=
  ⟨by decide, by decide, by decide,
    (existence_correspondence_preserved "meta" twoDirState (by decide)).1
      (MetadataStorageFromPlainObjectStorageCreateDirectoryOperation.construct "/db/t3//" "meta"
        "k3")
      noFault 7 rfl (by decide) (by decide)⟩

/-- C25 as stated fails when the content of the marker is compared as a string.
The empty state satisfies the invariant and no index entry or remote object uses
the marker key of "k"; `execute` of the Create of "/db/t//" succeeds, enters the
directory under "/db/t" and writes "/db/t//" to its marker, which is not
"/db/t" followed by one separator. -/
theorem create_breaks_verbatim_correspondence :
    ExistenceCorrespondenceVerbatim "meta" (emptyState [] zeroMetrics)
    ∧ MarkerKeyFresh "meta" "k" (emptyState [] zeroMetrics)
    ∧ ((MetadataStorageFromPlainObjectStorageCreateDirectoryOperation.construct "/db/t//" "meta"
        "k").execute noFault 7 (emptyState [] zeroMetrics)).error = none
    ∧ ((MetadataStorageFromPlainObjectStorageCreateDirectoryOperation.construct "/db/t//" "meta"
        "k").execute noFault 7 (emptyState [] zeroMetrics)).state.path_map.map.lookup "/db/t"
        = some ⟨"k", 7, ∅⟩
    ∧ ((MetadataStorageFromPlainObjectStorageCreateDirectoryOperation.construct "/db/t//" "meta"
        "k").execute noFault 7
          (emptyState [] zeroMetrics)).state.object_storage.objects.lookup
            (createMetadataObjectKey "k" "meta") = some "/db/t//"
    ∧ ¬ ExistenceCorrespondenceVerbatim "meta"
        ((MetadataStorageFromPlainObjectStorageCreateDirectoryOperation.construct "/db/t//" "meta"
          "k").execute noFault 7 (emptyState [] zeroMetrics)).state := by
  decide


/-! ## The conversion of PostgreSQL type names -/

theorem ends_with_array_iff (s : String) :
    ends_with s "[]" = true ↔ ∃ r, s.data.reverse = ']' :: '[' :: r := by
  unfold ends_with
  have h : "[]".data = ['[', ']'] := rfl
  rw [h, List.isSuffixOf]
  cases hr : s.data.reverse with
  | nil => simp [List.isPrefixOf]
  | cons c l =>
    cases l with
    | nil => simp [List.isPrefixOf]
    | cons d rest =>
      show List.isPrefixOf [']', '['] (c :: d :: rest) = true ↔ _
      constructor
      · intro h
        simp only [List.isPrefixOf, Bool.and_eq_true, beq_iff_eq, Bool.and_true] at h
        exact ⟨rest, by rw [← h.1, ← h.2]⟩
      · rintro ⟨r, hr⟩
        injection hr with h1 hr
        injection hr with h2 _
        simp [List.isPrefixOf, h1, h2]

theorem arraySuffixes_reverse_succ (n : Nat) :
    (arraySuffixes (n + 1)).reverse = ']' :: '[' :: (arraySuffixes n).reverse := by
  show (arraySuffixes n ++ ['[', ']']).reverse = _
  rw [List.reverse_append]
  rfl

theorem resizeWhileArray_spec (l : List Char) :
    (∃ n, l = (arraySuffixes n).reverse ++ resizeWhileArray l)
    ∧ ¬ ∃ r, resizeWhileArray l = ']' :: '[' :: r := by
  induction l using resizeWhileArray.induct with
  | case1 c d rest h ih =>
    obtain ⟨⟨n, hn⟩, hnot⟩ := ih
    have hres : resizeWhileArray (c :: d :: rest) = resizeWhileArray rest := by
      rw [resizeWhileArray, if_pos h]
    rw [hres]
    refine ⟨⟨n + 1, ?_⟩, hnot⟩
    rw [arraySuffixes_reverse_succ, h.1, h.2]
    show ']' :: '[' :: rest = ']' :: '[' :: ((arraySuffixes n).reverse ++ resizeWhileArray rest)
    rw [← hn]
  | case2 c d rest h =>
    have hres : resizeWhileArray (c :: d :: rest) = c :: d :: rest := by
      rw [resizeWhileArray, if_neg h]
    rw [hres]
    refine ⟨⟨0, rfl⟩, ?_⟩
    rintro ⟨r, hr⟩
    injection hr with h1 hr
    injection hr with h2 _
    exact h ⟨h1, h2⟩
  | case3 l hl =>
    have hres : resizeWhileArray l = l := by
      cases l with
      | nil => rfl
      | cons c l2 =>
        cases l2 with
        | nil => rfl
        | cons d rest => exact absurd rfl (hl c d rest)
    rw [hres]
    refine ⟨⟨0, rfl⟩, ?_⟩
    rintro ⟨r, hr⟩
    exact hl _ _ _ hr

theorem withoutArraySuffix_of_not_array (type : String) (h : ends_with type "[]" = false) :
    withoutArraySuffix type = type := by
  unfold withoutArraySuffix
  rw [h]
  rfl

theorem withoutArraySuffix_spec (type : String) :
    ends_with (withoutArraySuffix type) "[]" = false
    ∧ ∃ n, type.data = (withoutArraySuffix type).data ++ arraySuffixes n
        ∧ (0 < n ↔ ends_with type "[]" = true) := by
  cases h : ends_with type "[]" with
  | false =>
    rw [withoutArraySuffix_of_not_array type h]
    exact ⟨h, 0, by simp [arraySuffixes], by simp⟩
  | true =>
    have hw : withoutArraySuffix type = ⟨(resizeWhileArray type.data.reverse).reverse⟩ := by
      unfold withoutArraySuffix
      rw [h]
      rfl
    obtain ⟨⟨n, hn⟩, hnot⟩ := resizeWhileArray_spec type.data.reverse
    rw [hw]
    refine ⟨?_, n, ?_, ?_⟩
    · cases he : ends_with
          (⟨(resizeWhileArray type.data.reverse).reverse⟩ : String) "[]" with
      | false => rfl
      | true =>
        obtain ⟨r, hr⟩ := (ends_with_array_iff _).mp he
        exact absurd ⟨r, by simpa using hr⟩ hnot
    · have := congrArg List.reverse hn
      rw [List.reverse_reverse, List.reverse_append, List.reverse_reverse] at this
      exact this
    · refine ⟨fun _ => rfl, fun _ => ?_⟩
      cases n with
      | succ k => exact Nat.succ_pos k
      | zero =>
        exfalso
        obtain ⟨r, hr⟩ := (ends_with_array_iff type).mp h
        apply hnot
        refine ⟨r, ?_⟩
        have h0 : type.data.reverse = resizeWhileArray type.data.reverse := by
          simpa [arraySuffixes] using hn
        rw [← h0]
        exact hr

theorem arrayLayers_wrapInArrays (n : Nat) (t : IDataType) :
    arrayLayers (wrapInArrays n t) = n + arrayLayers t := by
  induction n generalizing t with
  | zero => simp [wrapInArrays]
  | succ k ih =>
    rw [wrapInArrays, ih]
    simp only [arrayLayers]
    omega

theorem arrayElement_wrapInArrays (n : Nat) (t : IDataType) :
    arrayElement (wrapInArrays n t) = arrayElement t := by
  induction n generalizing t with
  | zero => simp [wrapInArrays]
  | succ k ih =>
    rw [wrapInArrays, ih]
    simp only [arrayElement]


theorem knownTypeName_iff (type : String) :
    knownTypeName type = true
      ↔ (type = "smallint" ∨ type = "integer" ∨ type = "bigint" ∨ type = "boolean"
        ∨ type = "real" ∨ type = "double precision" ∨ type = "serial" ∨ type = "bigserial"
        ∨ starts_with type "timestamp" = true ∨ type = "date" ∨ type = "uuid"
        ∨ starts_with type "numeric" = true) := by
  unfold knownTypeName
  simp only [Bool.or_eq_true, decide_eq_true_eq, or_assoc]

theorem lookupDataType_inv (factory : DataTypeFactory) (type : String) :
    (∃ b, lookupDataType factory type = .ok (some b)
      ∧ hasArrayLayer b = false ∧ arrayLayers b = 0 ∧ arrayElement b = b
      ∧ knownTypeName type = true)
    ∨ (lookupDataType factory type = .ok none ∧ knownTypeName type = false)
    ∨ ∃ e, lookupDataType factory type = .error e
        ∧ starts_with type "numeric" = true ∧ ends_with type ")" = true
        ∧ ((∃ code, factory.get type = .error code ∧ e = .thrownByFactory code)
          ∨ ∃ precision scale, factory.get type = .ok (precision, scale)
              ∧ max_precision .Decimal256 < precision
              ∧ e = .BAD_ARGUMENTS precision scale) := by
  unfold lookupDataType
  by_cases h1 : type = "smallint"
  · rw [if_pos h1]
    exact Or.inl ⟨_, rfl, rfl, rfl, rfl, (knownTypeName_iff type).mpr (by tauto)⟩
  rw [if_neg h1]
  by_cases h2 : type = "integer"
  · rw [if_pos h2]
    exact Or.inl ⟨_, rfl, rfl, rfl, rfl, (knownTypeName_iff type).mpr (by tauto)⟩
  rw [if_neg h2]
  by_cases h3 : type = "bigint"
  · rw [if_pos h3]
    exact Or.inl ⟨_, rfl, rfl, rfl, rfl, (knownTypeName_iff type).mpr (by tauto)⟩
  rw [if_neg h3]
  by_cases h4 : type = "boolean"
  · rw [if_pos h4]
    exact Or.inl ⟨_, rfl, rfl, rfl, rfl, (knownTypeName_iff type).mpr (by tauto)⟩
  rw [if_neg h4]
  by_cases h5 : type = "real"
  · rw [if_pos h5]
    exact Or.inl ⟨_, rfl, rfl, rfl, rfl, (knownTypeName_iff type).mpr (by tauto)⟩
  rw [if_neg h5]
  by_cases h6 : type = "double precision"
  · rw [if_pos h6]
    exact Or.inl ⟨_, rfl, rfl, rfl, rfl, (knownTypeName_iff type).mpr (by tauto)⟩
  rw [if_neg h6]
  by_cases h7 : type = "serial"
  · rw [if_pos h7]
    exact Or.inl ⟨_, rfl, rfl, rfl, rfl, (knownTypeName_iff type).mpr (by tauto)⟩
  rw [if_neg h7]
  by_cases h8 : type = "bigserial"
  · rw [if_pos h8]
    exact Or.inl ⟨_, rfl, rfl, rfl, rfl, (knownTypeName_iff type).mpr (by tauto)⟩
  rw [if_neg h8]
  by_cases h9 : starts_with type "timestamp" = true
  · rw [if_pos h9]
    exact Or.inl ⟨_, rfl, rfl, rfl, rfl, (knownTypeName_iff type).mpr (by tauto)⟩
  rw [if_neg h9]
  by_cases h10 : type = "date"
  · rw [if_pos h10]
    exact Or.inl ⟨_, rfl, rfl, rfl, rfl, (knownTypeName_iff type).mpr (by tauto)⟩
  rw [if_neg h10]
  by_cases h11 : type = "uuid"
  · rw [if_pos h11]
    exact Or.inl ⟨_, rfl, rfl, rfl, rfl, (knownTypeName_iff type).mpr (by tauto)⟩
  rw [if_neg h11]
  by_cases h12 : starts_with type "numeric" = true
  · rw [if_pos h12]
    have hk : knownTypeName type = true := (knownTypeName_iff type).mpr (by tauto)
    by_cases h13 : ends_with type ")" = true
    · rw [if_pos h13]
      cases hget : factory.get type with
      | error code =>
        exact Or.inr (Or.inr ⟨_, rfl, h12, h13, Or.inl ⟨code, rfl, rfl⟩⟩)
      | ok ps =>
        obtain ⟨precision, scale⟩ := ps
        dsimp only
        by_cases g1 : precision ≤ max_precision .Decimal32
        · rw [if_pos g1]
          exact Or.inl ⟨_, rfl, rfl, rfl, rfl, hk⟩
        rw [if_neg g1]
        by_cases g2 : precision ≤ max_precision .Decimal64
        · rw [if_pos g2]
          exact Or.inl ⟨_, rfl, rfl, rfl, rfl, hk⟩
        rw [if_neg g2]
        by_cases g3 : precision ≤ max_precision .Decimal128
        · rw [if_pos g3]
          exact Or.inl ⟨_, rfl, rfl, rfl, rfl, hk⟩
        rw [if_neg g3]
        by_cases g4 : precision ≤ max_precision .Decimal256
        · rw [if_pos g4]
          exact Or.inl ⟨_, rfl, rfl, rfl, rfl, hk⟩
        rw [if_neg g4]
        exact Or.inr (Or.inr ⟨_, rfl, h12, h13,
          Or.inr ⟨precision, scale, rfl, Nat.lt_of_not_le g4, rfl⟩⟩)
    · rw [if_neg h13]
      exact Or.inl ⟨_, rfl, rfl, rfl, rfl, hk⟩
  · rw [if_neg h12]
    refine Or.inr (Or.inl ⟨rfl, ?_⟩)
    cases hk : knownTypeName type with
    | false => rfl
    | true =>
      have := (knownTypeName_iff type).mp hk
      tauto


theorem convertPostgreSQLDataType_of_error (factory : DataTypeFactory) (type : String)
    (is_nullable : Bool) (dimensions : Nat) (e : ConversionException)
    (h : lookupDataType factory (withoutArraySuffix type) = .error e) :
    convertPostgreSQLDataType factory type is_nullable dimensions = .error e := by
  unfold convertPostgreSQLDataType
  dsimp only
  rw [h]

theorem convertPostgreSQLDataType_of_ok (factory : DataTypeFactory) (type : String)
    (is_nullable : Bool) (dimensions : Nat) (res : Option IDataType)
    (h : lookupDataType factory (withoutArraySuffix type) = .ok res) :
    convertPostgreSQLDataType factory type is_nullable dimensions
      = .ok ⟨wrapInArrays
          (if ends_with type "[]" = true then (if dimensions = 0 then 1 else dimensions) else 0)
          (if is_nullable = true then .DataTypeNullable (res.getD .DataTypeString)
            else res.getD .DataTypeString),
        withoutArraySuffix type,
        if ends_with type "[]" = true ∧ dimensions = 0 then 1 else 0⟩ := by
  unfold convertPostgreSQLDataType
  dsimp only
  rw [h]
  dsimp only
  cases ends_with type "[]" <;> cases is_nullable <;> by_cases hd : dimensions = 0 <;>
    simp [hd, wrapInArrays]

theorem hasArrayLayer_element (factory : DataTypeFactory) (type : String)
    (is_nullable : Bool) (res : Option IDataType)
    (h : lookupDataType factory type = .ok res) :
    hasArrayLayer (if is_nullable = true then .DataTypeNullable (res.getD .DataTypeString)
      else res.getD .DataTypeString) = false
    ∧ arrayLayers (if is_nullable = true then .DataTypeNullable (res.getD .DataTypeString)
      else res.getD .DataTypeString) = 0
    ∧ arrayElement (if is_nullable = true then .DataTypeNullable (res.getD .DataTypeString)
      else res.getD .DataTypeString)
        = (if is_nullable = true then .DataTypeNullable (res.getD .DataTypeString)
          else res.getD .DataTypeString) := by
  have hb : hasArrayLayer (res.getD .DataTypeString) = false
      ∧ arrayLayers (res.getD .DataTypeString) = 0
      ∧ arrayElement (res.getD .DataTypeString) = res.getD .DataTypeString := by
    cases res with
    | none => exact ⟨rfl, rfl, rfl⟩
    | some b =>
      rcases lookupDataType_inv factory type with ⟨b2, h2, ha, hl, he, _⟩ | ⟨h2, _⟩ | ⟨e, h2, _⟩
      · rw [h] at h2
        injection h2 with h2
        injection h2 with h2
        subst h2
        exact ⟨ha, hl, he⟩
      · rw [h] at h2
        injection h2 with h2
        exact Option.noConfusion h2
      · rw [h] at h2
        exact Except.noConfusion h2
  cases is_nullable with
  | false => exact hb
  | true => exact ⟨hb.1, rfl, rfl⟩

/-- C31: array handling of `convertPostgreSQLDataType`.  Whatever the data type
library, the type name, `is_nullable` and `dimensions`:
the name the base type is looked up under does not end with "[]" and is the
type name without its trailing "[]" suffixes, of which there is at least one
exactly when the type name ends with "[]";
when the lookup throws, the conversion throws the same exception, and when it
gives a result the conversion returns: the data type is the base type (String
when no comparison matched), wrapped in Nullable when `is_nullable` is set and
then in `dimensions` Array layers for a name ending with "[]" and
`dimensions > 0`, in one Array layer for such a name and `dimensions = 0`, in
none otherwise; `recheck_array` is invoked once for a name ending with "[]"
and `dimensions = 0`, and never otherwise; what is inside the Array layers has
no Array layer;
the lookup gives no type, hence String, exactly for the names that match no
comparison; and it throws only for a name that starts with "numeric" and ends
with ")", when the data type factory throws or gives a precision above that of
`Decimal256`. -/
theorem convert_array_handling (factory : DataTypeFactory) (type : String)
    (is_nullable : Bool) (dimensions : Nat) :
    (ends_with (withoutArraySuffix type) "[]" = false
      ∧ ∃ n, type.data = (withoutArraySuffix type).data ++ arraySuffixes n
          ∧ (0 < n ↔ ends_with type "[]" = true))
    ∧ (∀ e, lookupDataType factory (withoutArraySuffix type) = .error e →
        convertPostgreSQLDataType factory type is_nullable dimensions = .error e)
    ∧ (∀ res, lookupDataType factory (withoutArraySuffix type) = .ok res →
        convertPostgreSQLDataType factory type is_nullable dimensions
          = .ok ⟨wrapInArrays
              (if ends_with type "[]" = true then (if dimensions = 0 then 1 else dimensions)
                else 0)
              (if is_nullable = true then .DataTypeNullable (res.getD .DataTypeString)
                else res.getD .DataTypeString),
            withoutArraySuffix type,
            if ends_with type "[]" = true ∧ dimensions = 0 then 1 else 0⟩
        ∧ arrayLayers (wrapInArrays
              (if ends_with type "[]" = true then (if dimensions = 0 then 1 else dimensions)
                else 0)
              (if is_nullable = true then .DataTypeNullable (res.getD .DataTypeString)
                else res.getD .DataTypeString))
            = (if ends_with type "[]" = true then (if dimensions = 0 then 1 else dimensions)
                else 0)
        ∧ arrayElement (wrapInArrays
              (if ends_with type "[]" = true then (if dimensions = 0 then 1 else dimensions)
                else 0)
              (if is_nullable = true then .DataTypeNullable (res.getD .DataTypeString)
                else res.getD .DataTypeString))
            = (if is_nullable = true then .DataTypeNullable (res.getD .DataTypeString)
                else res.getD .DataTypeString)
        ∧ hasArrayLayer
            (if is_nullable = true then .DataTypeNullable (res.getD .DataTypeString)
              else res.getD .DataTypeString) = false)
    ∧ (ends_with type "[]" = false →
        withoutArraySuffix type = type
        ∧ ∀ out, convertPostgreSQLDataType factory type is_nullable dimensions = .ok out →
            hasArrayLayer out.res = false ∧ out.recheck_array = 0)
    ∧ (lookupDataType factory (withoutArraySuffix type) = .ok none
        ↔ knownTypeName (withoutArraySuffix type) = false)
    ∧ (∀ e, convertPostgreSQLDataType factory type is_nullable dimensions = .error e →
        starts_with (withoutArraySuffix type) "numeric" = true
        ∧ ends_with (withoutArraySuffix type) ")" = true
        ∧ ((∃ code, factory.get (withoutArraySuffix type) = .error code
              ∧ e = .thrownByFactory code)
          ∨ ∃ precision scale,
              factory.get (withoutArraySuffix type) = .ok (precision, scale)
              ∧ max_precision .Decimal256 < precision
              ∧ e = .BAD_ARGUMENTS precision scale)) := by
  refine ⟨withoutArraySuffix_spec type, ?_, ?_, ?_, (by
    rcases lookupDataType_inv factory (withoutArraySuffix type) with
      ⟨b, h2, _, _, _, hk⟩ | ⟨h2, hk⟩ | ⟨e3, h2, h3⟩
    · rw [h2, hk]
      constructor
      · intro h
        injection h with h
        exact Option.noConfusion h
      · intro h
        exact Bool.noConfusion h
    · exact ⟨fun _ => hk, fun _ => h2⟩
    · rw [h2]
      constructor
      · intro h
        exact Except.noConfusion h
      · intro hk
        have := (knownTypeName_iff _).mpr
          (Or.inr (Or.inr (Or.inr (Or.inr (Or.inr (Or.inr (Or.inr (Or.inr (Or.inr (Or.inr
            (Or.inr h3.1)))))))))))
        rw [hk] at this
        exact Bool.noConfusion this), ?_⟩
  · intro e h
    exact convertPostgreSQLDataType_of_error factory type is_nullable dimensions e h
  · intro res h
    obtain ⟨ha, hl, he⟩ := hasArrayLayer_element factory _ is_nullable res h
    refine ⟨convertPostgreSQLDataType_of_ok factory type is_nullable dimensions res h,
      ?_, ?_, ha⟩
    · rw [arrayLayers_wrapInArrays, hl]
      rfl
    · rw [arrayElement_wrapInArrays, he]
  · intro hnot
    refine ⟨withoutArraySuffix_of_not_array type hnot, ?_⟩
    intro out hout
    cases hl : lookupDataType factory (withoutArraySuffix type) with
    | error e =>
      rw [convertPostgreSQLDataType_of_error factory type is_nullable dimensions e hl] at hout
      exact Except.noConfusion hout
    | ok res =>
      obtain ⟨ha, _, _⟩ := hasArrayLayer_element factory _ is_nullable res hl
      rw [convertPostgreSQLDataType_of_ok factory type is_nullable dimensions res hl] at hout
      injection hout with hout
      rw [← hout]
      dsimp only
      simp only [hnot, Bool.false_eq_true, if_false, false_and]
      exact ⟨ha, trivial⟩
  · intro e he
    cases hl : lookupDataType factory (withoutArraySuffix type) with
    | error e2 =>
      rw [convertPostgreSQLDataType_of_error factory type is_nullable dimensions e2 hl] at he
      injection he with he
      subst he
      rcases lookupDataType_inv factory (withoutArraySuffix type) with
        ⟨b, h2, _⟩ | ⟨h2, _⟩ | ⟨e3, h2, h3⟩
      · rw [hl] at h2
        exact Except.noConfusion h2
      · rw [hl] at h2
        exact Except.noConfusion h2
      · rw [hl] at h2
        injection h2 with h2
        subst h2
        exact h3
    | ok res =>
      rw [convertPostgreSQLDataType_of_ok factory type is_nullable dimensions res hl] at he
      exact Except.noConfusion he


/-- C31 at the type name "integer[][]": with `is_nullable` set and two dimensions
the result is Array(Array(Nullable(Int32))) and `recheck_array` is not
invoked; with no dimensions given it is Array(Int32) and `recheck_array` is
invoked once. -/
theorem convert_array_handling_witness :
    lookupDataType emptyFactory (withoutArraySuffix "integer[][]")
      = .ok (some .DataTypeInt32)
    ∧ convertPostgreSQLDataType emptyFactory "integer[][]" true 2
      = .ok ⟨.DataTypeArray (.DataTypeArray (.DataTypeNullable .DataTypeInt32)), "integer", 0⟩
    ∧ convertPostgreSQLDataType emptyFactory "integer[][]" false 0
      = .ok ⟨.DataTypeArray .DataTypeInt32, "integer", 1⟩ :=
  ⟨rfl,
    ((convert_array_handling emptyFactory "integer[][]" true 2).2.2.1
      (some .DataTypeInt32) rfl).1,
    ((convert_array_handling emptyFactory "integer[][]" false 0).2.2.1
      (some .DataTypeInt32) rfl).1⟩

theorem convert_samples :
    convertPostgreSQLDataType emptyFactory "integer" true 3
      = .ok ⟨.DataTypeNullable .DataTypeInt32, "integer", 0⟩
    ∧ convertPostgreSQLDataType emptyFactory "point[]" false 1
      = .ok ⟨.DataTypeArray .DataTypeString, "point", 0⟩
    ∧ convertPostgreSQLDataType emptyFactory "timestamp with time zone[][][]" true 3
      = .ok ⟨.DataTypeArray (.DataTypeArray (.DataTypeArray
          (.DataTypeNullable (.DataTypeDateTime64 6)))), "timestamp with time zone", 0⟩
    ∧ convertPostgreSQLDataType sampleFactory "numeric(20,4)[]" false 1
      = .ok ⟨.DataTypeArray (.DataTypeDecimal .Decimal128 20 4), "numeric(20,4)", 0⟩
    ∧ convertPostgreSQLDataType emptyFactory "numeric(20,4)[]" false 1
      = .error (.thrownByFactory 50)
    ∧ convertPostgreSQLDataType emptyFactory "numeric" false 0
      = .ok ⟨.DataTypeDecimal .Decimal128 38 19, "numeric", 0⟩ :=
  ⟨rfl, rfl, rfl, rfl, rfl, rfl⟩

end DB
